import Mathlib

/-!
Verification of the x402-indexer enrichment pipeline.

This file gives a shallow embedding, in Lean 4, of the core components of the
x402 Bazaar indexer: the SSRF URL validator (src/utils/url-validator.ts), the
retrying fetch client (src/utils/fetch-with-timeout.ts), the amount formatter
(src/utils/formatting.ts), the single-request health checker
(src/health-checker.ts), the multi-source merge step of the indexer
(src/indexer.ts), and the persistence layer (src/db/repository.ts).

JavaScript strings are modelled as Lean strings (lists of characters, ASCII in
all relevant inputs), JS numbers that hold small integers as Nat, JS BigInt as
Int, and SQL numeric aggregates as rationals.  The network and the wall clock
are modelled as explicit environment parameters: a fetch behaviour maps the
attempt index to either a response or a thrown error message.
-/

set_option autoImplicit false

namespace X402

/-! ## Character and list-of-character utilities (JS string primitives) -/

/-- ASCII lowercasing of a character, as JS toLowerCase acts on ASCII. -/
def lowChar (c : Char) : Char := c.toLower

/-- ASCII uppercasing of a character, as JS toUpperCase acts on ASCII. -/
def upChar (c : Char) : Char := c.toUpper

/-- Lowercase a character list. -/
def lowCL (cs : List Char) : List Char := cs.map lowChar

/-- Uppercase a character list. -/
def upCL (cs : List Char) : List Char := cs.map upChar

/-- JS String.prototype.toLowerCase on a Lean string. -/
def lowerStr (s : String) : String := String.mk (lowCL s.data)

/-- Boolean test that one character list is a prefix of another. -/
def isPrefCL : List Char → List Char → Bool
  | [], _ => true
  | _ :: _, [] => false
  | a :: as, b :: bs => a == b && isPrefCL as bs

/-- JS String.prototype.includes: does sub occur contiguously in l. -/
def includesCL (l sub : List Char) : Bool :=
  match l with
  | [] => isPrefCL sub []
  | _ :: rest => isPrefCL sub l || includesCL rest sub

/-- Split a character list at every occurrence of the separator character.
Mirrors JS String.prototype.split with a single-character separator. -/
def splitCL (sep : Char) : List Char → List (List Char)
  | [] => [[]]
  | c :: rest =>
    let r := splitCL sep rest
    if c == sep then [] :: r
    else
      match r with
      | [] => [[c]]
      | p :: ps => (c :: p) :: ps

/-- Join character lists with a separator character (inverse of splitCL). -/
def joinCL (sep : Char) : List (List Char) → List Char
  | [] => []
  | [p] => p
  | p :: ps => p ++ sep :: joinCL sep ps

/-- Decimal digit test, the JS regex class for a digit (code points 48-57). -/
def isDigitCh (c : Char) : Bool := 48 ≤ c.toNat && c.toNat ≤ 57

/-- Hex digit test covering both cases, the JS class 0-9a-fA-F. -/
def isHexCh (c : Char) : Bool :=
  isDigitCh c || (97 ≤ c.toNat && c.toNat ≤ 102) || (65 ≤ c.toNat && c.toNat ≤ 70)

/-- Value of a decimal digit character. -/
def digitVal (c : Char) : Nat := c.toNat - 48

/-- Value of a hex digit character of either case. -/
def hexVal (c : Char) : Nat :=
  if isDigitCh c then c.toNat - 48
  else if 97 ≤ c.toNat && c.toNat ≤ 102 then c.toNat - 87
  else c.toNat - 55

/-- Character for a digit below ten. -/
def digitCh (d : Nat) : Char := Char.ofNat (48 + d)

/-- Lowercase character for a digit below sixteen. -/
def hexCh (d : Nat) : Char := if d < 10 then digitCh d else Char.ofNat (87 + d)

/-! ## Decimal and hexadecimal rendering and parsing

The renderers are fuel-based so that they reduce inside the kernel; the fuel
argument is always large enough, and a bridge lemma identifies them with
Mathlib digit lists for proofs. -/

/-- Little-endian digits of n in base b, with explicit fuel. -/
def digitsLEAux (b : Nat) : Nat → Nat → List Nat
  | 0, _ => []
  | _ + 1, 0 => []
  | fuel + 1, n + 1 => (n + 1) % b :: digitsLEAux b fuel ((n + 1) / b)

/-- Decimal rendering of a natural number, as JS String(n) or template
interpolation of a small integer. -/
def natToDecCL (n : Nat) : List Char :=
  if n = 0 then ['0'] else ((digitsLEAux 10 n n).map digitCh).reverse

/-- Lowercase hexadecimal rendering of a natural number, as JS
Number.prototype.toString(16). -/
def natToHexCL (n : Nat) : List Char :=
  if n = 0 then ['0'] else ((digitsLEAux 16 n n).map hexCh).reverse

/-- Parse a non-empty all-digit character list as a decimal natural number,
as JS Number on a digit string. -/
def decParse? (cs : List Char) : Option Nat :=
  if cs ≠ [] && cs.all isDigitCh then
    some (cs.foldl (fun acc c => acc * 10 + digitVal c) 0)
  else none

/-- Parse a non-empty all-hex character list, as JS parseInt(s, 16). -/
def hexParse? (cs : List Char) : Option Nat :=
  if cs ≠ [] && cs.all isHexCh then
    some (cs.foldl (fun acc c => acc * 16 + hexVal c) 0)
  else none

/-! ## Bounded fetch client (src/utils/fetch-with-timeout.ts)

A fetch behaviour maps the 0-indexed attempt number to the outcome the network
produces for that attempt: a response (with its status and, for a 402, the
payment metadata the indexer would extract from it) or a thrown error,
identified by its message. -/

/-- Payment pricing record as stored per (network, asset) pair. -/
structure PricingInfoM where
  scheme : String
  network : String
  maxAmountRequired : Option String
  formattedAmount : Option String
  asset : String
  payTo : String
  maxTimeoutSeconds : Option Nat
  deriving DecidableEq, Repr

/-- A raw payment requirement as schema-validated from a 402 response. -/
structure PaymentReqM where
  scheme : String
  network : String
  maxAmountRequired : Option String
  description : Option String
  asset : String
  payTo : String
  maxTimeoutSeconds : Option Nat
  deriving DecidableEq, Repr

/-- An HTTP response as the health checker consumes it: the status code plus
the payment metadata that the (separately specified) header/body extraction
would yield when the status is 402. -/
structure RespM where
  status : Nat
  pricing : List PricingInfoM
  rawReqs : List PaymentReqM
  deriving DecidableEq, Repr

/-- Outcome of one fetch attempt: a response, or a thrown error message. -/
inductive FetchOut where
  | resp (r : RespM)
  | err (msg : String)
  deriving DecidableEq, Repr

/-- A fetch behaviour: what the network does on each 0-indexed attempt. -/
def FetchBehaviour : Type := Nat → FetchOut

/-- isRetryableError from src/utils/fetch-with-timeout.ts: an error is
transient when its lowercased message contains one of the listed fragments. -/
def isRetryableError (msg : String) : Bool :=
  let m := lowCL msg.data
  includesCL m "network".data ||
  includesCL m "timeout".data ||
  includesCL m "abort".data ||
  includesCL m "econnreset".data ||
  includesCL m "econnrefused".data ||
  includesCL m "enotfound".data ||
  includesCL m "socket".data

/-- Observable event of a retrying fetch execution: an attempt with its
0-indexed number, or a backoff sleep of the given number of milliseconds. -/
inductive REvent where
  | att (idx : Nat)
  | del (ms : Nat)
  deriving DecidableEq, Repr

deriving instance DecidableEq for Except

/-- Result of a retrying fetch execution: the final outcome together with the
ordered list of attempts and sleeps that were performed. -/
structure RetryRun where
  result : Except String RespM
  events : List REvent
  deriving DecidableEq, Repr

/-- The loop body of fetchWithRetry: attempt is the current 0-indexed attempt
number and remaining is how many further attempts the retry budget allows.
On a thrown error the loop rethrows when the error is not transient or the
budget is exhausted, and otherwise sleeps retryDelayMs * 2 ^ attempt before
the next attempt. -/
def fetchRetryAux (f : FetchBehaviour) (retryDelayMs : Nat) :
    Nat → Nat → RetryRun
  | attempt, 0 =>
    match f attempt with
    | .resp r => ⟨.ok r, [.att attempt]⟩
    | .err m => ⟨.error m, [.att attempt]⟩
  | attempt, remaining + 1 =>
    match f attempt with
    | .resp r => ⟨.ok r, [.att attempt]⟩
    | .err m =>
      if isRetryableError m then
        let rest := fetchRetryAux f retryDelayMs (attempt + 1) remaining
        ⟨rest.result, .att attempt :: .del (retryDelayMs * 2 ^ attempt) :: rest.events⟩
      else ⟨.error m, [.att attempt]⟩

/-- fetchWithRetry from src/utils/fetch-with-timeout.ts, over a fetch
behaviour: up to retries + 1 attempts, retrying only transient errors, with
exponential backoff delay retryDelayMs * 2 ^ attempt after failed attempt
number attempt. -/
def fetchWithRetry (f : FetchBehaviour) (retries retryDelayMs : Nat) : RetryRun :=
  fetchRetryAux f retryDelayMs 0 retries

/-! ## Amount formatting (src/utils/formatting.ts)

JS BigInt is modelled as Int; BigInt string parsing is modelled after the JS
BigInt constructor: optional whitespace, empty string is zero, an optional
sign followed by decimal digits, or an unsigned 0x / 0o / 0b literal. -/

/-- JS whitespace characters relevant to BigInt string trimming. -/
def isWSCh (c : Char) : Bool := c == ' ' || c == '\t' || c == '\n' || c == '\r'

/-- Parse an unsigned digit run in the given base, rejecting digits that are
out of range for the base. -/
def baseRunParse? (base : Nat) (cs : List Char) : Option Nat :=
  if cs ≠ [] && cs.all (fun c => isHexCh c && hexVal c < base) then
    some (cs.foldl (fun acc c => acc * base + hexVal c) 0)
  else none

/-- The JS BigInt constructor on a string: none models a thrown SyntaxError. -/
def jsBigInt? (s : String) : Option Int :=
  let t := (s.data.dropWhile isWSCh).reverse.dropWhile isWSCh |>.reverse
  match t with
  | [] => some 0
  | '0' :: 'x' :: rest => (baseRunParse? 16 rest).map Int.ofNat
  | '0' :: 'X' :: rest => (baseRunParse? 16 rest).map Int.ofNat
  | '0' :: 'o' :: rest => (baseRunParse? 8 rest).map Int.ofNat
  | '0' :: 'O' :: rest => (baseRunParse? 8 rest).map Int.ofNat
  | '0' :: 'b' :: rest => (baseRunParse? 2 rest).map Int.ofNat
  | '0' :: 'B' :: rest => (baseRunParse? 2 rest).map Int.ofNat
  | '+' :: rest => (decParse? rest).map Int.ofNat
  | '-' :: rest => (decParse? rest).map (fun n => -(n : Int))
  | _ => (decParse? t).map Int.ofNat

/-- Decimal rendering of an integer, as JS BigInt.prototype.toString. -/
def intToDecCL (i : Int) : List Char :=
  if i < 0 then '-' :: natToDecCL i.natAbs else natToDecCL i.natAbs

/-- JS String.prototype.padStart with a single-character pad. -/
def padStartCL (n : Nat) (c : Char) (cs : List Char) : List Char :=
  if n ≤ cs.length then cs else List.replicate (n - cs.length) c ++ cs

/-- JS replace of the regex of one or more trailing zeros by the empty
string: drop every trailing zero character. -/
def trimZeroesCL (cs : List Char) : List Char :=
  ((cs.reverse.dropWhile (fun c => c == '0')).reverse)

/-- Symbol and decimal count for a token. -/
structure TokenInfo where
  symbol : String
  decimals : Nat
  deriving DecidableEq, Repr

/-- KNOWN_TOKENS from src/utils/formatting.ts, in source order.  The keys are
exactly the key strings of the source object literal. -/
def KNOWN_TOKENS : List (String × TokenInfo) :=
  [ ("0x833589fcd6edb6e08f4c7c32d4f71b54bda02913", ⟨"USDC", 6⟩),
    ("0x036cbd53842c5426634e7929541ec2318f3dcf7e", ⟨"USDC", 6⟩),
    ("0xaf88d065e77c8cc2239327c5edb3a432268e5831", ⟨"USDC", 6⟩),
    ("0xa0b86991c6218b36c1d19d4a2e9eb0ce3606eb48", ⟨"USDC", 6⟩),
    ("0x3c499c542cef5e3811e1192ce70d8cc03d5c3359", ⟨"USDC", 6⟩),
    ("0xb97ef9ef8734c71904d8002f8b6bc66dd9c48a6e", ⟨"USDC", 6⟩),
    ("epjfwdd5aufqssqem2qn1xzybapC8g4weggkzwytdt1v", ⟨"USDC", 6⟩),
    ("0xdac17f958d2ee523a2206206994597c13d831ec7", ⟨"USDT", 6⟩),
    ("0xc2132d05d31c914a87c6611c10748aeb04b58e8f", ⟨"USDT", 6⟩),
    ("0xc02aaa39b223fe8d0a0e5c4f27ead9083c756cc2", ⟨"WETH", 18⟩),
    ("0x4200000000000000000000000000000000000006", ⟨"WETH", 18⟩),
    ("0x2260fac5e5542a773aa44fbcfedf7c193bc2c599", ⟨"WBTC", 8⟩),
    ("0x6b175474e89094c44da98b954eedeac495271d0f", ⟨"DAI", 18⟩),
    ("0x50c5725949a6f0c72e6c4a641f24049a917db0cb", ⟨"DAI", 18⟩) ]

/-- getTokenInfo from src/utils/formatting.ts: look the lowercased asset up
in the known-token table, then fall back to substring heuristics on the
uppercased asset, then to an 18-decimal default whose symbol shortens an
address-shaped asset to its first 6 and last 4 characters. -/
def getTokenInfo (asset : String) : TokenInfo :=
  let lowerAsset := lowerStr asset
  match KNOWN_TOKENS.lookup lowerAsset with
  | some known => known
  | none =>
    let upper := upCL asset.data
    if includesCL upper "USDC".data || includesCL upper "USDT".data then
      ⟨if includesCL upper "USDC".data then "USDC" else "USDT", 6⟩
    else if includesCL upper "WETH".data || includesCL upper "ETH".data then
      ⟨"ETH", 18⟩
    else if includesCL upper "WBTC".data || includesCL upper "BTC".data then
      ⟨"BTC", 8⟩
    else if includesCL upper "DAI".data then ⟨"DAI", 18⟩
    else
      let symbol :=
        if isPrefCL "0x".data asset.data && asset.data.length > 10 then
          String.mk (asset.data.take 6 ++ "...".data ++
            asset.data.drop (asset.data.length - 4))
        else asset
      ⟨symbol, 18⟩

/-- getAssetSymbol from src/utils/formatting.ts. -/
def getAssetSymbol (asset : String) : String := (getTokenInfo asset).symbol

/-- formatAmount from src/utils/formatting.ts: parse the atomic amount as a
BigInt (a parse failure yields the raw rendering), divide by 10 ^ decimals
with truncation, left-pad the remainder to the decimal count, strip trailing
fractional zeros, and append the symbol. -/
def formatAmount (atomicAmount asset : String) : String :=
  match jsBigInt? atomicAmount with
  | none => atomicAmount ++ " (raw)"
  | some amount =>
    let info := getTokenInfo asset
    let divisor : Int := (10 : Int) ^ info.decimals
    let wholePart := amount.tdiv divisor
    let fractionalPart := amount.tmod divisor
    let fractionalStr := padStartCL info.decimals '0' (intToDecCL fractionalPart)
    let trimmed := trimZeroesCL fractionalStr
    let trimmedFractional := if trimmed = [] then ['0'] else trimmed
    if trimmedFractional = ['0'] then
      String.mk (intToDecCL wholePart) ++ " " ++ info.symbol
    else
      String.mk (intToDecCL wholePart ++ '.' :: trimmedFractional) ++ " " ++ info.symbol

/-- The hex characters an ERC-20-shaped address may contain after its 0x
prefix. -/
def hexDigitChars : String := "0123456789abcdefABCDEF"

/-! ## URL validator (src/utils/url-validator.ts)

The validator calls the platform WHATWG URL parser (new URL) and then runs
pure string checks on the parsed protocol and hostname.  The parser is
modelled below at the fidelity the validator needs: scheme extraction and
lowercasing, authority splitting, and host normalization — IPv4 hosts are
parsed (decimal, octal and hex parts) and re-rendered in dotted-decimal form,
IPv6 hosts are parsed and re-rendered in the canonical compressed lowercase
hex form.  Percent-encoded and non-ASCII hosts are treated as parse failures
(a modelling restriction, not exercised by any claim). -/

/-- Result type of validateUrl. -/
structure UrlValidationResult where
  valid : Bool
  error : Option String
  deriving DecidableEq, Repr

/-- BLOCKED_HOSTNAMES from src/utils/url-validator.ts. -/
def BLOCKED_HOSTNAMES : List String :=
  [ "localhost", "127.0.0.1", "0.0.0.0", "::1", "[::]", "[::1]",
    "metadata.google.internal", "metadata.goog", "169.254.169.254" ]

/-- The regex match of isPrivateIPv4: exactly four dot-separated non-empty
digit runs, converted to numbers. -/
def parse4Groups? (cs : List Char) : Option (Nat × Nat × Nat × Nat) :=
  match splitCL '.' cs with
  | [p1, p2, p3, p4] =>
    match decParse? p1, decParse? p2, decParse? p3, decParse? p4 with
    | some a, some b, some c, some d => some (a, b, c, d)
    | _, _, _, _ => none
  | _ => none

/-- isPrivateIPv4 from src/utils/url-validator.ts: the hostname matches the
dotted-quad regex and its first octets land in a private or reserved range. -/
def isPrivateIPv4 (hostname : String) : Bool :=
  match parse4Groups? hostname.data with
  | none => false
  | some (a, b, _, _) =>
    a == 10 || a == 127 || (a == 172 && 16 ≤ b && b ≤ 31) ||
    (a == 192 && b == 168) || (a == 169 && b == 254) || a == 0

/-- The bracket-stripping replace of isPrivateIPv6: remove one leading
opening bracket and one trailing closing bracket. -/
def stripBrackets (cs : List Char) : List Char :=
  let a := if cs.head? = some '[' then cs.tail else cs
  if a.getLast? = some ']' then a.dropLast else a

/-- The regex test for a unique-local prefix: f, then c or d, then two hex
digits, then a colon. -/
def testULA (cs : List Char) : Bool :=
  match cs with
  | c0 :: c1 :: c2 :: c3 :: c4 :: _ =>
    c0 == 'f' && (c1 == 'c' || c1 == 'd') && isHexCh c2 && isHexCh c3 && c4 == ':'
  | _ => false

/-- The regex test for a link-local prefix: f, e, then one of 8 9 a b, then
one hex digit, then a colon. -/
def testLinkLocal (cs : List Char) : Bool :=
  match cs with
  | c0 :: c1 :: c2 :: c3 :: c4 :: _ =>
    c0 == 'f' && c1 == 'e' && (c2 == '8' || c2 == '9' || c2 == 'a' || c2 == 'b') &&
    isHexCh c3 && c4 == ':'
  | _ => false

/-- The regex match of the hex form of an IPv4-mapped tail: exactly two
colon-separated runs of one to four hex digits, hex-parsed. -/
def hexPairParse? (cs : List Char) : Option (Nat × Nat) :=
  match splitCL ':' cs with
  | [h1, h2] =>
    if 1 ≤ h1.length && h1.length ≤ 4 && h1.all isHexCh &&
       1 ≤ h2.length && h2.length ≤ 4 && h2.all isHexCh then
      match hexParse? h1, hexParse? h2 with
      | some x, some y => some (x, y)
      | _, _ => none
    else none
  | _ => none

/-- isPrivateIPv6 from src/utils/url-validator.ts: strip brackets and
lowercase, test loopback and unspecified spellings, unique-local and
link-local prefixes, and the IPv4-mapped prefix whose embedded address (in
dotted or hex form) is private. -/
def isPrivateIPv6 (hostname : String) : Bool :=
  let clean := lowCL (stripBrackets hostname.data)
  if clean = "::1".data || clean = "0:0:0:0:0:0:0:1".data then true
  else if clean = "::".data || clean = "0:0:0:0:0:0:0:0".data then true
  else if testULA clean then true
  else if testLinkLocal clean then true
  else if isPrefCL "::ffff:".data clean then
    let ipv4Part := clean.drop 7
    if isPrivateIPv4 (String.mk ipv4Part) then true
    else
      match hexPairParse? ipv4Part with
      | some (high, low) =>
        let a := high / 256 % 256
        let b := high % 256
        let c := low / 256 % 256
        let d := low % 256
        isPrivateIPv4 (String.mk (natToDecCL a ++ '.' :: natToDecCL b ++ '.' ::
          natToDecCL c ++ '.' :: natToDecCL d))
      | none => false
  else false

/-! ### Model of the platform URL parser -/

/-- A parsed host: an ASCII domain (lowercased), a parsed IPv4 address, or a
parsed IPv6 address of eight 16-bit groups. -/
inductive HostM where
  | domain (s : List Char)
  | ipv4 (n : Nat)
  | ipv6 (g : List Nat)
  deriving DecidableEq, Repr

/-- The parsed URL data the validator consumes. -/
structure JsUrlM where
  protocol : String
  host : HostM
  deriving DecidableEq, Repr

/-- Dotted-decimal serialization of a parsed IPv4 address. -/
def renderIPv4 (n : Nat) : List Char :=
  natToDecCL (n / 16777216 % 256) ++ '.' :: natToDecCL (n / 65536 % 256) ++
  '.' :: natToDecCL (n / 256 % 256) ++ '.' :: natToDecCL (n % 256)

/-- Length of the run of true values at the head of the list. -/
def runLenFrom : List Bool → Nat
  | [] => 0
  | false :: _ => 0
  | true :: t => runLenFrom t + 1

/-- Leftmost longest run of true values of length at least two: start index
and length.  Used for the double-colon compression of the canonical IPv6
serialization. -/
def bestRun (p : List Bool) : Option (Nat × Nat) :=
  let best := (List.range p.length).foldl
    (fun acc i =>
      let l := runLenFrom (p.drop i)
      if l > acc.2 then (i, l) else acc) (0, 0)
  if 2 ≤ best.2 then some best else none

/-- Canonical (WHATWG) serialization of an IPv6 address: lowercase hex groups
joined by colons, with the leftmost longest zero run of length at least two
compressed to a double colon. -/
def canonV6 (g : List Nat) : List Char :=
  let pieces := g.map natToHexCL
  match bestRun (g.map (fun x => x == 0)) with
  | none => joinCL ':' pieces
  | some (s, l) =>
    joinCL ':' (pieces.take s) ++ ':' :: ':' :: joinCL ':' (pieces.drop (s + l))

/-- Hostname string of a parsed host, as the hostname property renders it
(IPv6 hosts keep their surrounding brackets). -/
def hostStringCL : HostM → List Char
  | .domain s => s
  | .ipv4 n => renderIPv4 n
  | .ipv6 g => '[' :: canonV6 g ++ [']']

/-- ASCII letter test (code points 97-122 and 65-90). -/
def isAlphaCh (c : Char) : Bool :=
  (97 ≤ c.toNat && c.toNat ≤ 122) || (65 ≤ c.toNat && c.toNat ≤ 90)

/-- Scheme characters after the first. -/
def isSchemeCh (c : Char) : Bool :=
  isAlphaCh c || isDigitCh c || c == '+' || c == '-' || c == '.'

/-- Forbidden host code points of the URL standard; the model also treats
percent signs and non-ASCII characters as failures. -/
def isForbiddenHostCh (c : Char) : Bool :=
  c == '\x00' || c == '\t' || c == '\n' || c == '\r' || c == ' ' || c == '#' ||
  c == '/' || c == ':' || c == '<' || c == '>' || c == '?' || c == '@' ||
  c == '[' || c == '\\' || c == ']' || c == '^' || c == '|' || c == '%' ||
  decide (128 ≤ c.toNat)

/-- The IPv4 number parser of the URL standard: hex with an 0x prefix, octal
with a leading zero, decimal otherwise; an empty run after a prefix is zero. -/
def ipv4NumberParse? (part : List Char) : Option Nat :=
  match part with
  | '0' :: 'x' :: rest => if rest = [] then some 0 else baseRunParse? 16 rest
  | '0' :: 'X' :: rest => if rest = [] then some 0 else baseRunParse? 16 rest
  | '0' :: c :: rest => baseRunParse? 8 (c :: rest)
  | _ => decParse? part

/-- Positional combination of IPv4 parts: every part but the last is one
octet, and the last part covers the remaining low bytes. -/
def ipv4Combine (firsts : List Nat) (last : Nat) : Nat :=
  (firsts.foldl (fun acc v => acc * 256 + v) 0) * 256 ^ (4 - firsts.length) + last

/-- Apply a fallible function to every element, failing as a whole when any
single application fails. -/
def mapOpt {α β : Type} (f : α → Option β) : List α → Option (List β)
  | [] => some []
  | a :: l =>
    match f a, mapOpt f l with
    | some b, some bs => some (b :: bs)
    | _, _ => none

/-- The IPv4 host parser of the URL standard: up to four dot-separated parts
(one trailing dot allowed), each parsed as an IPv4 number, with range checks
on every part and on the combined value. -/
def ipv4Parse? (s : List Char) : Option Nat :=
  let parts := splitCL '.' s
  let parts := if parts.getLast? = some [] then parts.dropLast else parts
  if parts.length = 0 || 4 < parts.length then none
  else
    match mapOpt ipv4NumberParse? parts with
    | none => none
    | some vals =>
      match vals.getLast? with
      | none => none
      | some lastV =>
        let firsts := vals.dropLast
        if firsts.any (fun v => 256 ≤ v) then none
        else if 256 ^ (5 - vals.length) ≤ lastV then none
        else some (ipv4Combine firsts lastV)

/-- The ends-in-a-number check of the URL standard host parser. -/
def endsInNumber (s : List Char) : Bool :=
  let parts := splitCL '.' s
  let parts := if parts.getLast? = some [] then parts.dropLast else parts
  match parts.getLast? with
  | none => false
  | some lastP =>
    (lastP ≠ [] && lastP.all isDigitCh) || (ipv4NumberParse? lastP).isSome

/-- Strict dotted-decimal IPv4 parse used for an IPv4 tail inside an IPv6
literal: four plain decimal octets, no leading zeros, each below 256.
Returns the two 16-bit groups the four octets embed. -/
def strictDotted? (s : List Char) : Option (Nat × Nat) :=
  match splitCL '.' s with
  | [p1, p2, p3, p4] =>
    let okPart := fun (p : List Char) =>
      p ≠ [] && p.all isDigitCh && (p.length = 1 || p.headI ≠ '0')
    if okPart p1 && okPart p2 && okPart p3 && okPart p4 then
      match decParse? p1, decParse? p2, decParse? p3, decParse? p4 with
      | some a, some b, some c, some d =>
        if a ≤ 255 && b ≤ 255 && c ≤ 255 && d ≤ 255 then
          some (a * 256 + b, c * 256 + d)
        else none
      | _, _, _, _ => none
    else none
  | _ => none

/-- Parse one colon-separated run of a textual IPv6 address: one to four hex
digits. -/
def v6Piece? (p : List Char) : Option Nat :=
  if 1 ≤ p.length && p.length ≤ 4 && p.all isHexCh then hexParse? p else none

/-- Parse a list of IPv6 pieces where the final piece may be a dotted IPv4
tail contributing two groups. -/
def v6Pieces? (ps : List (List Char)) : Option (List Nat) :=
  match ps with
  | [] => some []
  | p :: rest =>
    match rest with
    | [] =>
      match strictDotted? p with
      | some (hi, lo) => some [hi, lo]
      | none => (v6Piece? p).map (fun v => [v])
    | q :: qs =>
      match v6Piece? p, v6Pieces? (q :: qs) with
      | some v, some vs => some (v :: vs)
      | _, _ => none

/-- Split a character list at the first double colon, if any. -/
def splitDoubleColon : List Char → Option (List Char × List Char)
  | [] => none
  | ':' :: ':' :: rest => some ([], rest)
  | c :: rest => (splitDoubleColon rest).map (fun q => (c :: q.1, q.2))

/-- The IPv6 host parser: either eight plain groups, or a double colon
splitting the groups in two runs filled with zero groups in the middle; a
dotted IPv4 tail is allowed as the final component. -/
def parseIPv6? (s : List Char) : Option (List Nat) :=
  match splitDoubleColon s with
  | none =>
    match v6Pieces? (splitCL ':' s) with
    | some vs => if vs.length = 8 then some vs else none
    | none => none
  | some (left, right) =>
    let leftVs? := if left = [] then some [] else v6Pieces? (splitCL ':' left)
    let rightVs? := if right = [] then some [] else v6Pieces? (splitCL ':' right)
    match leftVs?, rightVs? with
    | some ls, some rs =>
      if ls.length + rs.length ≤ 7 then
        some (ls ++ List.replicate (8 - ls.length - rs.length) 0 ++ rs)
      else none
    | _, _ => none

/-- Host parsing: a bracketed IPv6 literal, or an ASCII host lowercased and
then classified as IPv4 when it ends in a number, and as a domain otherwise. -/
def hostParse? (cs : List Char) : Option HostM :=
  match cs with
  | [] => none
  | c :: rest =>
    if c = '[' then
      match rest.getLast? with
      | some c2 => if c2 = ']' then (parseIPv6? rest.dropLast).map HostM.ipv6 else none
      | none => none
    else
      if (c :: rest).any isForbiddenHostCh then none
      else
        let low := lowCL (c :: rest)
        if endsInNumber low then (ipv4Parse? low).map HostM.ipv4
        else some (.domain low)

/-- Drop a userinfo component: keep what follows the last at sign. -/
def afterLastAt (cs : List Char) : List Char :=
  (cs.reverse.takeWhile (fun c => c ≠ '@')).reverse

/-- Split an optional port off an authority host-port string, validating the
port digits and range.  Returns the host characters. -/
def splitPort? (cs : List Char) : Option (List Char) :=
  match cs with
  | '[' :: rest =>
    let inside := rest.takeWhile (fun c => c ≠ ']')
    if inside.length = rest.length then none
    else
      let host := '[' :: inside ++ [']']
      match rest.drop (inside.length + 1) with
      | [] => some host
      | ':' :: p =>
        if p.all isDigitCh && (p = [] || (decParse? p).getD 0 ≤ 65535) then some host
        else none
      | _ => none
  | _ =>
    match splitCL ':' cs with
    | [h] => some h
    | [h, p] =>
      if p.all isDigitCh && (p = [] || (decParse? p).getD 0 ≤ 65535) then some h
      else none
    | _ => none

/-- Model of the platform new URL parser, at the fidelity the validator
needs.  For the https scheme the authority is parsed fully; for every other
scheme only the lowercased protocol is retained (the validator rejects such
URLs on the protocol alone, before looking at the host). -/
def jsURL? (url : String) : Option JsUrlM :=
  let cs := url.data
  let schemeChars := cs.takeWhile isSchemeCh
  match schemeChars with
  | [] => none
  | c0 :: _ =>
    if ¬ isAlphaCh c0 then none
    else
      match cs.drop schemeChars.length with
      | [] => none
      | c1 :: rest =>
        if c1 = ':' then
          let protocol := String.mk (lowCL schemeChars ++ [':'])
          if protocol = "https:" then
            match rest with
            | c2 :: c3 :: rest2 =>
              if c2 = '/' ∧ c3 = '/' then
                let authority := rest2.takeWhile
                  (fun c => c ≠ '/' && c ≠ '?' && c ≠ '#')
                match splitPort? (afterLastAt authority) with
                | none => none
                | some hostCs => (hostParse? hostCs).map (fun h => ⟨protocol, h⟩)
              else none
            | _ => none
          else some ⟨protocol, .domain []⟩
        else none

/-- validateUrl from src/utils/url-validator.ts: parse, require the https
protocol, lowercase the hostname, and reject blocked hostnames, private IPv4
literals and private IPv6 literals, in that order. -/
def validateUrl (url : String) : UrlValidationResult :=
  match jsURL? url with
  | none => ⟨false, some "Invalid URL format"⟩
  | some parsed =>
    if parsed.protocol ≠ "https:" then
      ⟨false, some ("Invalid protocol: " ++ parsed.protocol ++ " (only https:// allowed)")⟩
    else
      let hostname := lowerStr (String.mk (hostStringCL parsed.host))
      if BLOCKED_HOSTNAMES.contains hostname then
        ⟨false, some ("Blocked hostname: " ++ hostname)⟩
      else if isPrivateIPv4 hostname then
        ⟨false, some ("Blocked private IP: " ++ hostname)⟩
      else if isPrivateIPv6 hostname then
        ⟨false, some ("Blocked private IPv6: " ++ hostname)⟩
      else ⟨true, none⟩

/-! ## Health checker (src/health-checker.ts, single-request variant)

One probe issues one retry-wrapped GET; the environment supplies the fetch
behaviour, the measured (rounded) wall-clock latency and the timestamp. -/

/-- A health check result, as in src/schemas.ts. -/
structure HealthCheckResultM where
  isAlive : Bool
  statusCode : Option Nat
  latencyMs : Option Nat
  error : Option String
  checkedAt : String
  deriving DecidableEq, Repr

/-- Result of a full endpoint check. -/
structure EndpointCheckResultM where
  health : HealthCheckResultM
  pricing : List PricingInfoM
  rawPaymentRequirements : List PaymentReqM
  deriving DecidableEq, Repr

/-- Probe environment: the fetch behaviour of the network for this URL, the
rounded wall-clock time the whole probe consumed, and the timestamp taken at
the start of the probe. -/
structure ProbeEnv where
  fetch : FetchBehaviour
  latencyMs : Nat
  checkedAt : String

/-- Number of fetch invocations a retrying run performed. -/
def attemptCount (run : RetryRun) : Nat :=
  run.events.countP (fun e => match e with | .att _ => true | .del _ => false)

/-- checkEndpointSingle from src/health-checker.ts: one GET through
fetchWithRetry with retries 2 and retryDelayMs 500; a response yields a
health record carrying status and latency (alive on 2xx or 402) and, for a
402, the payment metadata extracted from that same response; a thrown error
yields a dead health record carrying latency and the error message.  The
second component counts the fetch invocations performed. -/
def checkEndpointSingle (env : ProbeEnv) : EndpointCheckResultM × Nat :=
  let run := fetchWithRetry env.fetch 2 500
  match run.result with
  | .ok response =>
    let isAlive := (200 ≤ response.status && response.status ≤ 299) ||
      response.status == 402
    let health : HealthCheckResultM :=
      ⟨isAlive, some response.status, some env.latencyMs, none, env.checkedAt⟩
    if response.status == 402 then
      (⟨health, response.pricing, response.rawReqs⟩, attemptCount run)
    else (⟨health, [], []⟩, attemptCount run)
  | .error msg =>
    (⟨⟨false, none, some env.latencyMs, some msg, env.checkedAt⟩, [], []⟩,
      attemptCount run)

/-- checkEndpoint from src/health-checker.ts: validate the URL first and
return a dead result with the validation reason, no pricing and zero fetch
invocations when invalid; otherwise run the single-request probe. -/
def checkEndpoint (env : ProbeEnv) (url : String) : EndpointCheckResultM × Nat :=
  let urlCheck := validateUrl url
  if !urlCheck.valid then
    (⟨⟨false, none, none, urlCheck.error, env.checkedAt⟩, [], []⟩, 0)
  else checkEndpointSingle env

/-! ## Resource merge (src/indexer.ts, runIndexer enrichment section) -/

/-- First-occurrence deduplication, as the JS spread of a Set built from a
list. -/
def jsSetDedupAux {α : Type} [DecidableEq α] : List α → List α → List α
  | _, [] => []
  | seen, x :: rest =>
    if x ∈ seen then jsSetDedupAux seen rest
    else x :: jsSetDedupAux (x :: seen) rest

/-- Spread of new Set(xs): xs without duplicates, first occurrences kept. -/
def jsSetDedup {α : Type} [DecidableEq α] (xs : List α) : List α :=
  jsSetDedupAux [] xs

/-- A resource from the protocol discovery API. -/
structure DiscoveredResourceM where
  resource : String
  typ : String
  x402Version : Nat
  accepts : List PaymentReqM
  lastUpdated : String
  metadata : Option String
  deriving DecidableEq, Repr

/-- A service scraped from the ecosystem listing. -/
structure EcosystemServiceM where
  name : String
  url : String
  description : String
  category : String
  deriving DecidableEq, Repr

/-- Partner metadata from the local partner files; the facilitator object is
flattened to its base URL and network list, and absent facilitators to none. -/
structure PartnerMetadataM where
  name : String
  description : String
  logoUrl : String
  websiteUrl : String
  category : String
  slug : Option String
  facilitatorBaseUrl : Option String
  facilitatorNetworks : List String
  deriving DecidableEq, Repr

/-- An enriched resource, the persistence unit (metadata carried as its
serialized form). -/
structure EnrichedResourceM where
  url : String
  name : Option String
  description : Option String
  category : Option String
  typ : String
  x402Version : Nat
  health : HealthCheckResultM
  pricing : List PricingInfoM
  networksSupported : List String
  accepts : List PaymentReqM
  lastUpdated : String
  metadata : Option String
  source : String
  deriving DecidableEq, Repr

/-- The placeholder health record used when no check result exists. -/
def skippedHealth (now : String) : HealthCheckResultM :=
  ⟨false, none, none, some "Health check skipped", now⟩

/-- Model of the serialized partner metadata blob (slug, logo, website and
facilitator info as JSON in the source; an opaque deterministic encoding
suffices here). -/
def partnerMetaStr (p : PartnerMetadataM) : String :=
  String.intercalate "|" [p.slug.getD "", p.logoUrl, p.websiteUrl]

/-- Projection of a raw payment requirement to a pricing record without a
formatted amount, as the accepts fallback of enrichDiscoveredResource. -/
def acceptToPricing (a : PaymentReqM) : PricingInfoM :=
  ⟨a.scheme, a.network, a.maxAmountRequired, none, a.asset, a.payTo,
    a.maxTimeoutSeconds⟩

/-- enrichDiscoveredResource from src/indexer.ts. -/
def enrichDiscoveredResource (r : DiscoveredResourceM)
    (checkResult : Option EndpointCheckResultM)
    (partner : Option PartnerMetadataM) (now : String) : EnrichedResourceM :=
  let networksSupported := jsSetDedup (r.accepts.map (·.network))
  let health := (checkResult.map (·.health)).getD (skippedHealth now)
  let pricing :=
    match checkResult with
    | some cr => if cr.pricing ≠ [] then cr.pricing else r.accepts.map acceptToPricing
    | none => r.accepts.map acceptToPricing
  { url := r.resource,
    name := partner.map (·.name),
    description := (partner.map (·.description)).or
      (r.accepts.head?.bind (·.description)),
    category := partner.map (·.category),
    typ := r.typ,
    x402Version := r.x402Version,
    health := health,
    pricing := pricing,
    networksSupported := networksSupported,
    accepts := r.accepts,
    lastUpdated := r.lastUpdated,
    metadata := r.metadata,
    source := "discovery_api" }

/-- enrichEcosystemService from src/indexer.ts. -/
def enrichEcosystemService (s : EcosystemServiceM)
    (checkResult : Option EndpointCheckResultM) (now : String) :
    EnrichedResourceM :=
  let health := (checkResult.map (·.health)).getD (skippedHealth now)
  let networksSupported :=
    jsSetDedup ((checkResult.map (·.rawPaymentRequirements)).getD [] |>.map (·.network))
  { url := s.url,
    name := some s.name,
    description := some s.description,
    category := some s.category,
    typ := "http",
    x402Version := 1,
    health := health,
    pricing := (checkResult.map (·.pricing)).getD [],
    networksSupported := networksSupported,
    accepts := (checkResult.map (·.rawPaymentRequirements)).getD [],
    lastUpdated := now,
    metadata := some "{}",
    source := "ecosystem" }

/-- enrichPartnerMetadata from src/indexer.ts: none without a facilitator
base URL. -/
def enrichPartnerMetadata (p : PartnerMetadataM)
    (checkResult : Option EndpointCheckResultM) (now : String) :
    Option EnrichedResourceM :=
  match p.facilitatorBaseUrl with
  | none => none
  | some baseUrl =>
    let health := (checkResult.map (·.health)).getD (skippedHealth now)
    some
      { url := baseUrl,
        name := some p.name,
        description := some p.description,
        category := some p.category,
        typ := "http",
        x402Version := 1,
        health := health,
        pricing := (checkResult.map (·.pricing)).getD [],
        networksSupported := p.facilitatorNetworks,
        accepts := [],
        lastUpdated := now,
        metadata := some (partnerMetaStr p),
        source := "partners_data" }

/-- The partnerByUrl map of runIndexer: every partner is keyed under its
website URL and, when present, its facilitator base URL; later entries
overwrite earlier ones. -/
def partnerByUrl (partners : List PartnerMetadataM) (url : String) :
    Option PartnerMetadataM :=
  partners.foldl
    (fun acc p =>
      let acc1 := if p.websiteUrl == url then some p else acc
      match p.facilitatorBaseUrl with
      | some b => if b == url then some p else acc1
      | none => acc1)
    none

/-- The ecosystem loop of runIndexer: services whose URL was already
processed are skipped, the rest are enriched and their URL marked processed. -/
def ecoPhase (checkRes : String → Option EndpointCheckResultM) (now : String) :
    List String → List EcosystemServiceM →
    List EnrichedResourceM × List String
  | processed, [] => ([], processed)
  | processed, s :: rest =>
    if s.url ∈ processed then ecoPhase checkRes now processed rest
    else
      let r := ecoPhase checkRes now (s.url :: processed) rest
      (enrichEcosystemService s (checkRes s.url) now :: r.1, r.2)

/-- The partner loop of runIndexer: partners with a facilitator base URL not
yet processed are enriched and their base URL marked processed. -/
def partnerPhase (checkRes : String → Option EndpointCheckResultM)
    (now : String) :
    List String → List PartnerMetadataM →
    List EnrichedResourceM × List String
  | processed, [] => ([], processed)
  | processed, p :: rest =>
    match p.facilitatorBaseUrl with
    | some b =>
      if b ∈ processed then partnerPhase checkRes now processed rest
      else
        match enrichPartnerMetadata p (checkRes b) now with
        | some e =>
          let r := partnerPhase checkRes now (b :: processed) rest
          (e :: r.1, r.2)
        | none => partnerPhase checkRes now processed rest
    | none => partnerPhase checkRes now processed rest

/-- The enrichment section of runIndexer: every discovery resource is
enriched (and its URL marked processed), then ecosystem services not already
processed, then partner facilitators not already processed. -/
def runIndexerMerge (discovery : List DiscoveredResourceM)
    (ecosystem : List EcosystemServiceM) (partners : List PartnerMetadataM)
    (checkRes : String → Option EndpointCheckResultM) (now : String) :
    List EnrichedResourceM :=
  let p1 := discovery.map
    (fun r => enrichDiscoveredResource r (checkRes r.resource)
      (partnerByUrl partners r.resource) now)
  let processed1 := discovery.map (·.resource)
  let e := ecoPhase checkRes now processed1 ecosystem
  let q := partnerPhase checkRes now e.2 partners
  p1 ++ e.1 ++ q.1

/-- The URL collection of runIndexer, in source order: discovery resources,
ecosystem services, partner facilitator base URLs. -/
def urlsToCheck (discovery : List DiscoveredResourceM)
    (ecosystem : List EcosystemServiceM) (partners : List PartnerMetadataM) :
    List String :=
  discovery.map (·.resource) ++ ecosystem.map (·.url) ++
    partners.filterMap (·.facilitatorBaseUrl)

/-- The deduplicated URL list runIndexer submits to checkEndpoints. -/
def uniqueUrls (discovery : List DiscoveredResourceM)
    (ecosystem : List EcosystemServiceM) (partners : List PartnerMetadataM) :
    List String :=
  jsSetDedup (urlsToCheck discovery ecosystem partners)

/-! ## Persistence layer (src/db/repository.ts)

SQL timestamps compare chronologically as ISO strings; the model carries
them as integers.  SQL numeric aggregates (AVG, the uptime percentage) are
modelled as rationals. -/

/-- A row of the resources table (the columns the upsert touches). -/
structure ResourceRowM where
  url : String
  name : Option String
  description : Option String
  category : Option String
  typ : String
  x402Version : Nat
  source : String
  networksSupported : String
  metadata : Option String
  lastUpdated : String
  lastSeenAt : String
  updatedAt : Option String
  deriving DecidableEq, Repr

/-- Model of JSON.stringify on the networks array. -/
def encodeNetworks (ns : List String) : String := String.intercalate "," ns

/-- The resources-table statement of upsertResource: INSERT with
ON CONFLICT(url) DO UPDATE.  On conflict the descriptive columns name,
description, category and metadata take COALESCE(excluded, existing), the
other updated columns take the incoming values, and the source column is not
in the update list at all (first-seen provenance sticks). -/
def upsertResourceRow (existing : Option ResourceRowM)
    (inc : EnrichedResourceM) (now : String) : ResourceRowM :=
  match existing with
  | none =>
    { url := inc.url, name := inc.name, description := inc.description,
      category := inc.category, typ := inc.typ, x402Version := inc.x402Version,
      source := inc.source, networksSupported := encodeNetworks inc.networksSupported,
      metadata := inc.metadata, lastUpdated := inc.lastUpdated,
      lastSeenAt := now, updatedAt := none }
  | some old =>
    { old with
      name := inc.name.or old.name,
      description := inc.description.or old.description,
      category := inc.category.or old.category,
      x402Version := inc.x402Version,
      networksSupported := encodeNetworks inc.networksSupported,
      metadata := inc.metadata.or old.metadata,
      lastUpdated := inc.lastUpdated,
      lastSeenAt := now,
      updatedAt := some now }

/-- A health check as the db layer stores it (latency as SQL numeric,
timestamp as a comparable instant). -/
structure DbHealthCheckM where
  isAlive : Bool
  statusCode : Option Nat
  latencyMs : Option ℚ
  error : Option String
  checkedAt : Int
  deriving DecidableEq, Repr

/-- A row of the append-only health_checks history table. -/
structure HealthRowM where
  resourceId : String
  isAlive : Bool
  statusCode : Option Nat
  latencyMs : Option ℚ
  error : Option String
  checkedAt : Int
  deriving DecidableEq, Repr

/-- The single current-aggregate row of resource_health for one resource. -/
structure ResourceHealthRowM where
  resourceId : String
  isAlive : Bool
  statusCode : Option Nat
  latencyMs : Option ℚ
  error : Option String
  checkedAt : Int
  uptime7d : Option ℚ
  avgLatency7d : Option ℚ
  checkCount7d : Nat
  deriving DecidableEq, Repr

/-- The trailing-seven-day window test, checked_at at least now minus seven
days. -/
def inWindow7d (now t : Int) : Bool := now - 7 * 86400 ≤ t

/-- insertHealthCheckTx: append one immutable history row. -/
def insertHealthCheckTx (rows : List HealthRowM) (rid : String)
    (health : DbHealthCheckM) : List HealthRowM :=
  rows ++ [⟨rid, health.isAlive, health.statusCode, health.latencyMs,
    health.error, health.checkedAt⟩]

/-- The WHERE clause of the 7-day stats query: history rows of this resource
inside the trailing window. -/
def healthWindow (now : Int) (rows : List HealthRowM) (rid : String) :
    List HealthRowM :=
  rows.filter (fun r => r.resourceId == rid && inWindow7d now r.checkedAt)

/-- updateResourceHealthTx from src/db/repository.ts: run the 7-day stats
query over the history rows of this resource — COUNT of rows, SUM of the
alive case flags, AVG over the non-null latencies — compute the uptime
percentage (null on zero checks), and upsert the aggregate row. -/
def updateResourceHealthTx (now : Int) (rows : List HealthRowM) (rid : String)
    (health : DbHealthCheckM) : ResourceHealthRowM :=
  let window := healthWindow now rows rid
  let totalChecks := window.length
  let aliveChecks := (window.map (fun r => if r.isAlive then (1 : Nat) else 0)).sum
  let latCount := window.countP (fun r => r.latencyMs.isSome)
  let latSum : ℚ := (window.map (fun r => r.latencyMs.getD 0)).sum
  let avgLatency : Option ℚ :=
    if latCount = 0 then none else some (latSum / latCount)
  let uptime7d : Option ℚ :=
    if 0 < totalChecks then some ((aliveChecks : ℚ) / totalChecks * 100) else none
  { resourceId := rid, isAlive := health.isAlive, statusCode := health.statusCode,
    latencyMs := health.latencyMs, error := health.error,
    checkedAt := health.checkedAt, uptime7d := uptime7d,
    avgLatency7d := avgLatency, checkCount7d := totalChecks }

/-- The health part of one upsertResource transaction: append the new
history row, then recompute the aggregate over the history including it. -/
def applyHealthUpsert (now : Int) (rows : List HealthRowM) (rid : String)
    (health : DbHealthCheckM) : List HealthRowM × ResourceHealthRowM :=
  let rows1 := insertHealthCheckTx rows rid health
  (rows1, updateResourceHealthTx now rows1 rid health)

/-! ## Index runs and the persistence loop (src/indexer.ts persistToDatabase) -/

/-- A row of the index_runs ledger; statusHistory records every status value
the row has held, in order. -/
structure IndexRunRowM where
  facilitatorUrl : String
  indexerVersion : String
  statusHistory : List String
  error : Option String
  deriving DecidableEq, Repr

/-- Database state for the persistence loop: the run ledger and the list of
resource URLs whose per-resource transactions have committed. -/
structure DbStateM where
  runs : List IndexRunRowM
  committed : List String
  deriving DecidableEq, Repr

/-- Apply a function to the list element at an index. -/
def modifyAt {α : Type} : List α → Nat → (α → α) → List α
  | [], _, _ => []
  | x :: xs, 0, f => f x :: xs
  | x :: xs, i + 1, f => x :: modifyAt xs i f

/-- startIndexRun: insert a run row with status running, returning its id. -/
def startIndexRun (db : DbStateM) (facilitatorUrl indexerVersion : String) :
    DbStateM × Nat :=
  ({ db with runs := db.runs ++ [⟨facilitatorUrl, indexerVersion, ["running"], none⟩] },
    db.runs.length)

/-- completeIndexRun: set the run status to completed. -/
def completeIndexRun (db : DbStateM) (runId : Nat) : DbStateM :=
  { db with runs := (modifyAt db.runs runId
      (fun r => { r with statusHistory := r.statusHistory ++ ["completed"] })) }

/-- failIndexRun: set the run status to failed and record the error message. -/
def failIndexRun (db : DbStateM) (runId : Nat) (err : String) : DbStateM :=
  { db with runs := (modifyAt db.runs runId
      (fun r => { r with statusHistory := r.statusHistory ++ ["failed"],
                         error := some err })) }

/-- Outcome oracle for the per-resource upsert transactions: none commits
the transaction, some message models a thrown persistence error. -/
def UpsertOracle : Type := EnrichedResourceM → Option String

/-- The try block of persistToDatabase: upsert every resource in order; the
first thrown error fails the run with its message and is re-raised; when all
upserts commit, the run completes. -/
def persistLoop (oracle : UpsertOracle) (runId : Nat) :
    List EnrichedResourceM → DbStateM → DbStateM × Except String Unit
  | [], db => (completeIndexRun db runId, .ok ())
  | r :: rest, db =>
    match oracle r with
    | none => persistLoop oracle runId rest
        { db with committed := db.committed ++ [r.url] }
    | some e => (failIndexRun db runId e, .error e)

/-- persistToDatabase from src/indexer.ts: open a run row with status
running, then run the upsert loop with its complete-or-fail bracketing. -/
def persistToDatabase (db : DbStateM) (resources : List EnrichedResourceM)
    (oracle : UpsertOracle) (facilitatorUrl indexerVersion : String) :
    DbStateM × Except String Unit :=
  let s := startIndexRun db facilitatorUrl indexerVersion
  persistLoop oracle s.2 resources s.1

/-! ## Concrete inputs for witnesses -/

/-- A minimal enriched resource literal for concrete instances. -/
def exRes (u : String) : EnrichedResourceM :=
  ⟨u, none, none, none, "http", 1, ⟨true, some 200, some 10, none, "t"⟩,
    [], [], [], "t", none, "discovery_api"⟩

/-- A minimal discovered resource literal for concrete instances. -/
def exDisc (u : String) : DiscoveredResourceM := ⟨u, "http", 1, [], "t", none⟩

/-! ## Specification-side predicates for the URL validator claim

The claim names concrete private CIDR ranges for IPv4 literals and the
loopback, unspecified, unique-local, link-local and IPv4-mapped-private
classes for IPv6 literals.  The predicates below transcribe those ranges
directly from the claim text, over the numeric value of a parsed IPv4
address and the eight 16-bit groups of a parsed IPv6 address. -/

/-- The address n (as a 32-bit value) lies in 10.0.0.0/8, 127.0.0.0/8,
172.16.0.0/12, 192.168.0.0/16, 169.254.0.0/16 or 0.0.0.0/8.  The first octet
is n / 2^24 and the second octet is n / 2^16 mod 256. -/
def specPrivateIPv4 (n : Nat) : Prop :=
  n / 16777216 = 10 ∨ n / 16777216 = 127 ∨
  (n / 16777216 = 172 ∧ 16 ≤ n / 65536 % 256 ∧ n / 65536 % 256 ≤ 31) ∨
  (n / 16777216 = 192 ∧ n / 65536 % 256 = 168) ∨
  (n / 16777216 = 169 ∧ n / 65536 % 256 = 254) ∨
  n / 16777216 = 0

instance (n : Nat) : Decidable (specPrivateIPv4 n) := by
  unfold specPrivateIPv4; infer_instance

/-- The eight-group IPv6 address g is loopback ::1, unspecified ::, unique
local fc00::/7 (first group fc00-fdff), link local fe80::/10 (first group
fe80-febf), or an IPv4-mapped address ::ffff:a.b.c.d whose embedded IPv4
address is itself private. -/
def specPrivateV6 (g : List Nat) : Prop :=
  g = [0, 0, 0, 0, 0, 0, 0, 1] ∨ g = [0, 0, 0, 0, 0, 0, 0, 0] ∨
  (64512 ≤ g.headI ∧ g.headI ≤ 65023) ∨
  (65152 ≤ g.headI ∧ g.headI ≤ 65215) ∨
  (g.take 6 = [0, 0, 0, 0, 0, 65535] ∧
    specPrivateIPv4 (g.getD 6 0 * 65536 + g.getD 7 0))

instance (g : List Nat) : Decidable (specPrivateV6 g) := by
  unfold specPrivateV6; infer_instance

/-- A double colon occurs somewhere in the character list. -/
def hasDoubleColonB : List Char → Bool
  | [] => false
  | [_] => false
  | a :: b :: rest => (a == ':' && b == ':') || hasDoubleColonB (b :: rest)

/-! # Theorems -/

/-! ## Retry loop structure lemmas -/

theorem fetchRetryAux_resp {f : FetchBehaviour} {d a rem : Nat} {r : RespM}
    (h : f a = .resp r) : fetchRetryAux f d a rem = ⟨.ok r, [.att a]⟩ := by
  cases rem <;> simp [fetchRetryAux, h]

theorem fetchRetryAux_err_stop {f : FetchBehaviour} {d a : Nat} {m : String}
    (h : f a = .err m) : fetchRetryAux f d a 0 = ⟨.error m, [.att a]⟩ := by
  simp [fetchRetryAux, h]

theorem fetchRetryAux_err_noretry {f : FetchBehaviour} {d a rem : Nat} {m : String}
    (h : f a = .err m) (hr : isRetryableError m = false) :
    fetchRetryAux f d a (rem + 1) = ⟨.error m, [.att a]⟩ := by
  simp [fetchRetryAux, h, hr]

theorem fetchRetryAux_err_retry {f : FetchBehaviour} {d a rem : Nat} {m : String}
    (h : f a = .err m) (hr : isRetryableError m = true) :
    fetchRetryAux f d a (rem + 1) =
      ⟨(fetchRetryAux f d (a + 1) rem).result,
        .att a :: .del (d * 2 ^ a) :: (fetchRetryAux f d (a + 1) rem).events⟩ := by
  simp [fetchRetryAux, h, hr]

theorem fetchRetryAux_ok_of_transient_then_resp
    {f : FetchBehaviour} {d : Nat} {r : RespM} :
    ∀ (k a rem : Nat),
      (∀ i, a ≤ i → i < a + k → ∃ m, f i = .err m ∧ isRetryableError m = true) →
      f (a + k) = .resp r → k ≤ rem →
      (fetchRetryAux f d a rem).result = .ok r := by
  intro k
  induction k with
  | zero =>
    intro a rem _ hres _
    rw [fetchRetryAux_resp (by simpa using hres)]
  | succ k ih =>
    intro a rem hfail hres hk
    obtain ⟨rem', rfl⟩ : ∃ rem', rem = rem' + 1 :=
      ⟨rem - 1, by omega⟩
    obtain ⟨m, hm, hmr⟩ := hfail a le_rfl (by omega)
    rw [fetchRetryAux_err_retry hm hmr]
    exact ih (a + 1) rem'
      (fun i h1 h2 => hfail i (by omega) (by omega))
      (by rw [show a + 1 + k = a + (k + 1) by omega]; exact hres)
      (by omega)

theorem fetchRetryAux_err_of_all_transient
    {f : FetchBehaviour} {d k : Nat} {m : Nat → String}
    (hfail : ∀ i, i < k → f i = .err (m i) ∧ isRetryableError (m i) = true) :
    ∀ (rem a : Nat), a + rem < k →
      (fetchRetryAux f d a rem).result = .error (m (a + rem)) := by
  intro rem
  induction rem with
  | zero =>
    intro a ha
    rw [fetchRetryAux_err_stop (hfail a (by omega)).1]
    simp
  | succ rem ih =>
    intro a ha
    obtain ⟨hm, hmr⟩ := hfail a (by omega)
    rw [fetchRetryAux_err_retry hm hmr]
    have := ih (a + 1) (by omega)
    rw [show a + 1 + rem = a + (rem + 1) by omega] at this
    exact this

/-- The retrying loop produces attempts 0, 1, ..., n for some n bounded by
the retry budget, with the backoff delay d * 2 ^ k between failed attempt k
and attempt k + 1. -/
theorem fetchRetryAux_events_shape (f : FetchBehaviour) (d : Nat) :
    ∀ (rem a : Nat), ∃ n, n ≤ rem ∧
      (fetchRetryAux f d a rem).events =
        ((List.range' a n).flatMap fun k => [REvent.att k, REvent.del (d * 2 ^ k)]) ++
          [REvent.att (a + n)] := by
  intro rem
  induction rem with
  | zero =>
    intro a
    refine ⟨0, le_rfl, ?_⟩
    cases h : f a with
    | resp r => rw [fetchRetryAux_resp h]; simp
    | err m => rw [fetchRetryAux_err_stop h]; simp
  | succ rem ih =>
    intro a
    cases h : f a with
    | resp r =>
      refine ⟨0, by omega, ?_⟩
      rw [fetchRetryAux_resp h]; simp
    | err m =>
      cases hr : isRetryableError m with
      | false =>
        refine ⟨0, by omega, ?_⟩
        rw [fetchRetryAux_err_noretry h hr]; simp
      | true =>
        obtain ⟨n, hn, hev⟩ := ih (a + 1)
        refine ⟨n + 1, by omega, ?_⟩
        rw [fetchRetryAux_err_retry h hr, hev]
        simp [List.range'_succ]
        omega

/-- C4: when a fetch behaviour throws transient errors on the first k
attempts and responds on attempt k, fetchWithRetry returns the response if
its budget allows at least k retries and otherwise propagates the transient
error thrown by its last attempt (attempt number retries); any response,
including one with an HTTP error status such as 404, is returned after a
single attempt with no retry; a non-transient thrown error propagates
immediately after a single attempt. -/
theorem claim4_retry_behaviour :
    (∀ (f : FetchBehaviour) (k retries delay : Nat) (r : RespM),
      (∀ i, i < k → ∃ m, f i = .err m ∧ isRetryableError m = true) →
      f k = .resp r → k ≤ retries →
      (fetchWithRetry f retries delay).result = .ok r) ∧
    (∀ (f : FetchBehaviour) (k retries delay : Nat) (m : Nat → String),
      (∀ i, i < k → f i = .err (m i) ∧ isRetryableError (m i) = true) →
      retries < k →
      (fetchWithRetry f retries delay).result = .error (m retries)) ∧
    (∀ (f : FetchBehaviour) (retries delay : Nat) (r : RespM),
      f 0 = .resp r →
      fetchWithRetry f retries delay = ⟨.ok r, [.att 0]⟩) ∧
    (∀ (f : FetchBehaviour) (retries delay : Nat) (msg : String),
      f 0 = .err msg → isRetryableError msg = false →
      fetchWithRetry f retries delay = ⟨.error msg, [.att 0]⟩) := by
  refine ⟨?_, ?_, ?_, ?_⟩
  · intro f k retries delay r hfail hres hk
    exact fetchRetryAux_ok_of_transient_then_resp k 0 retries
      (fun i h1 h2 => hfail i (by omega)) (by simpa using hres) hk
  · intro f k retries delay m hfail hk
    have h2 := @fetchRetryAux_err_of_all_transient f delay k m hfail retries 0 (by omega)
    simpa [fetchWithRetry] using h2
  · intro f retries delay r h
    rw [fetchWithRetry, fetchRetryAux_resp h]
  · intro f retries delay msg h hr
    cases retries with
    | zero => rw [fetchWithRetry, fetchRetryAux_err_stop h]
    | succ n => rw [fetchWithRetry, fetchRetryAux_err_noretry h hr]

/-- Witness for C4 at concrete behaviours: two transient timeouts then a 200
succeed with a budget of two retries and propagate the last timeout with a
budget of one; a 404 response and a non-transient error each take exactly one
attempt. -/
theorem claim4_witness :
    (fetchWithRetry (fun i => if i < 2 then .err "timeout" else .resp ⟨200, [], []⟩)
        2 500).result = .ok ⟨200, [], []⟩ ∧
    (fetchWithRetry (fun i => if i < 2 then .err "timeout" else .resp ⟨200, [], []⟩)
        1 500).result = .error "timeout" ∧
    fetchWithRetry (fun _ => .resp ⟨404, [], []⟩) 2 500 =
      ⟨.ok ⟨404, [], []⟩, [.att 0]⟩ ∧
    fetchWithRetry (fun _ => .err "certificate has expired") 2 500 =
      ⟨.error "certificate has expired", [.att 0]⟩ := by
  refine ⟨?_, ?_, ?_, ?_⟩
  · exact claim4_retry_behaviour.1 _ 2 2 500 ⟨200, [], []⟩
      (fun i hi => ⟨"timeout", by interval_cases i <;> exact ⟨rfl, by decide⟩⟩)
      (by decide) (by decide)
  · exact claim4_retry_behaviour.2.1 _ 2 1 500 (fun _ => "timeout")
      (fun i hi => by interval_cases i <;> exact ⟨rfl, by decide⟩)
      (by decide)
  · exact claim4_retry_behaviour.2.2.1 _ 2 500 ⟨404, [], []⟩ rfl
  · exact claim4_retry_behaviour.2.2.2 _ 2 500 "certificate has expired" rfl
      (by decide)

/-- C5 (amended): every retrying execution performs attempts 0 through n for
some n within the retry budget, and the delay that follows failed attempt k
— that is, the delay preceding attempt k + 1 — equals retryDelayMs * 2 ^ k.
(The claim as frozen places delay retryDelayMs * 2 ^ k before attempt k
itself; the code puts it after attempt k.) -/
theorem claim5_backoff_schedule (f : FetchBehaviour) (retries delay : Nat) :
    ∃ n, n ≤ retries ∧
      (fetchWithRetry f retries delay).events =
        ((List.range n).flatMap fun k => [REvent.att k, REvent.del (delay * 2 ^ k)]) ++
          [REvent.att n] := by
  obtain ⟨n, hn, hev⟩ := fetchRetryAux_events_shape f delay retries 0
  exact ⟨n, hn, by simpa [fetchWithRetry, List.range_eq_range'] using hev⟩

/-- Counterexample to C5 as frozen: with base delay 500 and one transient
failure, the single delay of the run precedes attempt 1 and is 500
milliseconds, not 500 * 2 ^ 1. -/
theorem claim5_counterexample :
    (fetchWithRetry (fun i => if i = 0 then .err "timeout" else .resp ⟨200, [], []⟩)
        2 500).events = [.att 0, .del 500, .att 1] ∧
    500 ≠ 500 * 2 ^ 1 := by
  exact ⟨by decide, by decide⟩

/-! ## Health checker theorems -/

/-- C1: a URL the validator rejects yields a dead result carrying the
validation reason and no pricing, with zero fetch invocations. -/
theorem claim1_invalid_url_no_fetch (env : ProbeEnv) (url : String)
    (reason : String) (h : validateUrl url = ⟨false, some reason⟩) :
    checkEndpoint env url =
      (⟨⟨false, none, none, some reason, env.checkedAt⟩, [], []⟩, 0) := by
  simp [checkEndpoint, h]

/-- Witness for C1: the validator rejects a plain-http URL and checkEndpoint
returns the dead result without invoking fetch. -/
theorem claim1_witness :
    validateUrl "http://example.com/api" =
      ⟨false, some "Invalid protocol: http: (only https:// allowed)"⟩ ∧
    checkEndpoint ⟨fun _ => .err "network down", 5, "2024-01-01T00:00:00Z"⟩
        "http://example.com/api" =
      (⟨⟨false, none, none,
          some "Invalid protocol: http: (only https:// allowed)", "2024-01-01T00:00:00Z"⟩,
        [], []⟩, 0) :=
  ⟨by decide,
    claim1_invalid_url_no_fetch ⟨fun _ => .err "network down", 5, "2024-01-01T00:00:00Z"⟩
      "http://example.com/api" _ (by decide)⟩

/-- C2 (amended): every probe result populates latencyMs; exactly one of
statusCode or error is populated (statusCode on a response, error on a
thrown failure — the frozen claim groups latencyMs with statusCode, but the
code records latency on failures too); alive holds exactly on a 2xx or 402
status, and a thrown failure is never alive. -/
theorem checkEndpointSingle_health_of_ok {env : ProbeEnv} {response : RespM}
    (h : (fetchWithRetry env.fetch 2 500).result = .ok response) :
    (checkEndpointSingle env).1.health =
      ⟨(200 ≤ response.status && response.status ≤ 299) || response.status == 402,
        some response.status, some env.latencyMs, none, env.checkedAt⟩ := by
  unfold checkEndpointSingle
  simp only [h]
  split <;> rfl

theorem checkEndpointSingle_health_of_error {env : ProbeEnv} {msg : String}
    (h : (fetchWithRetry env.fetch 2 500).result = .error msg) :
    (checkEndpointSingle env).1.health =
      ⟨false, none, some env.latencyMs, some msg, env.checkedAt⟩ := by
  unfold checkEndpointSingle
  simp only [h]

theorem claim2_health_shape (env : ProbeEnv) :
    ((checkEndpointSingle env).1.health.latencyMs = some env.latencyMs) ∧
    ((checkEndpointSingle env).1.health.statusCode = none ↔
      (checkEndpointSingle env).1.health.error ≠ none) ∧
    (∀ s, (checkEndpointSingle env).1.health.statusCode = some s →
      ((checkEndpointSingle env).1.health.isAlive = true ↔
        (200 ≤ s ∧ s ≤ 299) ∨ s = 402)) ∧
    ((checkEndpointSingle env).1.health.error ≠ none →
      (checkEndpointSingle env).1.health.isAlive = false) := by
  cases h : (fetchWithRetry env.fetch 2 500).result with
  | ok response =>
    rw [checkEndpointSingle_health_of_ok h]
    refine ⟨rfl, by simp, ?_, by simp⟩
    intro s hs
    obtain rfl : response.status = s := by simpa using hs
    simp [Bool.or_eq_true, Bool.and_eq_true, decide_eq_true_eq, beq_iff_eq]
  | error msg =>
    rw [checkEndpointSingle_health_of_error h]
    exact ⟨rfl, by simp, by simp, fun _ => rfl⟩

/-- Witness for C2 at a concrete 402 probe and a concrete 404 probe,
discharging the status hypothesis of the liveness clause. -/
theorem claim2_witness :
    ((checkEndpointSingle ⟨fun _ => .resp ⟨402, [], []⟩, 50, "t"⟩).1.health.isAlive = true ↔
      (200 ≤ 402 ∧ 402 ≤ 299) ∨ 402 = 402) ∧
    ((checkEndpointSingle ⟨fun _ => .resp ⟨404, [], []⟩, 50, "t"⟩).1.health.isAlive = true ↔
      (200 ≤ 404 ∧ 404 ≤ 299) ∨ 404 = 402) :=
  ⟨(claim2_health_shape ⟨fun _ => .resp ⟨402, [], []⟩, 50, "t"⟩).2.2.1 402 (by decide),
    (claim2_health_shape ⟨fun _ => .resp ⟨404, [], []⟩, 50, "t"⟩).2.2.1 404 (by decide)⟩

/-- Counterexample to C2 as frozen: a probe whose attempts all time out
yields a failure result in which the error AND the latency field are both
populated, so on failure the populated fields are not exactly one of the
group containing latencyMs or the error field. -/
theorem claim2_counterexample :
    (checkEndpointSingle ⟨fun _ => .err "timeout", 123, "t0"⟩).1.health.error =
      some "timeout" ∧
    (checkEndpointSingle ⟨fun _ => .err "timeout", 123, "t0"⟩).1.health.latencyMs =
      some 123 := by
  exact ⟨by decide, by decide⟩

/-! ## String inclusion lemmas -/

theorem isPrefCL_mem {sub l : List Char} (h : isPrefCL sub l = true) :
    ∀ c ∈ sub, c ∈ l := by
  induction sub generalizing l with
  | nil => intro c hc; cases hc
  | cons a as ih =>
    cases l with
    | nil => cases h
    | cons b bs =>
      simp only [isPrefCL, Bool.and_eq_true, beq_iff_eq] at h
      intro c hc
      rcases List.mem_cons.1 hc with rfl | hc2
      · exact List.mem_cons.2 (Or.inl h.1)
      · exact List.mem_cons.2 (Or.inr (ih h.2 c hc2))

theorem includesCL_mem {l sub : List Char} (h : includesCL l sub = true) :
    ∀ c ∈ sub, c ∈ l := by
  induction l with
  | nil =>
    intro c hc
    cases sub with
    | nil => cases hc
    | cons a as => cases h
  | cons b bs ih =>
    simp only [includesCL, Bool.or_eq_true] at h
    intro c hc
    rcases h with h1 | h2
    · exact isPrefCL_mem h1 c hc
    · exact List.mem_cons.2 (Or.inr (ih h2 c hc))

theorem not_includesCL_of_missing {l sub : List Char} {c : Char}
    (hc : c ∈ sub) (hl : c ∉ l) : includesCL l sub = false := by
  cases h : includesCL l sub with
  | false => rfl
  | true => exact absurd (includesCL_mem h c hc) hl

/-! ## Formatting lemmas -/

theorem padStartCL_all_zero {n : Nat} :
    ∀ c ∈ padStartCL n '0' ['0'], c = '0' := by
  intro c hc
  unfold padStartCL at hc
  split at hc
  · simpa using hc
  · rcases List.mem_append.1 hc with h1 | h2
    · exact List.eq_of_mem_replicate h1
    · simpa using h2

theorem trimZeroesCL_eq_nil {cs : List Char} (h : ∀ c ∈ cs, c = '0') :
    trimZeroesCL cs = [] := by
  unfold trimZeroesCL
  have : cs.reverse.dropWhile (fun c => c == '0') = [] := by
    rw [List.dropWhile_eq_nil_iff]
    intro x hx
    simpa using h x (List.mem_reverse.1 hx)
  rw [this, List.reverse_nil]

theorem head?_dropWhile {p : Char → Bool} {l : List Char} :
    ∀ {a}, (l.dropWhile p).head? = some a → p a = false := by
  induction l with
  | nil => intro a h; cases h
  | cons c t ih =>
    intro a h
    by_cases hc : p c = true
    · rw [List.dropWhile_cons_of_pos hc] at h
      exact ih h
    · rw [List.dropWhile_cons_of_neg hc] at h
      simp only [List.head?_cons, Option.some.injEq] at h
      subst h
      simpa using hc

/-- C6 (amended): for every 6-decimal known token whose table key is fully
lowercase (the Solana USDC key contains an uppercase letter and can never
match the lowercased lookup), one million atomic units format as one unit and
ten thousand as 0.01; amount 0 formats as 0 with the symbol for any asset;
a string the BigInt parser rejects is echoed with a raw suffix, never
throwing; an unknown hex address longer than ten characters formats with 18
decimals under a first-6-ellipsis-last-4 symbol; a non-address identifier is
used unchanged as the symbol (at 18 decimals) provided it does not contain a
known symbol fragment — USDC, USDT, WETH, ETH, WBTC, BTC or DAI,
case-insensitively — in which case the canonical symbol and its decimal
count are substituted; stripped fractional parts never end in a zero. -/
theorem claim6_format_amount :
    (∀ p ∈ KNOWN_TOKENS, p.2.decimals = 6 → lowerStr p.1 = p.1 →
      formatAmount "1000000" p.1 = "1 " ++ p.2.symbol ∧
      formatAmount "10000" p.1 = "0.01 " ++ p.2.symbol) ∧
    (∀ asset, formatAmount "0" asset = "0 " ++ getAssetSymbol asset) ∧
    (∀ s asset, jsBigInt? s = none → formatAmount s asset = s ++ " (raw)") ∧
    (∀ (asset : String) (cs : List Char), asset.data = '0' :: 'x' :: cs →
      (∀ c ∈ cs, c ∈ hexDigitChars.data) → 10 < asset.data.length →
      KNOWN_TOKENS.lookup (lowerStr asset) = none →
      getTokenInfo asset =
        ⟨String.mk (asset.data.take 6 ++ "...".data ++
          asset.data.drop (asset.data.length - 4)), 18⟩) ∧
    (∀ asset : String,
      KNOWN_TOKENS.lookup (lowerStr asset) = none →
      (isPrefCL "0x".data asset.data && decide (10 < asset.data.length)) = false →
      (∀ pat ∈ ["USDC", "USDT", "WETH", "ETH", "WBTC", "BTC", "DAI"],
        includesCL (upCL asset.data) pat.data = false) →
      getTokenInfo asset = ⟨asset, 18⟩) ∧
    (∀ cs : List Char, trimZeroesCL cs = [] ∨
      ∀ a, (trimZeroesCL cs).getLast? = some a → a ≠ '0') := by
  refine ⟨by decide, ?_, ?_, ?_, ?_, ?_⟩
  · -- amount zero
    intro asset
    have h0 : jsBigInt? "0" = some 0 := by decide
    unfold formatAmount
    rw [h0]
    simp only [Int.zero_tdiv, Int.zero_tmod]
    rw [show intToDecCL 0 = ['0'] from rfl]
    rw [trimZeroesCL_eq_nil padStartCL_all_zero]
    simp [getAssetSymbol]
  · -- unparsable amount
    intro s asset h
    unfold formatAmount
    rw [h]
  · -- unknown hex address
    intro asset cs hshape hhex hlen hlookup
    have hup : upCL asset.data = '0' :: 'X' :: upCL cs := by
      rw [hshape]; rfl
    have hupchar : ∀ d ∈ hexDigitChars.data,
        upChar d ≠ 'U' ∧ upChar d ≠ 'T' ∧ upChar d ≠ 'W' ∧ upChar d ≠ 'I' := by
      decide
    have hmissing : ∀ c : Char, (c = 'U' ∨ c = 'T' ∨ c = 'W' ∨ c = 'I') →
        c ∉ upCL asset.data := by
      intro c hcu hmem
      rw [hup] at hmem
      rcases List.mem_cons.1 hmem with rfl | hmem2
      · rcases hcu with h | h | h | h <;> cases h
      rcases List.mem_cons.1 hmem2 with rfl | hmem3
      · rcases hcu with h | h | h | h <;> cases h
      obtain ⟨d, hd, hdc⟩ := List.mem_map.1 hmem3
      have hd4 := hupchar d (hhex d hd)
      rcases hcu with rfl | rfl | rfl | rfl
      · exact hd4.1 hdc
      · exact hd4.2.1 hdc
      · exact hd4.2.2.1 hdc
      · exact hd4.2.2.2 hdc
    have hU1 := not_includesCL_of_missing (l := upCL asset.data)
      (show 'U' ∈ "USDC".data by decide) (hmissing 'U' (Or.inl rfl))
    have hU2 := not_includesCL_of_missing (l := upCL asset.data)
      (show 'U' ∈ "USDT".data by decide) (hmissing 'U' (Or.inl rfl))
    have hW1 := not_includesCL_of_missing (l := upCL asset.data)
      (show 'W' ∈ "WETH".data by decide) (hmissing 'W' (Or.inr (Or.inr (Or.inl rfl))))
    have hT1 := not_includesCL_of_missing (l := upCL asset.data)
      (show 'T' ∈ "ETH".data by decide) (hmissing 'T' (Or.inr (Or.inl rfl)))
    have hW2 := not_includesCL_of_missing (l := upCL asset.data)
      (show 'W' ∈ "WBTC".data by decide) (hmissing 'W' (Or.inr (Or.inr (Or.inl rfl))))
    have hT2 := not_includesCL_of_missing (l := upCL asset.data)
      (show 'T' ∈ "BTC".data by decide) (hmissing 'T' (Or.inr (Or.inl rfl)))
    have hI1 := not_includesCL_of_missing (l := upCL asset.data)
      (show 'I' ∈ "DAI".data by decide) (hmissing 'I' (Or.inr (Or.inr (Or.inr rfl))))
    have hpref : isPrefCL "0x".data asset.data = true := by
      rw [hshape]; rfl
    unfold getTokenInfo
    simp only [hlookup, hU1, hU2, hW1, hT1, hW2, hT2, hI1, hpref, hlen,
      Bool.or_self, Bool.false_eq_true, if_false]
    simp
  · -- non-address identifier without a known fragment
    intro asset hlookup hshape hpats
    have h1 := hpats "USDC" (by simp)
    have h2 := hpats "USDT" (by simp)
    have h3 := hpats "WETH" (by simp)
    have h4 := hpats "ETH" (by simp)
    have h5 := hpats "WBTC" (by simp)
    have h6 := hpats "BTC" (by simp)
    have h7 := hpats "DAI" (by simp)
    unfold getTokenInfo
    simp only [hlookup, h1, h2, h3, h4, h5, h6, h7, hshape, Bool.or_self,
      Bool.false_eq_true, if_false]
  · -- stripped fraction never ends in zero
    intro cs
    by_cases h : trimZeroesCL cs = []
    · exact Or.inl h
    · refine Or.inr ?_
      intro a ha hz
      subst hz
      unfold trimZeroesCL at ha
      rw [List.getLast?_reverse] at ha
      have := head?_dropWhile ha
      simp at this

/-- Witness for C6: the clauses with hypotheses, instantiated — the Base
USDC token, an unparsable amount, an unknown checksummed address, and a
plain ticker symbol. -/
theorem claim6_witness :
    (formatAmount "1000000" "0x833589fcd6edb6e08f4c7c32d4f71b54bda02913" = "1 USDC" ∧
      formatAmount "10000" "0x833589fcd6edb6e08f4c7c32d4f71b54bda02913" = "0.01 USDC") ∧
    formatAmount "0" "SOL" = "0 SOL" ∧
    formatAmount "not-a-number" "SOL" = "not-a-number (raw)" ∧
    getTokenInfo "0xDeAdBeef1234567890abcdef1234567890abcdef" =
      ⟨"0xDeAd...cdef", 18⟩ ∧
    getTokenInfo "SOL" = ⟨"SOL", 18⟩ :=
  ⟨claim6_format_amount.1 ("0x833589fcd6edb6e08f4c7c32d4f71b54bda02913", ⟨"USDC", 6⟩)
      (by decide) (by decide) (by decide),
    claim6_format_amount.2.1 "SOL",
    claim6_format_amount.2.2.1 "not-a-number" "SOL" (by decide),
    by
      have h := claim6_format_amount.2.2.2.1
        "0xDeAdBeef1234567890abcdef1234567890abcdef"
        "DeAdBeef1234567890abcdef1234567890abcdef".data rfl
        (by decide) (by decide) (by decide)
      simpa using h,
    claim6_format_amount.2.2.2.2.1 "SOL" (by decide) (by decide)
      (by intro pat hp; fin_cases hp <;> decide)⟩

/-- Counterexample to C6 as frozen: the Solana USDC entry is a 6-decimal
known asset but formats under 18 decimals with an unchanged symbol, because
its table key is not fully lowercase; and the non-address identifier
wrapped-USDC is not used unchanged — the fragment heuristic maps it to USDC. -/
theorem claim6_counterexample :
    ("epjfwdd5aufqssqem2qn1xzybapC8g4weggkzwytdt1v",
      (⟨"USDC", 6⟩ : TokenInfo)) ∈ KNOWN_TOKENS ∧
    formatAmount "1000000" "epjfwdd5aufqssqem2qn1xzybapC8g4weggkzwytdt1v" ≠ "1 USDC" ∧
    getAssetSymbol "wrapped-USDC" = "USDC" ∧ "USDC" ≠ "wrapped-USDC" := by
  exact ⟨by decide, by decide, by decide, by decide⟩

/-! ## Persistence theorems -/

/-- C9 (amended): on an upsert over an existing row, each descriptive field
— name, description, category, metadata — is overwritten exactly when the
incoming value is present (non-null): an absent field leaves the stored
value unchanged, while any present value, including an empty string,
replaces it. -/
theorem claim9_descriptive_fields (old : ResourceRowM) (inc : EnrichedResourceM)
    (now : String) :
    ((upsertResourceRow (some old) inc now).name = inc.name.or old.name ∧
      (upsertResourceRow (some old) inc now).description =
        inc.description.or old.description ∧
      (upsertResourceRow (some old) inc now).category =
        inc.category.or old.category ∧
      (upsertResourceRow (some old) inc now).metadata =
        inc.metadata.or old.metadata) ∧
    (inc.name = none → (upsertResourceRow (some old) inc now).name = old.name) ∧
    (∀ v, inc.name = some v → (upsertResourceRow (some old) inc now).name = some v) ∧
    (inc.description = none →
      (upsertResourceRow (some old) inc now).description = old.description) ∧
    (inc.category = none →
      (upsertResourceRow (some old) inc now).category = old.category) ∧
    (inc.metadata = none →
      (upsertResourceRow (some old) inc now).metadata = old.metadata) := by
  refine ⟨⟨rfl, rfl, rfl, rfl⟩, ?_, ?_, ?_, ?_, ?_⟩
  · intro h; simp [upsertResourceRow, h, Option.or]
  · intro v h; simp [upsertResourceRow, h, Option.or]
  · intro h; simp [upsertResourceRow, h, Option.or]
  · intro h; simp [upsertResourceRow, h, Option.or]
  · intro h; simp [upsertResourceRow, h, Option.or]

/-- Witness for C9: an upsert that lacks the name field keeps the stored
name. -/
theorem claim9_witness :
    (upsertResourceRow
      (some ⟨"https://a.example/api", some "Old Name", some "Old desc", some "Cat",
        "http", 1, "discovery_api", "base", some "meta", "2024-01-01",
        "2024-01-01", none⟩)
      (exRes "https://a.example/api") "2024-01-02").name = some "Old Name" :=
  (claim9_descriptive_fields
    ⟨"https://a.example/api", some "Old Name", some "Old desc", some "Cat",
      "http", 1, "discovery_api", "base", some "meta", "2024-01-01",
      "2024-01-01", none⟩
    (exRes "https://a.example/api") "2024-01-02").2.1 rfl

/-- Counterexample to C9 as frozen: an incoming empty-string name is empty
yet overwrites (blanks) the stored name, because the coalesce is null-based,
not emptiness-based. -/
theorem claim9_counterexample :
    (upsertResourceRow
      (some ⟨"https://a.example/api", some "Old Name", some "Old desc", some "Cat",
        "http", 1, "discovery_api", "base", some "meta", "2024-01-01",
        "2024-01-01", none⟩)
      ⟨"https://a.example/api", some "", none, none, "http", 1,
        ⟨true, some 200, some 10, none, "t"⟩, [], [], [], "2024-01-02", none,
        "ecosystem"⟩
      "2024-01-02").name = some "" ∧ ("" : String) ≠ "Old Name" := by
  exact ⟨by decide, by decide⟩

/-! ## Index run lemmas and theorems -/

theorem modifyAt_append_length {α : Type} (l : List α) (x : α) (f : α → α) :
    modifyAt (l ++ [x]) l.length f = l ++ [f x] := by
  induction l with
  | nil => rfl
  | cons a t ih => simp [modifyAt, ih]

theorem persistLoop_all_ok (oracle : UpsertOracle) (runId : Nat) :
    ∀ (rs : List EnrichedResourceM) (db : DbStateM),
      (∀ r ∈ rs, oracle r = none) →
      persistLoop oracle runId rs db =
        (completeIndexRun { db with committed := db.committed ++ rs.map (·.url) }
          runId, .ok ()) := by
  intro rs
  induction rs with
  | nil => intro db _; simp [persistLoop]
  | cons r rest ih =>
    intro db h
    have hr : oracle r = none := h r (List.mem_cons_self r rest)
    simp only [persistLoop, hr]
    rw [ih _ (fun x hx => h x (List.mem_cons_of_mem r hx))]
    simp

theorem persistLoop_fails (oracle : UpsertOracle) (runId : Nat)
    (bad : EnrichedResourceM) (e : String) (hbad : oracle bad = some e) :
    ∀ (pre post : List EnrichedResourceM) (db : DbStateM),
      (∀ r ∈ pre, oracle r = none) →
      persistLoop oracle runId (pre ++ bad :: post) db =
        (failIndexRun { db with committed := db.committed ++ pre.map (·.url) }
          runId e, .error e) := by
  intro pre
  induction pre with
  | nil => intro post db _; simp [persistLoop, hbad]
  | cons r rest ih =>
    intro post db h
    have hr : oracle r = none := h r (List.mem_cons_self r rest)
    rw [List.cons_append]
    simp only [persistLoop, hr]
    rw [ih _ _ (fun x hx => h x (List.mem_cons_of_mem r hx))]
    simp

/-- C10: persistToDatabase opens one Index Run row with status running
before any upsert and transitions it exactly once — its status history is
running then completed when every upsert succeeds, and running then failed
with the captured message as soon as an upsert throws; in the failure case
the resources committed before the failing upsert stay committed and the
error is re-propagated to the caller. -/
theorem claim10_index_run :
    (∀ (db : DbStateM) (rs : List EnrichedResourceM) (oracle : UpsertOracle)
        (fu ver : String),
      (∀ r ∈ rs, oracle r = none) →
      (persistToDatabase db rs oracle fu ver).1.runs[db.runs.length]? =
        some ⟨fu, ver, ["running", "completed"], none⟩ ∧
      (persistToDatabase db rs oracle fu ver).2 = .ok () ∧
      (persistToDatabase db rs oracle fu ver).1.committed =
        db.committed ++ rs.map (·.url)) ∧
    (∀ (db : DbStateM) (pre post : List EnrichedResourceM)
        (bad : EnrichedResourceM) (oracle : UpsertOracle) (fu ver e : String),
      (∀ r ∈ pre, oracle r = none) → oracle bad = some e →
      (persistToDatabase db (pre ++ bad :: post) oracle fu ver).1.runs[db.runs.length]? =
        some ⟨fu, ver, ["running", "failed"], some e⟩ ∧
      (persistToDatabase db (pre ++ bad :: post) oracle fu ver).2 = .error e ∧
      (persistToDatabase db (pre ++ bad :: post) oracle fu ver).1.committed =
        db.committed ++ pre.map (·.url)) := by
  constructor
  · intro db rs oracle fu ver h
    have hloop := persistLoop_all_ok oracle db.runs.length rs
      { db with runs := db.runs ++ [⟨fu, ver, ["running"], none⟩] } h
    unfold persistToDatabase startIndexRun
    simp only [hloop, completeIndexRun, modifyAt_append_length]
    simp
  · intro db pre post bad oracle fu ver e h hbad
    have hloop := persistLoop_fails oracle db.runs.length bad e hbad pre post
      { db with runs := db.runs ++ [⟨fu, ver, ["running"], none⟩] } h
    unfold persistToDatabase startIndexRun
    simp only [hloop, failIndexRun, modifyAt_append_length]
    simp

/-- Witness for C10 at two concrete batches: one fully successful, one whose
second upsert throws. -/
theorem claim10_witness :
    ((persistToDatabase ⟨[], []⟩ [exRes "https://a", exRes "https://b"]
        (fun _ => none) "fa" "1.0").1.runs[0]? =
      some ⟨"fa", "1.0", ["running", "completed"], none⟩ ∧
     (persistToDatabase ⟨[], []⟩ [exRes "https://a", exRes "https://b"]
        (fun _ => none) "fa" "1.0").2 = .ok () ∧
     (persistToDatabase ⟨[], []⟩ [exRes "https://a", exRes "https://b"]
        (fun _ => none) "fa" "1.0").1.committed = [] ++
          [exRes "https://a", exRes "https://b"].map (·.url)) ∧
    ((persistToDatabase ⟨[], []⟩ ([exRes "https://a"] ++ exRes "https://b" :: [])
        (fun r => if r.url == "https://b" then some "disk full" else none)
        "fa" "1.0").1.runs[0]? =
      some ⟨"fa", "1.0", ["running", "failed"], some "disk full"⟩ ∧
     (persistToDatabase ⟨[], []⟩ ([exRes "https://a"] ++ exRes "https://b" :: [])
        (fun r => if r.url == "https://b" then some "disk full" else none)
        "fa" "1.0").2 = .error "disk full" ∧
     (persistToDatabase ⟨[], []⟩ ([exRes "https://a"] ++ exRes "https://b" :: [])
        (fun r => if r.url == "https://b" then some "disk full" else none)
        "fa" "1.0").1.committed = [] ++ [exRes "https://a"].map (·.url)) :=
  ⟨claim10_index_run.1 ⟨[], []⟩ [exRes "https://a", exRes "https://b"]
      (fun _ => none) "fa" "1.0" (fun r _ => rfl),
    claim10_index_run.2 ⟨[], []⟩ [exRes "https://a"] [] (exRes "https://b")
      (fun r => if r.url == "https://b" then some "disk full" else none)
      "fa" "1.0" "disk full" (by decide) (by decide)⟩

/-! ## Rolling aggregate lemmas and theorems -/

theorem sum_map_ite_eq_countP (l : List HealthRowM) :
    (l.map fun r => if r.isAlive then (1 : Nat) else 0).sum =
      l.countP (·.isAlive) := by
  induction l with
  | nil => rfl
  | cons r t ih =>
    by_cases h : r.isAlive <;>
      simp [List.countP_cons, h, ih, Nat.add_comm]

theorem sum_map_getD_eq_sum_filterMap (l : List HealthRowM) :
    (l.map fun r => r.latencyMs.getD 0).sum =
      (l.filterMap (·.latencyMs)).sum := by
  induction l with
  | nil => rfl
  | cons r t ih =>
    cases h : r.latencyMs <;> simp [List.filterMap_cons, h, ih]

theorem countP_isSome_eq_length_filterMap (l : List HealthRowM) :
    l.countP (fun r => r.latencyMs.isSome) =
      (l.filterMap (·.latencyMs)).length := by
  induction l with
  | nil => rfl
  | cons r t ih =>
    cases h : r.latencyMs <;> simp [List.countP_cons, List.filterMap_cons, h, ih]

/-- C8: after the health part of an upsert — append the new history row,
recompute — the stored aggregate satisfies uptimePercent7d equal to the
alive count over the total count of exactly the in-window rows of that
resource, times 100 (null on zero rows), and avgLatency7d equal to the mean
of the recorded latencies of those same rows (null when none); in
particular 7 alive rows out of 10 in-window rows yield 70, and a row older
than seven days is excluded from the count. -/
theorem claim8_rolling_aggregate :
    (∀ (now : Int) (rows : List HealthRowM) (rid : String) (h : DbHealthCheckM),
      ((applyHealthUpsert now rows rid h).2.uptime7d =
        if (healthWindow now (insertHealthCheckTx rows rid h) rid).length = 0
        then none
        else some
          (((healthWindow now (insertHealthCheckTx rows rid h) rid).countP
              (·.isAlive) : ℚ) /
            ((healthWindow now (insertHealthCheckTx rows rid h) rid).length : ℚ) *
            100)) ∧
      ((applyHealthUpsert now rows rid h).2.avgLatency7d =
        if ((healthWindow now (insertHealthCheckTx rows rid h) rid).filterMap
            (·.latencyMs)).length = 0
        then none
        else some
          (((healthWindow now (insertHealthCheckTx rows rid h) rid).filterMap
              (·.latencyMs)).sum /
            (((healthWindow now (insertHealthCheckTx rows rid h) rid).filterMap
              (·.latencyMs)).length : ℚ))) ∧
      (applyHealthUpsert now rows rid h).2.checkCount7d =
        (healthWindow now (insertHealthCheckTx rows rid h) rid).length) ∧
    ((updateResourceHealthTx 1000000
        (List.replicate 7 ⟨"r", true, some 200, some 10, none, 999999⟩ ++
          List.replicate 3 ⟨"r", false, none, none, some "down", 999999⟩)
        "r" ⟨false, none, none, some "down", 999999⟩).uptime7d = some 70) ∧
    ((updateResourceHealthTx 1000000
        [⟨"r", true, some 200, some 10, none, 999999⟩,
         ⟨"r", true, some 200, some 10, none, 300000⟩]
        "r" ⟨true, some 200, some 10, none, 999999⟩).checkCount7d = 1) := by
  refine ⟨?_, ?_, ?_⟩
  case refine_2 =>
    simp only [updateResourceHealthTx, healthWindow, inWindow7d]
    norm_num [List.filter, List.replicate]
  case refine_3 =>
    simp only [updateResourceHealthTx, healthWindow, inWindow7d]
    norm_num [List.filter]
  intro now rows rid h
  unfold applyHealthUpsert updateResourceHealthTx
  refine ⟨?_, ?_, rfl⟩
  · simp only [sum_map_ite_eq_countP]
    rcases Nat.eq_zero_or_pos (healthWindow now (insertHealthCheckTx rows rid h)
      rid).length with hz | hp
    · simp [hz]
    · have hne : (healthWindow now (insertHealthCheckTx rows rid h) rid).length ≠ 0 := by
        omega
      simp [hp, hne]
  · simp only [sum_map_getD_eq_sum_filterMap, countP_isSome_eq_length_filterMap]

/-! ## Merge lemmas and theorems -/

theorem if_one_zero_congr {p q : Prop} [Decidable p] [Decidable q] (h : p ↔ q) :
    (if p then (1 : Nat) else 0) = if q then 1 else 0 := by
  simp only [h]

theorem jsSetDedupAux_count {α : Type} [DecidableEq α] (u : α) :
    ∀ (xs seen : List α),
      (jsSetDedupAux seen xs).count u =
        if u ∈ xs ∧ u ∉ seen then 1 else 0 := by
  intro xs
  induction xs with
  | nil => intro seen; simp [jsSetDedupAux]
  | cons x rest ih =>
    intro seen
    by_cases hx : x ∈ seen
    · rw [jsSetDedupAux, if_pos hx, ih]
      refine if_one_zero_congr ?_
      constructor
      · rintro ⟨h1, h2⟩
        exact ⟨List.mem_cons.2 (Or.inr h1), h2⟩
      · rintro ⟨h1, h2⟩
        rcases List.mem_cons.1 h1 with rfl | h3
        · exact absurd hx h2
        · exact ⟨h3, h2⟩
    · rw [jsSetDedupAux, if_neg hx, List.count_cons, ih]
      by_cases hu : u = x
      · subst hu
        have hnotrest : ¬ (u ∈ rest ∧ u ∉ u :: seen) := by
          rintro ⟨_, h2⟩
          exact h2 (List.mem_cons_self u seen)
        rw [if_neg hnotrest]
        simp [hx]
      · have hxu : (x == u) = false := by
          simpa using fun h => hu h.symm
        simp only [hxu, Bool.false_eq_true, if_false, Nat.add_zero]
        refine if_one_zero_congr ?_
        constructor
        · rintro ⟨h1, h2⟩
          refine ⟨List.mem_cons.2 (Or.inr h1), fun hm => h2 (List.mem_cons.2 (Or.inr hm))⟩
        · rintro ⟨h1, h2⟩
          rcases List.mem_cons.1 h1 with rfl | h3
          · exact absurd rfl hu
          · refine ⟨h3, fun hm => ?_⟩
            rcases List.mem_cons.1 hm with rfl | h4
            · exact hu rfl
            · exact h2 h4

theorem jsSetDedup_count {α : Type} [DecidableEq α] (u : α) (xs : List α) :
    (jsSetDedup xs).count u = if u ∈ xs then 1 else 0 := by
  rw [jsSetDedup, jsSetDedupAux_count]
  exact if_one_zero_congr (by simp)

theorem ecoPhase_count (cr : String → Option EndpointCheckResultM) (now u : String) :
    ∀ (es : List EcosystemServiceM) (processed : List String),
      (ecoPhase cr now processed es).1.countP (fun r => r.url == u) =
        if u ∈ es.map (·.url) ∧ u ∉ processed then 1 else 0 := by
  intro es
  induction es with
  | nil => intro processed; simp [ecoPhase]
  | cons s rest ih =>
    intro processed
    by_cases hs : s.url ∈ processed
    · rw [ecoPhase, if_pos hs, ih]
      refine if_one_zero_congr ?_
      constructor
      · rintro ⟨h1, h2⟩
        exact ⟨by simpa using Or.inr (by simpa using h1), h2⟩
      · rintro ⟨h1, h2⟩
        rcases (by simpa using h1 : u = s.url ∨ u ∈ rest.map (·.url)) with rfl | h3
        · exact absurd hs h2
        · exact ⟨by simpa using h3, h2⟩
    · rw [ecoPhase, if_neg hs]
      simp only [List.countP_cons]
      rw [ih]
      by_cases hu : u = s.url
      · have hcond : ((enrichEcosystemService s (cr s.url) now).url == u) = true := by
          simp [enrichEcosystemService, hu]
        rw [hcond]
        have hnot : ¬ (u ∈ rest.map (·.url) ∧ u ∉ s.url :: processed) := by
          rintro ⟨_, h2⟩
          exact h2 (by rw [hu]; exact List.mem_cons_self _ _)
        rw [if_neg hnot]
        have hpos : u ∈ (s :: rest).map (·.url) ∧ u ∉ processed := by
          exact ⟨by simp [hu], by rw [hu]; exact hs⟩
        rw [if_pos hpos]
        simp
      · have hcond : ((enrichEcosystemService s (cr s.url) now).url == u) = false := by
          simp [enrichEcosystemService]
          exact fun h => hu h.symm
        rw [hcond]
        simp only [Bool.false_eq_true, if_false, Nat.add_zero]
        refine if_one_zero_congr ?_
        constructor
        · rintro ⟨h1, h2⟩
          refine ⟨by simpa using Or.inr (by simpa using h1),
            fun hm => h2 (List.mem_cons.2 (Or.inr hm))⟩
        · rintro ⟨h1, h2⟩
          rcases (by simpa using h1 : u = s.url ∨ u ∈ rest.map (·.url)) with rfl | h3
          · exact absurd rfl hu
          · refine ⟨by simpa using h3, fun hm => ?_⟩
            rcases List.mem_cons.1 hm with rfl | h4
            · exact hu rfl
            · exact h2 h4

theorem ecoPhase_processed_mem (cr : String → Option EndpointCheckResultM)
    (now u : String) :
    ∀ (es : List EcosystemServiceM) (processed : List String),
      (u ∈ (ecoPhase cr now processed es).2 ↔
        u ∈ processed ∨ u ∈ es.map (·.url)) := by
  intro es
  induction es with
  | nil => intro processed; simp [ecoPhase]
  | cons s rest ih =>
    intro processed
    by_cases hs : s.url ∈ processed
    · rw [ecoPhase, if_pos hs, ih]
      simp only [List.map_cons, List.mem_cons]
      constructor
      · rintro (h | h)
        · exact Or.inl h
        · exact Or.inr (Or.inr h)
      · rintro (h | rfl | h)
        · exact Or.inl h
        · exact Or.inl hs
        · exact Or.inr h
    · rw [ecoPhase, if_neg hs]
      dsimp only
      rw [ih]
      simp only [List.mem_cons, List.map_cons]
      tauto

theorem ecoPhase_out_sources (cr : String → Option EndpointCheckResultM)
    (now : String) :
    ∀ (es : List EcosystemServiceM) (processed : List String),
      ∀ r ∈ (ecoPhase cr now processed es).1,
        r.source = "ecosystem" ∧ r.url ∉ processed ∧ r.url ∈ es.map (·.url) := by
  intro es
  induction es with
  | nil => intro processed r hr; simp [ecoPhase] at hr
  | cons s rest ih =>
    intro processed r hr
    by_cases hs : s.url ∈ processed
    · rw [ecoPhase, if_pos hs] at hr
      obtain ⟨h1, h2, h3⟩ := ih processed r hr
      refine ⟨h1, h2, ?_⟩
      simp only [List.map_cons, List.mem_cons]
      exact Or.inr (by simpa using h3)
    · rw [ecoPhase, if_neg hs] at hr
      dsimp only at hr
      rcases List.mem_cons.1 hr with rfl | hr2
      · exact ⟨rfl, hs, by simp [enrichEcosystemService]⟩
      · obtain ⟨h1, h2, h3⟩ := ih (s.url :: processed) r hr2
        refine ⟨h1, fun hmem => h2 (List.mem_cons.2 (Or.inr hmem)), ?_⟩
        simp only [List.map_cons, List.mem_cons]
        exact Or.inr (by simpa using h3)

theorem enrichPartnerMetadata_some {p : PartnerMetadataM} {b : String}
    (hb : p.facilitatorBaseUrl = some b) (c : Option EndpointCheckResultM)
    (now : String) :
    enrichPartnerMetadata p c now = some
      { url := b, name := some p.name, description := some p.description,
        category := some p.category, typ := "http", x402Version := 1,
        health := (c.map (·.health)).getD (skippedHealth now),
        pricing := (c.map (·.pricing)).getD [],
        networksSupported := p.facilitatorNetworks, accepts := [],
        lastUpdated := now, metadata := some (partnerMetaStr p),
        source := "partners_data" } := by
  unfold enrichPartnerMetadata
  rw [hb]

theorem partnerPhase_count (cr : String → Option EndpointCheckResultM)
    (now u : String) :
    ∀ (ps : List PartnerMetadataM) (processed : List String),
      (partnerPhase cr now processed ps).1.countP (fun r => r.url == u) =
        if u ∈ ps.filterMap (·.facilitatorBaseUrl) ∧ u ∉ processed then 1
        else 0 := by
  intro ps
  induction ps with
  | nil => intro processed; simp [partnerPhase]
  | cons p rest ih =>
    intro processed
    cases hb : p.facilitatorBaseUrl with
    | none =>
      rw [partnerPhase, hb]
      dsimp only
      rw [ih]
      refine if_one_zero_congr ?_
      rw [List.filterMap_cons_none hb]
    | some b =>
      rw [partnerPhase, hb]
      dsimp only
      by_cases hs : b ∈ processed
      · rw [if_pos hs, ih]
        refine if_one_zero_congr ?_
        rw [List.filterMap_cons_some hb]
        constructor
        · rintro ⟨h1, h2⟩
          exact ⟨List.mem_cons.2 (Or.inr h1), h2⟩
        · rintro ⟨h1, h2⟩
          rcases List.mem_cons.1 h1 with rfl | h3
          · exact absurd hs h2
          · exact ⟨h3, h2⟩
      · rw [if_neg hs, enrichPartnerMetadata_some hb]
        dsimp only
        simp only [List.countP_cons]
        rw [ih]
        by_cases hu : u = b
        · have hcond : (b == u) = true := by simp [hu]
          rw [hcond]
          have hnot : ¬ (u ∈ rest.filterMap (·.facilitatorBaseUrl) ∧
              u ∉ b :: processed) := by
            rintro ⟨_, h2⟩
            exact h2 (by rw [hu]; exact List.mem_cons_self _ _)
          rw [if_neg hnot]
          have hpos : u ∈ (p :: rest).filterMap (·.facilitatorBaseUrl) ∧
              u ∉ processed := by
            refine ⟨?_, by rw [hu]; exact hs⟩
            rw [List.filterMap_cons_some hb]
            exact List.mem_cons.2 (Or.inl hu)
          rw [if_pos hpos]
          simp
        · have hcond : (b == u) = false := by
            simpa using fun h => hu h.symm
          rw [hcond]
          simp only [Bool.false_eq_true, if_false, Nat.add_zero]
          refine if_one_zero_congr ?_
          rw [List.filterMap_cons_some hb]
          constructor
          · rintro ⟨h1, h2⟩
            exact ⟨List.mem_cons.2 (Or.inr h1),
              fun hm => h2 (List.mem_cons.2 (Or.inr hm))⟩
          · rintro ⟨h1, h2⟩
            rcases List.mem_cons.1 h1 with rfl | h3
            · exact absurd rfl hu
            · refine ⟨h3, fun hm => ?_⟩
              rcases List.mem_cons.1 hm with rfl | h4
              · exact hu rfl
              · exact h2 h4

theorem partnerPhase_out_sources (cr : String → Option EndpointCheckResultM)
    (now : String) :
    ∀ (ps : List PartnerMetadataM) (processed : List String),
      ∀ r ∈ (partnerPhase cr now processed ps).1,
        r.source = "partners_data" ∧ r.url ∉ processed := by
  intro ps
  induction ps with
  | nil => intro processed r hr; simp [partnerPhase] at hr
  | cons p rest ih =>
    intro processed r hr
    cases hb : p.facilitatorBaseUrl with
    | none =>
      rw [partnerPhase, hb] at hr
      dsimp only at hr
      exact ih processed r hr
    | some b =>
      rw [partnerPhase, hb] at hr
      dsimp only at hr
      by_cases hs : b ∈ processed
      · rw [if_pos hs] at hr
        exact ih processed r hr
      · rw [if_neg hs, enrichPartnerMetadata_some hb] at hr
        dsimp only at hr
        rcases List.mem_cons.1 hr with rfl | hr2
        · exact ⟨rfl, hs⟩
        · obtain ⟨h1, h2⟩ := ih (b :: processed) r hr2
          exact ⟨h1, fun hmem => h2 (List.mem_cons.2 (Or.inr hmem))⟩

theorem count_nodup_if {α : Type} [DecidableEq α] {l : List α} (h : l.Nodup)
    (u : α) : l.count u = if u ∈ l then 1 else 0 := by
  by_cases hm : u ∈ l
  · rw [if_pos hm]
    exact List.count_eq_one_of_mem h hm
  · rw [if_neg hm]
    exact List.count_eq_zero.2 hm

theorem enrichDiscoveredResource_url (r : DiscoveredResourceM)
    (c : Option EndpointCheckResultM) (partner : Option PartnerMetadataM)
    (now : String) :
    (enrichDiscoveredResource r c partner now).url = r.resource := rfl

theorem enrichDiscoveredResource_source (r : DiscoveredResourceM)
    (c : Option EndpointCheckResultM) (partner : Option PartnerMetadataM)
    (now : String) :
    (enrichDiscoveredResource r c partner now).source = "discovery_api" := rfl

/-- C7 (amended): provided the discovery list names each URL at most once
(the discovery loop itself never deduplicates, so an intra-discovery
duplicate is emitted twice), the merged output contains exactly one enriched
resource per distinct URL across all three sources; the resource for a URL
is built by the builder of its highest-priority source — discovery API over
ecosystem over partner files — as recorded by its source tag; and the URL
list submitted to the health checker carries each distinct URL exactly
once, no matter how many sources name it. -/
theorem claim7_merge :
    (∀ (d : List DiscoveredResourceM) (e : List EcosystemServiceM)
        (p : List PartnerMetadataM) (cr : String → Option EndpointCheckResultM)
        (now : String), (d.map (·.resource)).Nodup →
      ∀ u, (runIndexerMerge d e p cr now).countP (fun r => r.url == u) =
        if u ∈ urlsToCheck d e p then 1 else 0) ∧
    (∀ (d : List DiscoveredResourceM) (e : List EcosystemServiceM)
        (p : List PartnerMetadataM) (cr : String → Option EndpointCheckResultM)
        (now : String), ∀ r ∈ runIndexerMerge d e p cr now,
      (r.url ∈ d.map (·.resource) → r.source = "discovery_api") ∧
      (r.url ∉ d.map (·.resource) → r.url ∈ e.map (·.url) →
        r.source = "ecosystem") ∧
      (r.url ∉ d.map (·.resource) → r.url ∉ e.map (·.url) →
        r.source = "partners_data")) ∧
    (∀ (d : List DiscoveredResourceM) (e : List EcosystemServiceM)
        (p : List PartnerMetadataM) (u : String),
      (uniqueUrls d e p).count u = if u ∈ urlsToCheck d e p then 1 else 0) := by
  refine ⟨?_, ?_, ?_⟩
  · intro d e p cr now hnd u
    rw [runIndexerMerge]
    rw [List.countP_append, List.countP_append]
    have hc1 : List.countP ((fun (r : EnrichedResourceM) => r.url == u) ∘ fun r =>
        enrichDiscoveredResource r (cr r.resource) (partnerByUrl p r.resource) now) d =
        (d.map (·.resource)).count u := by
      rw [List.count, List.countP_map]
      rfl
    rw [List.countP_map, hc1, count_nodup_if hnd, ecoPhase_count,
      partnerPhase_count]
    have hpm := ecoPhase_processed_mem cr now u e (d.map (·.resource))
    by_cases hd : u ∈ d.map (·.resource) <;>
      by_cases he : u ∈ e.map (·.url) <;>
      by_cases hp2 : u ∈ p.filterMap (·.facilitatorBaseUrl) <;>
      simp [urlsToCheck, hd, he, hp2, hpm]
  · intro d e p cr now r hr
    rw [runIndexerMerge] at hr
    rcases List.mem_append.1 hr with h12 | h3
    · rcases List.mem_append.1 h12 with h1 | h2
      · obtain ⟨x, hx, rfl⟩ := List.mem_map.1 h1
        have hin : (enrichDiscoveredResource x (cr x.resource)
            (partnerByUrl p x.resource) now).url ∈ d.map (·.resource) := by
          rw [enrichDiscoveredResource_url]
          exact List.mem_map.2 ⟨x, hx, rfl⟩
        exact ⟨fun _ => enrichDiscoveredResource_source x _ _ now,
          fun hout _ => absurd hin hout, fun hout _ => absurd hin hout⟩
      · obtain ⟨hsrc, hnotp, hin⟩ :=
          ecoPhase_out_sources cr now e (d.map (·.resource)) r h2
        exact ⟨fun hmem => absurd hmem hnotp, fun _ _ => hsrc,
          fun _ hne => absurd hin hne⟩
    · obtain ⟨hsrc, hnotp2⟩ :=
        partnerPhase_out_sources cr now p
          (ecoPhase cr now (d.map (·.resource)) e).2 r h3
      have hnor := fun hmem =>
        hnotp2 ((ecoPhase_processed_mem cr now r.url e (d.map (·.resource))).2 hmem)
      exact ⟨fun hmem => absurd (Or.inl hmem) hnor,
        fun _ hmem => absurd (Or.inr hmem) hnor, fun _ _ => hsrc⟩
  · intro d e p u
    rw [uniqueUrls, jsSetDedup_count]

/-- Witness for C7: one discovery resource and one ecosystem service that
both name the same URL merge into a single resource for it, and the health
checker receives that URL exactly once. -/
theorem claim7_witness :
    ((runIndexerMerge [exDisc "https://a.example/api"]
        [⟨"Svc", "https://a.example/api", "d", "c"⟩] [] (fun _ => none)
        "t").countP (fun r => r.url == "https://a.example/api") =
      if "https://a.example/api" ∈ urlsToCheck [exDisc "https://a.example/api"]
        [⟨"Svc", "https://a.example/api", "d", "c"⟩] [] then 1 else 0) ∧
    ((uniqueUrls [exDisc "https://a.example/api"]
        [⟨"Svc", "https://a.example/api", "d", "c"⟩] []).count
      "https://a.example/api" =
      if "https://a.example/api" ∈ urlsToCheck [exDisc "https://a.example/api"]
        [⟨"Svc", "https://a.example/api", "d", "c"⟩] [] then 1 else 0) :=
  ⟨claim7_merge.1 [exDisc "https://a.example/api"]
      [⟨"Svc", "https://a.example/api", "d", "c"⟩] [] (fun _ => none) "t"
      (by decide) "https://a.example/api",
    claim7_merge.2.2 [exDisc "https://a.example/api"]
      [⟨"Svc", "https://a.example/api", "d", "c"⟩] [] "https://a.example/api"⟩

/-- Counterexample to C7 as frozen: a discovery list naming the same URL
twice produces two enriched resources for that URL — the discovery loop
does not deduplicate within its own source. -/
theorem claim7_counterexample :
    (runIndexerMerge [exDisc "https://a.example/api", exDisc "https://a.example/api"]
        [] [] (fun _ => none) "t").countP
      (fun r => r.url == "https://a.example/api") = 2 ∧ (2 : Nat) ≠ 1 := by
  exact ⟨by decide, by decide⟩

/-! ## URL validator: digit rendering and parsing lemmas -/

theorem digitsLEAux_eq (b : Nat) (hb : 2 ≤ b) :
    ∀ fuel n : Nat, n ≤ fuel → digitsLEAux b fuel n = Nat.digits b n := by
  intro fuel
  induction fuel with
  | zero =>
    intro n hn
    interval_cases n
    simp [digitsLEAux]
  | succ f ih =>
    intro n hn
    match n with
    | 0 => simp [digitsLEAux]
    | m + 1 =>
      show (m + 1) % b :: digitsLEAux b f ((m + 1) / b) = Nat.digits b (m + 1)
      have hdiv : (m + 1) / b ≤ f := by
        have : (m + 1) / b < m + 1 := Nat.div_lt_self (Nat.succ_pos m) (by omega)
        omega
      rw [ih _ hdiv, Nat.digits_def' (show 1 < b by omega) (Nat.succ_pos m)]

theorem digitCh_props {d : Nat} (hd : d < 10) :
    isDigitCh (digitCh d) = true ∧ digitVal (digitCh d) = d ∧
    lowChar (digitCh d) = digitCh d ∧
    digitCh d ≠ ':' ∧ digitCh d ≠ '.' ∧ digitCh d ≠ '[' ∧ digitCh d ≠ ']' := by
  interval_cases d <;> decide

theorem hexCh_props {d : Nat} (hd : d < 16) :
    isHexCh (hexCh d) = true ∧ hexVal (hexCh d) = d ∧
    lowChar (hexCh d) = hexCh d ∧
    hexCh d ≠ ':' ∧ hexCh d ≠ '.' ∧ hexCh d ≠ '[' ∧ hexCh d ≠ ']' := by
  interval_cases d <;> decide

theorem dec_foldl_eval :
    ∀ L : List Nat, (∀ d ∈ L, d < 10) → ∀ a : Nat,
      List.foldl (fun acc c => acc * 10 + digitVal c) a ((L.map digitCh).reverse)
        = a * 10 ^ L.length + Nat.ofDigits 10 L := by
  intro L
  induction L with
  | nil => intro _ a; simp
  | cons d L ih =>
    intro hL a
    rw [List.map_cons, List.reverse_cons, List.foldl_append]
    simp only [List.foldl_cons, List.foldl_nil]
    rw [ih (fun x hx => hL x (List.mem_cons_of_mem d hx)) a]
    rw [(digitCh_props (hL d (List.mem_cons_self d L))).2.1]
    rw [Nat.ofDigits_cons, List.length_cons]
    ring

theorem hex_foldl_eval :
    ∀ L : List Nat, (∀ d ∈ L, d < 16) → ∀ a : Nat,
      List.foldl (fun acc c => acc * 16 + hexVal c) a ((L.map hexCh).reverse)
        = a * 16 ^ L.length + Nat.ofDigits 16 L := by
  intro L
  induction L with
  | nil => intro _ a; simp
  | cons d L ih =>
    intro hL a
    rw [List.map_cons, List.reverse_cons, List.foldl_append]
    simp only [List.foldl_cons, List.foldl_nil]
    rw [ih (fun x hx => hL x (List.mem_cons_of_mem d hx)) a]
    rw [(hexCh_props (hL d (List.mem_cons_self d L))).2.1]
    rw [Nat.ofDigits_cons, List.length_cons]
    ring

theorem decParse?_natToDecCL (n : Nat) : decParse? (natToDecCL n) = some n := by
  by_cases h0 : n = 0
  · subst h0; decide
  · unfold natToDecCL
    rw [if_neg h0, digitsLEAux_eq 10 (by omega) n n le_rfl]
    have hlt : ∀ d ∈ Nat.digits 10 n, d < 10 :=
      fun d hd => Nat.digits_lt_base (by omega) hd
    unfold decParse?
    rw [if_pos, dec_foldl_eval _ hlt 0]
    · simp [Nat.ofDigits_digits]
    · simp only [Bool.and_eq_true, decide_eq_true_eq, List.all_eq_true]
      refine ⟨by simp [Nat.digits_ne_nil_iff_ne_zero.mpr h0], ?_⟩
      intro c hc
      rw [List.mem_reverse, List.mem_map] at hc
      obtain ⟨d, hd, rfl⟩ := hc
      exact (digitCh_props (hlt d hd)).1

theorem hexParse?_natToHexCL (n : Nat) : hexParse? (natToHexCL n) = some n := by
  by_cases h0 : n = 0
  · subst h0; decide
  · unfold natToHexCL
    rw [if_neg h0, digitsLEAux_eq 16 (by omega) n n le_rfl]
    have hlt : ∀ d ∈ Nat.digits 16 n, d < 16 :=
      fun d hd => Nat.digits_lt_base (by omega) hd
    unfold hexParse?
    rw [if_pos, hex_foldl_eval _ hlt 0]
    · simp [Nat.ofDigits_digits]
    · simp only [Bool.and_eq_true, decide_eq_true_eq, List.all_eq_true]
      refine ⟨by simp [Nat.digits_ne_nil_iff_ne_zero.mpr h0], ?_⟩
      intro c hc
      rw [List.mem_reverse, List.mem_map] at hc
      obtain ⟨d, hd, rfl⟩ := hc
      exact (hexCh_props (hlt d hd)).1

theorem natToDecCL_chars {n : Nat} {c : Char} (hc : c ∈ natToDecCL n) :
    isDigitCh c = true ∧ lowChar c = c ∧
    c ≠ ':' ∧ c ≠ '.' ∧ c ≠ '[' ∧ c ≠ ']' := by
  unfold natToDecCL at hc
  by_cases h0 : n = 0
  · simp [h0] at hc
    subst hc; decide
  · rw [if_neg h0, digitsLEAux_eq 10 (by omega) n n le_rfl,
      List.mem_reverse, List.mem_map] at hc
    obtain ⟨d, hd, rfl⟩ := hc
    have hp := digitCh_props (Nat.digits_lt_base (by omega) hd)
    exact ⟨hp.1, hp.2.2.1, hp.2.2.2.1, hp.2.2.2.2.1, hp.2.2.2.2.2.1, hp.2.2.2.2.2.2⟩

theorem natToHexCL_chars {n : Nat} {c : Char} (hc : c ∈ natToHexCL n) :
    isHexCh c = true ∧ lowChar c = c ∧
    c ≠ ':' ∧ c ≠ '.' ∧ c ≠ '[' ∧ c ≠ ']' := by
  unfold natToHexCL at hc
  by_cases h0 : n = 0
  · simp [h0] at hc
    subst hc; decide
  · rw [if_neg h0, digitsLEAux_eq 16 (by omega) n n le_rfl,
      List.mem_reverse, List.mem_map] at hc
    obtain ⟨d, hd, rfl⟩ := hc
    have hp := hexCh_props (Nat.digits_lt_base (by omega) hd)
    exact ⟨hp.1, hp.2.2.1, hp.2.2.2.1, hp.2.2.2.2.1, hp.2.2.2.2.2.1, hp.2.2.2.2.2.2⟩

theorem natToDecCL_ne_nil (n : Nat) : natToDecCL n ≠ [] := by
  unfold natToDecCL
  by_cases h0 : n = 0
  · simp [h0]
  · rw [if_neg h0, digitsLEAux_eq 10 (by omega) n n le_rfl]
    simp [Nat.digits_ne_nil_iff_ne_zero.mpr h0]

theorem natToHexCL_ne_nil (n : Nat) : natToHexCL n ≠ [] := by
  unfold natToHexCL
  by_cases h0 : n = 0
  · simp [h0]
  · rw [if_neg h0, digitsLEAux_eq 16 (by omega) n n le_rfl]
    simp [Nat.digits_ne_nil_iff_ne_zero.mpr h0]

theorem natToHexCL_len_le {n : Nat} (h : n < 65536) : (natToHexCL n).length ≤ 4 := by
  by_cases h0 : n = 0
  · subst h0; decide
  · unfold natToHexCL
    rw [if_neg h0, digitsLEAux_eq 16 (by omega) n n le_rfl]
    simp only [List.length_reverse, List.length_map]
    by_contra hlen
    push_neg at hlen
    have h2 := Nat.base_pow_length_digits_le 16 n (by omega) h0
    have h3 : (16:ℕ) ^ 5 ≤ 16 ^ (Nat.digits 16 n).length :=
      Nat.pow_le_pow_right (by omega) (by omega)
    have h4 : (16:ℕ) ^ 5 = 1048576 := by norm_num
    omega

theorem natToHexCL4 {n : Nat} (h1 : 4096 ≤ n) (h2 : n < 65536) :
    natToHexCL n =
      [hexCh (n / 4096), hexCh (n / 256 % 16), hexCh (n / 16 % 16), hexCh (n % 16)] := by
  unfold natToHexCL
  rw [if_neg (by omega), digitsLEAux_eq 16 (by omega) n n le_rfl]
  have e1 : Nat.digits 16 n = n % 16 :: Nat.digits 16 (n / 16) :=
    Nat.digits_def' (by norm_num) (by omega)
  have hd16 : 0 < n / 16 := Nat.div_pos (by omega) (by omega)
  have e2 : Nat.digits 16 (n / 16) = n / 16 % 16 :: Nat.digits 16 (n / 16 / 16) :=
    Nat.digits_def' (by norm_num) hd16
  have hdd : n / 16 / 16 = n / 256 := by
    rw [Nat.div_div_eq_div_mul]
  have hd256 : 0 < n / 256 := Nat.div_pos (by omega) (by omega)
  have e3 : Nat.digits 16 (n / 256) = n / 256 % 16 :: Nat.digits 16 (n / 256 / 16) :=
    Nat.digits_def' (by norm_num) hd256
  have hdd2 : n / 256 / 16 = n / 4096 := by
    rw [Nat.div_div_eq_div_mul]
  have hd4096 : 0 < n / 4096 := Nat.div_pos (by omega) (by omega)
  have e4 : Nat.digits 16 (n / 4096) = n / 4096 % 16 :: Nat.digits 16 (n / 4096 / 16) :=
    Nat.digits_def' (by norm_num) hd4096
  have hdd3 : n / 4096 / 16 = n / 65536 := by
    rw [Nat.div_div_eq_div_mul]
  have hz : n / 65536 = 0 := Nat.div_eq_of_lt h2
  have hm : n / 4096 % 16 = n / 4096 := by
    apply Nat.mod_eq_of_lt
    omega
  rw [e1, e2, hdd, e3, hdd2, e4, hdd3, hz, hm, Nat.digits_zero]
  rfl

/-! ## URL validator: ASCII lowering lemmas -/

theorem toNat_ofNat_small {n : Nat} (h : n < 55296) : (Char.ofNat n).toNat = n := by
  have hv : n.isValidChar := Or.inl h
  simp [Char.ofNat, hv, Char.ofNatAux, Char.toNat, UInt32.toNat]

theorem lowChar_eq_self {c : Char} (h : c.toNat < 65 ∨ 90 < c.toNat) : lowChar c = c := by
  unfold lowChar Char.toLower
  rw [if_neg]
  omega

theorem lowChar_cases (c : Char) :
    lowChar c = c ∨ (65 ≤ c.toNat ∧ c.toNat ≤ 90 ∧ (lowChar c).toNat = c.toNat + 32) := by
  by_cases h : 65 ≤ c.toNat ∧ c.toNat ≤ 90
  · right
    refine ⟨h.1, h.2, ?_⟩
    unfold lowChar Char.toLower
    rw [if_pos h]
    exact toNat_ofNat_small (by omega)
  · left
    unfold lowChar Char.toLower
    rw [if_neg h]

theorem lowChar_eq_of_low {c c2 : Char} (hlow : c2.toNat < 97 ∨ 122 < c2.toNat)
    (h : lowChar c = c2) : c = c2 := by
  rcases lowChar_cases c with he | ⟨h1, h2, h3⟩
  · exact he.symm.trans h
  · exfalso
    rw [h] at h3
    omega

theorem lowChar_idem (c : Char) : lowChar (lowChar c) = lowChar c := by
  rcases lowChar_cases c with he | ⟨h1, h2, h3⟩
  · rw [he]; exact he
  · exact lowChar_eq_self (by omega)

theorem mem_lowCL_low {cs : List Char} {c2 : Char}
    (hlow : c2.toNat < 97 ∨ 122 < c2.toNat) (h : c2 ∈ lowCL cs) : c2 ∈ cs := by
  rw [lowCL, List.mem_map] at h
  obtain ⟨c, hc, he⟩ := h
  exact (lowChar_eq_of_low hlow he) ▸ hc

theorem lowCL_idem (cs : List Char) : lowCL (lowCL cs) = lowCL cs := by
  simp only [lowCL, List.map_map]
  apply List.map_congr_left
  intro a _
  simp only [Function.comp]
  exact lowChar_idem a

/-! ## URL validator: split and join lemmas -/

theorem splitCL_ne_nil (sep : Char) (cs : List Char) : splitCL sep cs ≠ [] := by
  induction cs with
  | nil => simp [splitCL]
  | cons c rest ih =>
    rw [splitCL]
    by_cases hc : c = sep
    · simp [hc]
    · simp only [beq_iff_eq, hc, if_false]
      match h : splitCL sep rest with
      | [] => exact absurd h ih
      | p :: ps => simp

theorem splitCL_no_sep {sep : Char} {cs : List Char} (h : sep ∉ cs) :
    splitCL sep cs = [cs] := by
  induction cs with
  | nil => rfl
  | cons c rest ih =>
    have hc : c ≠ sep := fun he => h (he ▸ List.mem_cons_self c rest)
    have hr : sep ∉ rest := fun hm => h (List.mem_cons_of_mem c hm)
    rw [splitCL]
    simp only [ih hr]
    simp [hc]

theorem splitCL_append_sep {sep : Char} {p : List Char} (rest : List Char) (h : sep ∉ p) :
    splitCL sep (p ++ sep :: rest) = p :: splitCL sep rest := by
  induction p with
  | nil =>
    rw [List.nil_append, splitCL]
    simp
  | cons c p ih =>
    have hc : c ≠ sep := fun he => h (he ▸ List.mem_cons_self c p)
    have hp : sep ∉ p := fun hm => h (List.mem_cons_of_mem c hm)
    rw [List.cons_append, splitCL]
    simp only [ih hp]
    simp [hc]

theorem joinCL_single (sep : Char) (p : List Char) : joinCL sep [p] = p := rfl

theorem joinCL_cons_cons (sep : Char) (p q : List Char) (qs : List (List Char)) :
    joinCL sep (p :: q :: qs) = p ++ sep :: joinCL sep (q :: qs) := rfl

theorem joinCL_splitCL (sep : Char) (cs : List Char) :
    joinCL sep (splitCL sep cs) = cs := by
  induction cs with
  | nil => rfl
  | cons c rest ih =>
    rw [splitCL]
    by_cases hc : c = sep
    · subst hc
      simp only [beq_self_eq_true, if_true]
      match h : splitCL c rest with
      | [] => exact absurd h (splitCL_ne_nil c rest)
      | p :: ps =>
        rw [h] at ih
        rw [joinCL_cons_cons, List.nil_append]
        exact congrArg (c :: ·) ih
    · simp only [beq_iff_eq, hc, if_false]
      match h : splitCL sep rest with
      | [] => exact absurd h (splitCL_ne_nil sep rest)
      | p :: ps =>
        rw [h] at ih
        match ps with
        | [] =>
          rw [joinCL_single] at ih
          rw [joinCL_single]
          exact congrArg (c :: ·) ih
        | q :: qs =>
          rw [joinCL_cons_cons] at ih
          rw [joinCL_cons_cons, List.cons_append]
          exact congrArg (c :: ·) ih

theorem splitCL_joinCL (sep : Char) :
    ∀ ps : List (List Char), ps ≠ [] → (∀ p ∈ ps, sep ∉ p) →
      splitCL sep (joinCL sep ps) = ps := by
  intro ps
  induction ps with
  | nil => intro h; exact absurd rfl h
  | cons p ps ih =>
    intro _ hmem
    match ps with
    | [] =>
      rw [joinCL_single]
      exact splitCL_no_sep (hmem p (List.mem_cons_self p []))
    | q :: qs =>
      rw [joinCL_cons_cons, splitCL_append_sep _ (hmem p (List.mem_cons_self p _))]
      rw [ih (by simp) (fun r hr => hmem r (List.mem_cons_of_mem p hr))]

theorem mem_joinCL {sep c : Char} :
    ∀ {ps : List (List Char)}, c ∈ joinCL sep ps → c = sep ∨ ∃ p ∈ ps, c ∈ p := by
  intro ps
  induction ps with
  | nil => intro h; simp [joinCL] at h
  | cons p ps ih =>
    intro h
    match ps with
    | [] =>
      rw [joinCL_single] at h
      exact Or.inr ⟨p, List.mem_cons_self p [], h⟩
    | q :: qs =>
      rw [joinCL_cons_cons] at h
      rcases List.mem_append.mp h with hp | hrest
      · exact Or.inr ⟨p, List.mem_cons_self p _, hp⟩
      · rcases List.mem_cons.mp hrest with he | hjoin
        · exact Or.inl he
        · rcases ih hjoin with he | ⟨r, hr, hc⟩
          · exact Or.inl he
          · exact Or.inr ⟨r, List.mem_cons_of_mem p hr, hc⟩

theorem joinCL_ne_nil {sep : Char} :
    ∀ {ps : List (List Char)}, ps ≠ [] → (∀ p ∈ ps, p ≠ []) →
      joinCL sep ps ≠ [] := by
  intro ps hne hmem
  match ps with
  | [] => exact absurd rfl hne
  | [p] =>
    rw [joinCL_single]
    exact hmem p (List.mem_cons_self p [])
  | p :: q :: qs =>
    rw [joinCL_cons_cons]
    simp

theorem sep_mem_joinCL {sep : Char} {ps : List (List Char)} (h : 2 ≤ ps.length) :
    sep ∈ joinCL sep ps := by
  match ps with
  | [] => simp at h
  | [p] => simp at h
  | p :: q :: qs =>
    rw [joinCL_cons_cons]
    exact List.mem_append_right p (List.mem_cons_self sep _)

/-! ## URL validator: prefix lemmas -/

theorem isPrefCL_eq_append :
    ∀ {p l : List Char}, isPrefCL p l = true → ∃ t, l = p ++ t := by
  intro p
  induction p with
  | nil => intro l _; exact ⟨l, rfl⟩
  | cons a p ih =>
    intro l h
    match l with
    | [] => simp [isPrefCL] at h
    | b :: l2 =>
      rw [isPrefCL, Bool.and_eq_true, beq_iff_eq] at h
      obtain ⟨t, ht⟩ := ih h.2
      exact ⟨t, by rw [ht, h.1, List.cons_append]⟩

theorem isPrefCL_length {p l : List Char} (h : isPrefCL p l = true) :
    p.length ≤ l.length := by
  obtain ⟨t, ht⟩ := isPrefCL_eq_append h
  rw [ht, List.length_append]
  omega

theorem prefSplitSep {sep : Char} :
    ∀ {P A B : List Char} {Q : List Char},
      isPrefCL (P ++ sep :: Q) (A ++ sep :: B) = true → sep ∉ P → sep ∉ A →
      P = A ∧ isPrefCL Q B = true := by
  intro P
  induction P with
  | nil =>
    intro A B Q h _ hA
    match A with
    | [] =>
      rw [List.nil_append, List.nil_append] at h
      rw [isPrefCL, Bool.and_eq_true] at h
      exact ⟨rfl, h.2⟩
    | a :: A2 =>
      rw [List.nil_append, List.cons_append, isPrefCL, Bool.and_eq_true, beq_iff_eq] at h
      exact absurd (h.1 ▸ List.mem_cons_self a A2) hA
  | cons c P ih =>
    intro A B Q h hP hA
    match A with
    | [] =>
      rw [List.cons_append, List.nil_append, isPrefCL, Bool.and_eq_true, beq_iff_eq] at h
      exact absurd (h.1 ▸ List.mem_cons_self c P) hP
    | a :: A2 =>
      rw [List.cons_append, List.cons_append, isPrefCL, Bool.and_eq_true, beq_iff_eq] at h
      have hP2 : sep ∉ P := fun hm => hP (List.mem_cons_of_mem c hm)
      have hA2 : sep ∉ A2 := fun hm => hA (List.mem_cons_of_mem a hm)
      obtain ⟨hPA, hQ⟩ := ih h.2 hP2 hA2
      exact ⟨by rw [h.1, hPA], hQ⟩

theorem hasDCB_append {A B : List Char} :
    hasDoubleColonB (A ++ ':' :: ':' :: B) = true := by
  induction A with
  | nil => simp [hasDoubleColonB]
  | cons a A2 ih =>
    rw [List.cons_append]
    match h : A2 ++ ':' :: ':' :: B with
    | [] => simp at h
    | x :: L =>
      rw [h] at ih
      rw [hasDoubleColonB, ih]
      simp

/-! ## URL validator: dotted-quad lemmas -/

theorem decParse?_inv {p : List Char} {v : Nat} (h : decParse? p = some v) :
    p ≠ [] ∧ ∀ c ∈ p, isDigitCh c = true := by
  unfold decParse? at h
  split at h
  · rename_i hcond
    simp only [Bool.and_eq_true, decide_eq_true_eq, List.all_eq_true] at hcond
    exact hcond
  · exact absurd h (by simp)

theorem hexParse?_inv {p : List Char} {v : Nat} (h : hexParse? p = some v) :
    p ≠ [] ∧ ∀ c ∈ p, isHexCh c = true := by
  unfold hexParse? at h
  split at h
  · rename_i hcond
    simp only [Bool.and_eq_true, decide_eq_true_eq, List.all_eq_true] at hcond
    exact hcond
  · exact absurd h (by simp)

theorem parse4Groups?_quad (a b c d : Nat) :
    parse4Groups? (natToDecCL a ++ '.' :: natToDecCL b ++ '.' ::
      natToDecCL c ++ '.' :: natToDecCL d) = some (a, b, c, d) := by
  have hna : '.' ∉ natToDecCL a := fun hm => (natToDecCL_chars hm).2.2.2.1 rfl
  have hnb : '.' ∉ natToDecCL b := fun hm => (natToDecCL_chars hm).2.2.2.1 rfl
  have hnc : '.' ∉ natToDecCL c := fun hm => (natToDecCL_chars hm).2.2.2.1 rfl
  have hnd : '.' ∉ natToDecCL d := fun hm => (natToDecCL_chars hm).2.2.2.1 rfl
  have hsplit : splitCL '.' (natToDecCL a ++ '.' :: natToDecCL b ++ '.' ::
      natToDecCL c ++ '.' :: natToDecCL d) =
      [natToDecCL a, natToDecCL b, natToDecCL c, natToDecCL d] := by
    have he : natToDecCL a ++ '.' :: natToDecCL b ++ '.' :: natToDecCL c ++ '.' ::
        natToDecCL d =
        natToDecCL a ++ ('.' :: (natToDecCL b ++ ('.' ::
          (natToDecCL c ++ ('.' :: natToDecCL d))))) := by
      simp [List.cons_append, List.append_assoc]
    rw [he, splitCL_append_sep _ hna, splitCL_append_sep _ hnb, splitCL_append_sep _ hnc,
      splitCL_no_sep hnd]
  unfold parse4Groups?
  rw [hsplit]
  dsimp only
  rw [decParse?_natToDecCL, decParse?_natToDecCL, decParse?_natToDecCL, decParse?_natToDecCL]

theorem isPrivateIPv4_quad (a b c d : Nat) :
    isPrivateIPv4 (String.mk (natToDecCL a ++ '.' :: natToDecCL b ++ '.' ::
      natToDecCL c ++ '.' :: natToDecCL d)) =
      (a == 10 || a == 127 || (a == 172 && decide (16 ≤ b) && decide (b ≤ 31)) ||
        (a == 192 && b == 168) || (a == 169 && b == 254) || a == 0) := by
  unfold isPrivateIPv4
  have hd : (String.mk (natToDecCL a ++ '.' :: natToDecCL b ++ '.' ::
      natToDecCL c ++ '.' :: natToDecCL d)).data =
      natToDecCL a ++ '.' :: natToDecCL b ++ '.' :: natToDecCL c ++ '.' :: natToDecCL d := rfl
  rw [hd, parse4Groups?_quad]

theorem parse4Groups?_chars {cs : List Char} {q : Nat × Nat × Nat × Nat}
    (h : parse4Groups? cs = some q) : ∀ c ∈ cs, c = '.' ∨ isDigitCh c = true := by
  unfold parse4Groups? at h
  rcases hsp : splitCL '.' cs with _|⟨p1,_|⟨p2,_|⟨p3,_|⟨p4,_|⟨p5,r⟩⟩⟩⟩⟩ <;>
    rw [hsp] at h <;> try simp at h
  rcases hd1 : decParse? p1 with _|v1 <;> rw [hd1] at h <;> try simp at h
  rcases hd2 : decParse? p2 with _|v2 <;> rw [hd2] at h <;> try simp at h
  rcases hd3 : decParse? p3 with _|v3 <;> rw [hd3] at h <;> try simp at h
  rcases hd4 : decParse? p4 with _|v4 <;> rw [hd4] at h <;> try simp at h
  intro c hc
  have hcs : cs = joinCL '.' [p1, p2, p3, p4] := by
    rw [← hsp, joinCL_splitCL]
  rw [hcs] at hc
  rcases mem_joinCL hc with he | ⟨p, hp, hcp⟩
  · exact Or.inl he
  · right
    simp only [List.mem_cons, List.not_mem_nil, or_false] at hp
    rcases hp with h1 | h2 | h3 | h4
    · exact (decParse?_inv hd1).2 c (h1 ▸ hcp)
    · exact (decParse?_inv hd2).2 c (h2 ▸ hcp)
    · exact (decParse?_inv hd3).2 c (h3 ▸ hcp)
    · exact (decParse?_inv hd4).2 c (h4 ▸ hcp)

theorem parse4Groups?_none_of_bad {cs : List Char} {c : Char} (hc : c ∈ cs)
    (hd : isDigitCh c = false) (hdot : c ≠ '.') : parse4Groups? cs = none := by
  cases hp : parse4Groups? cs with
  | none => rfl
  | some q =>
    rcases parse4Groups?_chars hp c hc with he | hdig
    · exact absurd he hdot
    · rw [hdig] at hd
      exact Bool.noConfusion hd

theorem isPrivateIPv4_false_of_none {s : String} (h : parse4Groups? s.data = none) :
    isPrivateIPv4 s = false := by
  unfold isPrivateIPv4
  rw [h]

/-! ## URL validator: IPv6 textual test lemmas -/

theorem testULA_colon (rest : List Char) : testULA (':' :: rest) = false := by
  rcases rest with _|⟨a,_|⟨b,_|⟨c,_|⟨d,t⟩⟩⟩⟩ <;> rfl

theorem testLL_colon (rest : List Char) : testLinkLocal (':' :: rest) = false := by
  rcases rest with _|⟨a,_|⟨b,_|⟨c,_|⟨d,t⟩⟩⟩⟩ <;> rfl

theorem testULA_mem {cs : List Char} (h : testULA cs = true) : ':' ∈ cs := by
  rcases cs with _|⟨c0,_|⟨c1,_|⟨c2,_|⟨c3,_|⟨c4,t⟩⟩⟩⟩⟩ <;> try exact Bool.noConfusion h
  rw [testULA] at h
  simp only [Bool.and_eq_true, beq_iff_eq] at h
  obtain ⟨⟨⟨⟨h0, h1⟩, h2⟩, h3⟩, h4⟩ := h
  simp [h4]

theorem testLL_mem {cs : List Char} (h : testLinkLocal cs = true) : ':' ∈ cs := by
  rcases cs with _|⟨c0,_|⟨c1,_|⟨c2,_|⟨c3,_|⟨c4,t⟩⟩⟩⟩⟩ <;> try exact Bool.noConfusion h
  rw [testLinkLocal] at h
  simp only [Bool.and_eq_true, beq_iff_eq] at h
  obtain ⟨⟨⟨⟨h0, h1⟩, h2⟩, h3⟩, h4⟩ := h
  simp [h4]

theorem priv6_false_no_colon {s : String} (h : ':' ∉ lowCL (stripBrackets s.data)) :
    isPrivateIPv6 s = false := by
  unfold isPrivateIPv6
  have h1 : lowCL (stripBrackets s.data) ≠ "::1".data :=
    fun he => h (by rw [he]; decide)
  have h2 : lowCL (stripBrackets s.data) ≠ "0:0:0:0:0:0:0:1".data :=
    fun he => h (by rw [he]; decide)
  have h3 : lowCL (stripBrackets s.data) ≠ "::".data :=
    fun he => h (by rw [he]; decide)
  have h4 : lowCL (stripBrackets s.data) ≠ "0:0:0:0:0:0:0:0".data :=
    fun he => h (by rw [he]; decide)
  have h5 : testULA (lowCL (stripBrackets s.data)) = false := by
    cases ht : testULA (lowCL (stripBrackets s.data))
    · rfl
    · exact absurd (testULA_mem ht) h
  have h6 : testLinkLocal (lowCL (stripBrackets s.data)) = false := by
    cases ht : testLinkLocal (lowCL (stripBrackets s.data))
    · rfl
    · exact absurd (testLL_mem ht) h
  have h7 : isPrefCL "::ffff:".data (lowCL (stripBrackets s.data)) = false := by
    cases hp : isPrefCL "::ffff:".data (lowCL (stripBrackets s.data))
    · rfl
    · exact absurd (isPrefCL_mem hp ':' (by decide)) h
  simp only [decide_eq_false h1, decide_eq_false h2, decide_eq_false h3, decide_eq_false h4,
    h5, h6, h7, Bool.or_self, Bool.false_eq_true, if_false]

/-! ## URL validator: list length decompositions -/

theorem len8_decomp {α : Type} (g : List α) (h : g.length = 8) :
    ∃ a0 a1 a2 a3 a4 a5 a6 a7, g = [a0, a1, a2, a3, a4, a5, a6, a7] := by
  rcases g with _|⟨a0,_|⟨a1,_|⟨a2,_|⟨a3,_|⟨a4,_|⟨a5,_|⟨a6,_|⟨a7,_|⟨a8,t⟩⟩⟩⟩⟩⟩⟩⟩⟩ <;>
    simp only [List.length_cons, List.length_nil] at h <;> try omega
  exact ⟨a0, a1, a2, a3, a4, a5, a6, a7, rfl⟩

theorem upto4_decomp {α : Type} (l : List α) (hne : l ≠ []) (hlen : l.length ≤ 4) :
    (∃ a, l = [a]) ∨ (∃ a b, l = [a, b]) ∨ (∃ a b c, l = [a, b, c]) ∨
    (∃ a b c d, l = [a, b, c, d]) := by
  rcases l with _|⟨a,_|⟨b,_|⟨c,_|⟨d,_|⟨e,t⟩⟩⟩⟩⟩
  · exact absurd rfl hne
  · exact Or.inl ⟨a, rfl⟩
  · exact Or.inr (Or.inl ⟨a, b, rfl⟩)
  · exact Or.inr (Or.inr (Or.inl ⟨a, b, c, rfl⟩))
  · exact Or.inr (Or.inr (Or.inr ⟨a, b, c, d, rfl⟩))
  · exfalso
    simp only [List.length_cons] at hlen
    omega

/-! ## URL validator: zero-run compression lemmas -/

theorem bestRun8_facts : ∀ b0 b1 b2 b3 b4 b5 b6 b7 : Bool,
    ((bestRun [b0, b1, b2, b3, b4, b5, b6, b7]).elim true
      (fun q => decide (2 ≤ q.2) && decide (q.1 + q.2 ≤ 8) &&
        (([b0, b1, b2, b3, b4, b5, b6, b7].drop q.1).take q.2).all id)) = true := by
  decide

theorem bestRun8_use {g0 g1 g2 g3 g4 g5 g6 g7 s l : Nat}
    (h : bestRun [g0 == 0, g1 == 0, g2 == 0, g3 == 0, g4 == 0, g5 == 0, g6 == 0, g7 == 0]
        = some (s, l)) :
    2 ≤ l ∧ s + l ≤ 8 ∧
      (([g0 == 0, g1 == 0, g2 == 0, g3 == 0, g4 == 0, g5 == 0, g6 == 0, g7 == 0].drop s).take
        l).all id = true := by
  have hf := bestRun8_facts (g0 == 0) (g1 == 0) (g2 == 0) (g3 == 0) (g4 == 0) (g5 == 0)
    (g6 == 0) (g7 == 0)
  rw [h] at hf
  simp only [Option.elim, Bool.and_eq_true, decide_eq_true_eq] at hf
  exact ⟨hf.1.1, hf.1.2, hf.2⟩

theorem bestRun8_mapped : ∀ b6 b7 : Bool,
    bestRun [true, true, true, true, true, false, b6, b7] = some (0, 5) := by
  decide

theorem bestRun8_all_zero :
    bestRun [true, true, true, true, true, true, true, true] = some (0, 8) := by
  decide

theorem bestRun8_seven : ∀ b7 : Bool,
    bestRun [true, true, true, true, true, true, true, b7] ≠ none := by
  decide

theorem canonV6_head (g0 g1 g2 g3 g4 g5 g6 g7 : Nat) :
    (∃ l, bestRun [g0 == 0, g1 == 0, g2 == 0, g3 == 0, g4 == 0, g5 == 0, g6 == 0, g7 == 0]
        = some (0, l) ∧
      canonV6 [g0, g1, g2, g3, g4, g5, g6, g7] =
        ':' :: ':' :: joinCL ':' (([g0, g1, g2, g3, g4, g5, g6, g7].map natToHexCL).drop l)) ∨
    (∃ rest, canonV6 [g0, g1, g2, g3, g4, g5, g6, g7] = natToHexCL g0 ++ ':' :: rest) := by
  unfold canonV6
  have hm : [g0, g1, g2, g3, g4, g5, g6, g7].map (fun x => x == 0) =
      [g0 == 0, g1 == 0, g2 == 0, g3 == 0, g4 == 0, g5 == 0, g6 == 0, g7 == 0] := rfl
  rw [hm]
  cases hbr : bestRun [g0 == 0, g1 == 0, g2 == 0, g3 == 0, g4 == 0, g5 == 0, g6 == 0, g7 == 0] with
  | none =>
    right
    refine ⟨joinCL ':' (List.map natToHexCL [g1, g2, g3, g4, g5, g6, g7]), ?_⟩
    simp only [List.map]
    rw [joinCL_cons_cons]
  | some sl =>
    obtain ⟨s, l⟩ := sl
    match s with
    | 0 =>
      left
      refine ⟨l, rfl, ?_⟩
      simp only [List.take_zero, Nat.zero_add]
      rw [show joinCL ':' [] = [] from rfl, List.nil_append]
    | s + 1 =>
      right
      simp only [List.map, List.take_succ_cons]
      cases hX : List.take s [natToHexCL g1, natToHexCL g2, natToHexCL g3, natToHexCL g4,
          natToHexCL g5, natToHexCL g6, natToHexCL g7] with
      | nil =>
        exact ⟨_, by rw [joinCL_single]⟩
      | cons x xs =>
        exact ⟨_, by rw [joinCL_cons_cons, List.append_assoc, List.cons_append]⟩

/-! ## URL validator: parser invariants -/

theorem mapOpt_length {α β : Type} (f : α → Option β) :
    ∀ {l : List α} {bs : List β}, mapOpt f l = some bs → bs.length = l.length := by
  intro l
  induction l with
  | nil =>
    intro bs h
    rw [mapOpt] at h
    cases h
    rfl
  | cons a l ih =>
    intro bs h
    rw [mapOpt] at h
    rcases hfa : f a with _ | b <;> rw [hfa] at h
    · exact absurd h (by simp)
    · rcases hml : mapOpt f l with _ | bs2 <;> rw [hml] at h
      · exact absurd h (by simp)
      · cases h
        simp [ih hml]

theorem hexVal_lt {c : Char} (h : isHexCh c = true) : hexVal c < 16 := by
  unfold isHexCh isDigitCh at h
  simp only [Bool.or_eq_true, Bool.and_eq_true, decide_eq_true_eq] at h
  unfold hexVal isDigitCh
  rcases h with (h | h) | h
  · have hd : (48 ≤ c.toNat && c.toNat ≤ 57) = true := by
      simp only [Bool.and_eq_true, decide_eq_true_eq]
      omega
    rw [if_pos hd]
    omega
  · have hd : ¬ ((48 ≤ c.toNat && c.toNat ≤ 57) = true) := by
      simp only [Bool.and_eq_true, decide_eq_true_eq]
      omega
    have hl : (97 ≤ c.toNat && c.toNat ≤ 102) = true := by
      simp only [Bool.and_eq_true, decide_eq_true_eq]
      omega
    rw [if_neg hd, if_pos hl]
    omega
  · have hd : ¬ ((48 ≤ c.toNat && c.toNat ≤ 57) = true) := by
      simp only [Bool.and_eq_true, decide_eq_true_eq]
      omega
    have hl : ¬ ((97 ≤ c.toNat && c.toNat ≤ 102) = true) := by
      simp only [Bool.and_eq_true, decide_eq_true_eq]
      omega
    rw [if_neg hd, if_neg hl]
    omega

theorem foldl_hex_lt :
    ∀ p : List Char, (∀ c ∈ p, isHexCh c = true) → ∀ acc : Nat,
      List.foldl (fun a c => a * 16 + hexVal c) acc p < (acc + 1) * 16 ^ p.length := by
  intro p
  induction p with
  | nil =>
    intro _ acc
    simp
  | cons c p ih =>
    intro hall acc
    rw [List.foldl_cons, List.length_cons]
    have hv : hexVal c < 16 := hexVal_lt (hall c (List.mem_cons_self c p))
    have h1 := ih (fun x hx => hall x (List.mem_cons_of_mem c hx)) (acc * 16 + hexVal c)
    have h2 : (acc * 16 + hexVal c + 1) * 16 ^ p.length ≤ (acc + 1) * 16 ^ (p.length + 1) := by
      have h3 : acc * 16 + hexVal c + 1 ≤ (acc + 1) * 16 := by
        have h4 : (acc + 1) * 16 = acc * 16 + 16 := by ring
        omega
      calc (acc * 16 + hexVal c + 1) * 16 ^ p.length
          ≤ ((acc + 1) * 16) * 16 ^ p.length := Nat.mul_le_mul_right _ h3
        _ = (acc + 1) * 16 ^ (p.length + 1) := by ring
    omega

theorem hexParse?_lt {p : List Char} {v : Nat} (h : hexParse? p = some v) :
    v < 16 ^ p.length := by
  unfold hexParse? at h
  split at h
  · rename_i hcond
    simp only [Bool.and_eq_true, decide_eq_true_eq, List.all_eq_true] at hcond
    cases h
    have := foldl_hex_lt p hcond.2 0
    simpa using this
  · exact absurd h (by simp)

theorem v6Piece?_lt {p : List Char} {v : Nat} (h : v6Piece? p = some v) : v < 65536 := by
  unfold v6Piece? at h
  split at h
  · rename_i hcond
    simp only [Bool.and_eq_true, decide_eq_true_eq] at hcond
    have h1 := hexParse?_lt h
    have h2 : (16:ℕ) ^ p.length ≤ 16 ^ 4 := Nat.pow_le_pow_right (by omega) hcond.1.2
    have h3 : (16:ℕ) ^ 4 = 65536 := by norm_num
    omega
  · exact absurd h (by simp)

theorem strictDotted?_lt {s : List Char} {hi lo : Nat}
    (h : strictDotted? s = some (hi, lo)) : hi < 65536 ∧ lo < 65536 := by
  unfold strictDotted? at h
  rcases hsp : splitCL '.' s with _|⟨p1,_|⟨p2,_|⟨p3,_|⟨p4,_|⟨p5,r⟩⟩⟩⟩⟩ <;>
    rw [hsp] at h <;> try exact Option.noConfusion h
  dsimp only at h
  split at h
  · rcases hd1 : decParse? p1 with _|v1 <;> rw [hd1] at h <;> try exact Option.noConfusion h
    rcases hd2 : decParse? p2 with _|v2 <;> rw [hd2] at h <;> try exact Option.noConfusion h
    rcases hd3 : decParse? p3 with _|v3 <;> rw [hd3] at h <;> try exact Option.noConfusion h
    rcases hd4 : decParse? p4 with _|v4 <;> rw [hd4] at h <;> try exact Option.noConfusion h
    dsimp only at h
    by_cases hle : (decide (v1 ≤ 255) && decide (v2 ≤ 255) && decide (v3 ≤ 255) &&
        decide (v4 ≤ 255)) = true
    · rw [if_pos hle] at h
      simp only [Bool.and_eq_true, decide_eq_true_eq] at hle
      cases h
      omega
    · rw [if_neg hle] at h
      exact Option.noConfusion h
  · exact Option.noConfusion h

theorem v6Pieces?_bound :
    ∀ {ps : List (List Char)} {vs : List Nat}, v6Pieces? ps = some vs →
      ∀ v ∈ vs, v < 65536 := by
  intro ps
  induction ps with
  | nil =>
    intro vs h
    rw [v6Pieces?.eq_def] at h
    cases h
    intro v hv
    simp at hv
  | cons p rest ih =>
    intro vs h
    rw [v6Pieces?.eq_def] at h
    dsimp only at h
    cases rest with
    | nil =>
      dsimp only at h
      rcases hsd : strictDotted? p with _ | ⟨hi, lo⟩ <;> rw [hsd] at h
      · rw [Option.map_eq_some'] at h
        obtain ⟨v, hv, rfl⟩ := h
        intro x hx
        simp only [List.mem_singleton] at hx
        exact hx ▸ v6Piece?_lt hv
      · cases h
        intro x hx
        have hb := strictDotted?_lt hsd
        simp only [List.mem_cons, List.mem_singleton, List.not_mem_nil, or_false] at hx
        rcases hx with rfl | rfl
        · exact hb.1
        · exact hb.2
    | cons q qs =>
      dsimp only at h
      rcases hp : v6Piece? p with _ | v <;> rw [hp] at h <;> try exact Option.noConfusion h
      rcases hr : v6Pieces? (q :: qs) with _ | vs2 <;> rw [hr] at h <;>
        try exact Option.noConfusion h
      cases h
      intro x hx
      rcases List.mem_cons.mp hx with rfl | hx2
      · exact v6Piece?_lt hp
      · exact ih hr x hx2

theorem parseIPv6?_valid {s : List Char} {g : List Nat} (h : parseIPv6? s = some g) :
    g.length = 8 ∧ ∀ x ∈ g, x < 65536 := by
  unfold parseIPv6? at h
  rcases hdc : splitDoubleColon s with _ | ⟨left, right⟩ <;> rw [hdc] at h <;> dsimp only at h
  · rcases hv : v6Pieces? (splitCL ':' s) with _ | vs <;> rw [hv] at h <;>
      try exact Option.noConfusion h
    dsimp only at h
    by_cases hlen : vs.length = 8
    · rw [if_pos hlen] at h
      cases h
      exact ⟨hlen, v6Pieces?_bound hv⟩
    · rw [if_neg hlen] at h
      exact Option.noConfusion h
  · rcases hl : (if left = [] then some [] else v6Pieces? (splitCL ':' left)) with _ | ls <;>
      rw [hl] at h <;> try exact Option.noConfusion h
    rcases hr : (if right = [] then some [] else v6Pieces? (splitCL ':' right)) with _ | rs <;>
      rw [hr] at h <;> try exact Option.noConfusion h
    dsimp only at h
    by_cases hle : ls.length + rs.length ≤ 7
    · rw [if_pos hle] at h
      cases h
      have hls : ∀ v ∈ ls, v < 65536 := by
        by_cases hc : left = []
        · rw [if_pos hc] at hl
          cases hl
          intro v hv
          simp at hv
        · rw [if_neg hc] at hl
          exact v6Pieces?_bound hl
      have hrs : ∀ v ∈ rs, v < 65536 := by
        by_cases hc : right = []
        · rw [if_pos hc] at hr
          cases hr
          intro v hv
          simp at hv
        · rw [if_neg hc] at hr
          exact v6Pieces?_bound hr
      constructor
      · simp only [List.length_append, List.length_replicate]
        omega
      · intro x hx
        rcases List.mem_append.mp hx with hx1 | hx2
        · rcases List.mem_append.mp hx1 with hx3 | hx4
          · exact hls x hx3
          · rw [List.eq_of_mem_replicate hx4]
            omega
        · exact hrs x hx2
    · rw [if_neg hle] at h
      exact Option.noConfusion h

theorem foldl_oct_lt :
    ∀ l : List Nat, (∀ v ∈ l, v < 256) → ∀ acc : Nat,
      List.foldl (fun a v => a * 256 + v) acc l < (acc + 1) * 256 ^ l.length := by
  intro l
  induction l with
  | nil =>
    intro _ acc
    simp
  | cons v l ih =>
    intro hall acc
    rw [List.foldl_cons, List.length_cons]
    have hv : v < 256 := hall v (List.mem_cons_self v l)
    have h1 := ih (fun x hx => hall x (List.mem_cons_of_mem v hx)) (acc * 256 + v)
    have h2 : (acc * 256 + v + 1) * 256 ^ l.length ≤ (acc + 1) * 256 ^ (l.length + 1) := by
      have h3 : acc * 256 + v + 1 ≤ (acc + 1) * 256 := by
        have h4 : (acc + 1) * 256 = acc * 256 + 256 := by ring
        omega
      calc (acc * 256 + v + 1) * 256 ^ l.length
          ≤ ((acc + 1) * 256) * 256 ^ l.length := Nat.mul_le_mul_right _ h3
        _ = (acc + 1) * 256 ^ (l.length + 1) := by ring
    omega

theorem ipv4Parse?_lt {s : List Char} {n : Nat} (h : ipv4Parse? s = some n) :
    n < 4294967296 := by
  unfold ipv4Parse? at h
  dsimp only at h
  set parts := (if (splitCL '.' s).getLast? = some [] then (splitCL '.' s).dropLast
    else splitCL '.' s) with hparts
  by_cases hlen : (decide (parts.length = 0) || decide (4 < parts.length)) = true
  · rw [if_pos hlen] at h
    exact Option.noConfusion h
  · rw [if_neg hlen] at h
    simp only [Bool.or_eq_true, decide_eq_true_eq, not_or, not_lt] at hlen
    rcases hmo : mapOpt ipv4NumberParse? parts with _ | vals <;> rw [hmo] at h <;>
      try exact Option.noConfusion h
    dsimp only at h
    rcases hgl : vals.getLast? with _ | lastV <;> rw [hgl] at h <;>
      try exact Option.noConfusion h
    dsimp only at h
    split at h
    · exact Option.noConfusion h
    · split at h
      · exact Option.noConfusion h
      · rename_i hany hlast
        cases h
        have hlenv := mapOpt_length _ hmo
        have hne : vals ≠ [] := by
          intro he
          rw [he] at hgl
          simp at hgl
        have hvlen : 1 ≤ vals.length := by
          cases vals with
          | nil => exact absurd rfl hne
          | cons a t => simp
        have hvlen4 : vals.length ≤ 4 := by omega
        have hflen : vals.dropLast.length = vals.length - 1 := List.length_dropLast vals
        have hfall : ∀ v ∈ vals.dropLast, v < 256 := by
          intro v hv
          by_contra hge
          push_neg at hge
          have : vals.dropLast.any (fun v => 256 ≤ v) = true := by
            rw [List.any_eq_true]
            exact ⟨v, hv, by simpa using hge⟩
          simp [this] at hany
        push_neg at hlast
        unfold ipv4Combine
        have hF := foldl_oct_lt vals.dropLast hfall 0
        rw [Nat.one_mul] at hF
        have hexp : 5 - vals.length = 4 - vals.dropLast.length := by omega
        rw [hexp] at hlast
        have hPX : 256 ^ vals.dropLast.length * 256 ^ (4 - vals.dropLast.length)
            = 4294967296 := by
          rw [← pow_add]
          have : vals.dropLast.length + (4 - vals.dropLast.length) = 4 := by omega
          rw [this]
          norm_num
        calc List.foldl (fun acc v => acc * 256 + v) 0 vals.dropLast *
              256 ^ (4 - vals.dropLast.length) + lastV
            < List.foldl (fun acc v => acc * 256 + v) 0 vals.dropLast *
              256 ^ (4 - vals.dropLast.length) + 256 ^ (4 - vals.dropLast.length) := by
              omega
          _ = (List.foldl (fun acc v => acc * 256 + v) 0 vals.dropLast + 1) *
              256 ^ (4 - vals.dropLast.length) := by ring
          _ ≤ 256 ^ vals.dropLast.length * 256 ^ (4 - vals.dropLast.length) :=
              Nat.mul_le_mul_right _ (by omega)
          _ = 4294967296 := hPX

theorem hostParse?_ipv4_lt {cs : List Char} {n : Nat}
    (h : hostParse? cs = some (.ipv4 n)) : n < 4294967296 := by
  unfold hostParse? at h
  rcases cs with _ | ⟨c, rest⟩
  · simp at h
  · dsimp only at h
    by_cases hc : c = '['
    · rw [if_pos hc] at h
      rcases hgl : rest.getLast? with _ | c2 <;> rw [hgl] at h
      · simp at h
      · dsimp only at h
        by_cases hc2 : c2 = ']'
        · rw [if_pos hc2, Option.map_eq_some'] at h
          obtain ⟨g, _, habs⟩ := h
          exact HostM.noConfusion habs
        · rw [if_neg hc2] at h
          simp at h
    · rw [if_neg hc] at h
      split at h
      · simp at h
      · try dsimp only at h
        split at h
        · rw [Option.map_eq_some'] at h
          obtain ⟨m, hm, he⟩ := h
          cases he
          exact ipv4Parse?_lt hm
        · cases h

theorem hostParse?_ipv6_valid {cs : List Char} {g : List Nat}
    (h : hostParse? cs = some (.ipv6 g)) : g.length = 8 ∧ ∀ x ∈ g, x < 65536 := by
  unfold hostParse? at h
  rcases cs with _ | ⟨c, rest⟩
  · simp at h
  · dsimp only at h
    by_cases hc : c = '['
    · rw [if_pos hc] at h
      rcases hgl : rest.getLast? with _ | c2 <;> rw [hgl] at h
      · simp at h
      · dsimp only at h
        by_cases hc2 : c2 = ']'
        · rw [if_pos hc2, Option.map_eq_some'] at h
          obtain ⟨g2, hg2, he⟩ := h
          cases he
          exact parseIPv6?_valid hg2
        · rw [if_neg hc2] at h
          simp at h
    · rw [if_neg hc] at h
      split at h
      · simp at h
      · try dsimp only at h
        split at h
        · rw [Option.map_eq_some'] at h
          obtain ⟨m, _, habs⟩ := h
          exact HostM.noConfusion habs
        · cases h

theorem hostParse?_domain_inv {cs s : List Char}
    (h : hostParse? cs = some (.domain s)) :
    s = lowCL cs ∧ cs ≠ [] ∧ (∀ c ∈ cs, isForbiddenHostCh c = false) ∧
    endsInNumber s = false := by
  unfold hostParse? at h
  rcases cs with _ | ⟨c, rest⟩
  · simp at h
  · dsimp only at h
    by_cases hc : c = '['
    · rw [if_pos hc] at h
      rcases hgl : rest.getLast? with _ | c2 <;> rw [hgl] at h
      · simp at h
      · dsimp only at h
        by_cases hc2 : c2 = ']'
        · rw [if_pos hc2, Option.map_eq_some'] at h
          obtain ⟨g, _, habs⟩ := h
          exact HostM.noConfusion habs
        · rw [if_neg hc2] at h
          simp at h
    · rw [if_neg hc] at h
      split at h
      · simp at h
      · rename_i hforb
        try dsimp only at h
        split at h
        · rw [Option.map_eq_some'] at h
          obtain ⟨m, _, habs⟩ := h
          exact HostM.noConfusion habs
        · rename_i hend
          cases h
          refine ⟨rfl, by simp, ?_, Bool.eq_false_iff.mpr hend⟩
          intro x hx
          rw [Bool.eq_false_iff]
          intro hxf
          exact hforb (List.any_eq_true.mpr ⟨x, hx, hxf⟩)

theorem jsURL?_https_host {url : String} {pu : JsUrlM} (h : jsURL? url = some pu)
    (hp : pu.protocol = "https:") : ∃ cs, hostParse? cs = some pu.host := by
  unfold jsURL? at h
  dsimp only at h
  rcases hsc : url.data.takeWhile isSchemeCh with _ | ⟨c0, sc⟩ <;> rw [hsc] at h
  · exact Option.noConfusion h
  · dsimp only at h
    by_cases hal : ¬ isAlphaCh c0 = true
    · rw [if_pos hal] at h
      exact Option.noConfusion h
    · rw [if_neg hal] at h
      rcases hdr : url.data.drop (url.data.takeWhile isSchemeCh).length with _ | ⟨c1, rest⟩ <;>
        rw [hsc] at hdr <;> rw [hdr] at h
      · exact Option.noConfusion h
      · dsimp only at h
        by_cases hc1 : c1 = ':'
        · rw [if_pos hc1] at h
          by_cases hhttps : String.mk (lowCL (c0 :: sc) ++ [':']) = "https:"
          · rw [if_pos hhttps] at h
            rcases rest with _ | ⟨c2, rest1⟩
            · exact Option.noConfusion h
            · rcases rest1 with _ | ⟨c3, rest2⟩
              · exact Option.noConfusion h
              · dsimp only at h
                by_cases hslash : c2 = '/' ∧ c3 = '/'
                · rw [if_pos hslash] at h
                  rcases hsp : splitPort? (afterLastAt (rest2.takeWhile
                      (fun c => c ≠ '/' && c ≠ '?' && c ≠ '#'))) with _ | hostCs <;>
                    rw [hsp] at h
                  · exact Option.noConfusion h
                  · dsimp only at h
                    rw [Option.map_eq_some'] at h
                    obtain ⟨hm, hhm, he⟩ := h
                    exact ⟨hostCs, by rw [hhm, ← he]⟩
                · rw [if_neg hslash] at h
                  exact Option.noConfusion h
          · rw [if_neg hhttps] at h
            cases h
            exact absurd hp hhttps
        · rw [if_neg hc1] at h
          exact Option.noConfusion h

/-! ## URL validator: rendered-IPv4 hostname lemmas -/

theorem renderIPv4_eq_join (n : Nat) : renderIPv4 n =
    joinCL '.' [natToDecCL (n / 16777216 % 256), natToDecCL (n / 65536 % 256),
      natToDecCL (n / 256 % 256), natToDecCL (n % 256)] := by
  rw [renderIPv4, joinCL_cons_cons, joinCL_cons_cons, joinCL_cons_cons, joinCL_single]
  simp [List.append_assoc, List.cons_append]

theorem renderIPv4_chars {n : Nat} {c : Char} (hc : c ∈ renderIPv4 n) :
    lowChar c = c ∧ c ≠ ':' ∧ c ≠ '[' ∧ c ≠ ']' ∧ (isDigitCh c = true ∨ c = '.') := by
  rw [renderIPv4_eq_join] at hc
  rcases mem_joinCL hc with rfl | ⟨p, hp, hcp⟩
  · exact ⟨by decide, by decide, by decide, by decide, Or.inr rfl⟩
  · simp only [List.mem_cons, List.not_mem_nil, or_false] at hp
    rcases hp with rfl | rfl | rfl | rfl <;>
      exact ⟨(natToDecCL_chars hcp).2.1, (natToDecCL_chars hcp).2.2.1,
        (natToDecCL_chars hcp).2.2.2.2.1, (natToDecCL_chars hcp).2.2.2.2.2,
        Or.inl (natToDecCL_chars hcp).1⟩

theorem lowCL_eq_self {cs : List Char} (h : ∀ c ∈ cs, lowChar c = c) : lowCL cs = cs := by
  rw [lowCL, show List.map lowChar cs = List.map id cs from List.map_congr_left h,
    List.map_id]

theorem lowerStr_renderIPv4 (n : Nat) :
    lowerStr (String.mk (renderIPv4 n)) = String.mk (renderIPv4 n) := by
  unfold lowerStr
  apply String.ext
  show lowCL (renderIPv4 n) = renderIPv4 n
  exact lowCL_eq_self (fun c hc => (renderIPv4_chars hc).1)

theorem stripBrackets_eq_self {cs : List Char} (h1 : ∀ c ∈ cs, c ≠ '[')
    (h2 : ∀ c ∈ cs, c ≠ ']') : stripBrackets cs = cs := by
  unfold stripBrackets
  dsimp only
  have hh : ¬ cs.head? = some '[' := by
    cases cs with
    | nil => simp
    | cons c rest =>
      rw [List.head?_cons]
      intro he
      exact h1 c (List.mem_cons_self c rest) (Option.some.inj he)
  rw [if_neg hh]
  have hg : ¬ cs.getLast? = some ']' := fun he =>
    h2 ']' (List.mem_of_mem_getLast? he) rfl
  rw [if_neg hg]

theorem parse4Groups?_renderIPv4 (n : Nat) :
    parse4Groups? (renderIPv4 n) =
      some (n / 16777216 % 256, n / 65536 % 256, n / 256 % 256, n % 256) := by
  rw [renderIPv4]
  exact parse4Groups?_quad (n / 16777216 % 256) (n / 65536 % 256) (n / 256 % 256) (n % 256)

theorem isPrivateIPv4_renderIPv4 {n : Nat} (hn : n < 4294967296) :
    (isPrivateIPv4 (String.mk (renderIPv4 n)) = true) ↔ specPrivateIPv4 n := by
  have hd : isPrivateIPv4 (String.mk (renderIPv4 n)) =
      ((n / 16777216 % 256 == 10) || (n / 16777216 % 256 == 127) ||
        ((n / 16777216 % 256 == 172) && decide (16 ≤ n / 65536 % 256) &&
          decide (n / 65536 % 256 ≤ 31)) ||
        ((n / 16777216 % 256 == 192) && (n / 65536 % 256 == 168)) ||
        ((n / 16777216 % 256 == 169) && (n / 65536 % 256 == 254)) ||
        (n / 16777216 % 256 == 0)) := by
    rw [renderIPv4]
    exact isPrivateIPv4_quad (n / 16777216 % 256) (n / 65536 % 256) (n / 256 % 256) (n % 256)
  rw [hd]
  unfold specPrivateIPv4
  simp only [Bool.or_eq_true, Bool.and_eq_true, beq_iff_eq, decide_eq_true_eq]
  omega

theorem isPrivateIPv6_renderIPv4 (n : Nat) :
    isPrivateIPv6 (String.mk (renderIPv4 n)) = false := by
  apply priv6_false_no_colon
  show ':' ∉ lowCL (stripBrackets (renderIPv4 n))
  rw [stripBrackets_eq_self (fun c hc => (renderIPv4_chars hc).2.2.1)
    (fun c hc => (renderIPv4_chars hc).2.2.2.1)]
  rw [lowCL_eq_self (fun c hc => (renderIPv4_chars hc).1)]
  intro hc
  exact (renderIPv4_chars hc).2.1 rfl

theorem renderIPv4_not_blocked {n : Nat} (hn : n < 4294967296)
    (hns : ¬ specPrivateIPv4 n) : String.mk (renderIPv4 n) ∉ BLOCKED_HOSTNAMES := by
  intro hmem
  have hp := parse4Groups?_renderIPv4 n
  simp only [BLOCKED_HOSTNAMES, List.mem_cons, List.not_mem_nil, or_false] at hmem
  have hdata : ∀ t : String, String.mk (renderIPv4 n) = t → renderIPv4 n = t.data := by
    intro t ht
    rw [← ht]
  rcases hmem with he | he | he | he | he | he | he | he | he
  · rw [hdata _ he] at hp
    exact Option.noConfusion ((show parse4Groups? "localhost".data = none by decide) ▸ hp)
  · rw [hdata _ he] at hp
    have hq : parse4Groups? "127.0.0.1".data = some (127, 0, 0, 1) := by decide
    rw [hq] at hp
    have hinj := Option.some.inj hp
    simp only [Prod.mk.injEq] at hinj
    apply hns
    unfold specPrivateIPv4
    omega
  · rw [hdata _ he] at hp
    have hq : parse4Groups? "0.0.0.0".data = some (0, 0, 0, 0) := by decide
    rw [hq] at hp
    have hinj := Option.some.inj hp
    simp only [Prod.mk.injEq] at hinj
    apply hns
    unfold specPrivateIPv4
    omega
  · rw [hdata _ he] at hp
    exact Option.noConfusion ((show parse4Groups? "::1".data = none by decide) ▸ hp)
  · rw [hdata _ he] at hp
    exact Option.noConfusion ((show parse4Groups? "[::]".data = none by decide) ▸ hp)
  · rw [hdata _ he] at hp
    exact Option.noConfusion ((show parse4Groups? "[::1]".data = none by decide) ▸ hp)
  · rw [hdata _ he] at hp
    exact Option.noConfusion
      ((show parse4Groups? "metadata.google.internal".data = none by decide) ▸ hp)
  · rw [hdata _ he] at hp
    exact Option.noConfusion ((show parse4Groups? "metadata.goog".data = none by decide) ▸ hp)
  · rw [hdata _ he] at hp
    have hq : parse4Groups? "169.254.169.254".data = some (169, 254, 169, 254) := by decide
    rw [hq] at hp
    have hinj := Option.some.inj hp
    simp only [Prod.mk.injEq] at hinj
    apply hns
    unfold specPrivateIPv4
    omega

/-! ## URL validator: evaluation of the validation chain -/

theorem validateUrl_eval {url : String} {pu : JsUrlM} (hjs : jsURL? url = some pu)
    (hproto : pu.protocol = "https:") :
    validateUrl url =
      (if BLOCKED_HOSTNAMES.contains (lowerStr (String.mk (hostStringCL pu.host))) then
        ⟨false, some ("Blocked hostname: " ++ lowerStr (String.mk (hostStringCL pu.host)))⟩
      else if isPrivateIPv4 (lowerStr (String.mk (hostStringCL pu.host))) then
        ⟨false, some ("Blocked private IP: " ++ lowerStr (String.mk (hostStringCL pu.host)))⟩
      else if isPrivateIPv6 (lowerStr (String.mk (hostStringCL pu.host))) then
        ⟨false, some ("Blocked private IPv6: " ++ lowerStr (String.mk (hostStringCL pu.host)))⟩
      else ⟨true, none⟩) := by
  unfold validateUrl
  rw [hjs]
  dsimp only
  rw [if_neg (fun hne => hne hproto)]

theorem chain_valid_false {hostname : String}
    (hOr : BLOCKED_HOSTNAMES.contains hostname = true ∨ isPrivateIPv4 hostname = true ∨
      isPrivateIPv6 hostname = true) :
    (if BLOCKED_HOSTNAMES.contains hostname then
        (⟨false, some ("Blocked hostname: " ++ hostname)⟩ : UrlValidationResult)
      else if isPrivateIPv4 hostname then
        ⟨false, some ("Blocked private IP: " ++ hostname)⟩
      else if isPrivateIPv6 hostname then
        ⟨false, some ("Blocked private IPv6: " ++ hostname)⟩
      else ⟨true, none⟩).valid = false := by
  by_cases h1 : BLOCKED_HOSTNAMES.contains hostname = true
  · rw [if_pos h1]
  · rw [if_neg h1]
    by_cases h2 : isPrivateIPv4 hostname = true
    · rw [if_pos h2]
    · rw [if_neg h2]
      by_cases h3 : isPrivateIPv6 hostname = true
      · rw [if_pos h3]
      · rcases hOr with h | h | h <;> simp_all

theorem chain_valid_true {hostname : String}
    (h1 : BLOCKED_HOSTNAMES.contains hostname = false)
    (h2 : isPrivateIPv4 hostname = false) (h3 : isPrivateIPv6 hostname = false) :
    (if BLOCKED_HOSTNAMES.contains hostname then
        (⟨false, some ("Blocked hostname: " ++ hostname)⟩ : UrlValidationResult)
      else if isPrivateIPv4 hostname then
        ⟨false, some ("Blocked private IP: " ++ hostname)⟩
      else if isPrivateIPv6 hostname then
        ⟨false, some ("Blocked private IPv6: " ++ hostname)⟩
      else ⟨true, none⟩).valid = true := by
  rw [if_neg (ne_true_of_eq_false h1), if_neg (ne_true_of_eq_false h2),
    if_neg (ne_true_of_eq_false h3)]

theorem contains_eq_false_of_not_mem {l : List String} {a : String} (h : a ∉ l) :
    l.contains a = false := by
  rw [Bool.eq_false_iff]
  intro hc
  exact h (List.elem_iff.mp hc)

theorem endsInNumber_of_parse4Groups {s : List Char} {q : Nat × Nat × Nat × Nat}
    (h : parse4Groups? s = some q) : endsInNumber s = true := by
  unfold parse4Groups? at h
  rcases hsp : splitCL '.' s with _|⟨p1,_|⟨p2,_|⟨p3,_|⟨p4,_|⟨p5,r⟩⟩⟩⟩⟩ <;>
    rw [hsp] at h <;> try exact Option.noConfusion h
  dsimp only at h
  rcases hd4 : decParse? p4 with _ | v4
  · rw [hd4] at h
    rcases hd1 : decParse? p1 with _ | v1 <;> rw [hd1] at h <;>
      rcases hd2 : decParse? p2 with _ | v2 <;> rw [hd2] at h <;>
      rcases hd3 : decParse? p3 with _ | v3 <;> rw [hd3] at h <;>
      exact Option.noConfusion h
  · have hp4 := decParse?_inv hd4
    unfold endsInNumber
    rw [hsp]
    dsimp only
    have hgl : [p1, p2, p3, p4].getLast? = some p4 := rfl
    rw [if_neg (by rw [hgl]; simp [hp4.1]), hgl]
    simp only [Bool.or_eq_true, Bool.and_eq_true, decide_eq_true_eq, List.all_eq_true]
    exact Or.inl ⟨hp4.1, hp4.2⟩

theorem parse4Groups?_none_of_no_end {s : List Char} (h : endsInNumber s = false) :
    parse4Groups? s = none := by
  cases hp : parse4Groups? s with
  | none => rfl
  | some q =>
    rw [endsInNumber_of_parse4Groups hp] at h
    exact Bool.noConfusion h

/-! ## URL validator: IPv6 canonical-form lemmas -/

theorem append_sep_inj {sep : Char} :
    ∀ {A A2 B B2 : List Char}, sep ∉ A → sep ∉ A2 →
      A ++ sep :: B = A2 ++ sep :: B2 → A = A2 ∧ B = B2 := by
  intro A
  induction A with
  | nil =>
    intro A2 B B2 _ hA2 h
    match A2 with
    | [] =>
      rw [List.nil_append, List.nil_append] at h
      injection h with _ h2
      exact ⟨rfl, h2⟩
    | a :: A3 =>
      rw [List.nil_append, List.cons_append] at h
      injection h with h1 _
      exact absurd (by rw [h1]; exact List.mem_cons_self a A3) hA2
  | cons a A3 ih =>
    intro A2 B B2 hA hA2 h
    match A2 with
    | [] =>
      rw [List.cons_append, List.nil_append] at h
      injection h with h1 _
      exact absurd (by rw [← h1]; exact List.mem_cons_self a A3) hA
    | a2 :: A4 =>
      rw [List.cons_append, List.cons_append] at h
      injection h with h1 h2
      have hA3 : sep ∉ A3 := fun hm => hA (List.mem_cons_of_mem a hm)
      have hA4 : sep ∉ A4 := fun hm => hA2 (List.mem_cons_of_mem a2 hm)
      obtain ⟨he, hB⟩ := ih hA3 hA4 h2
      exact ⟨by rw [h1, he], hB⟩

theorem canonV6_chars {g : List Nat} {c : Char} (hc : c ∈ canonV6 g) :
    lowChar c = c ∧ c ≠ '[' ∧ c ≠ ']' := by
  unfold canonV6 at hc
  rcases hbr : bestRun (g.map (fun x => x == 0)) with _ | ⟨s, l⟩ <;>
    rw [hbr] at hc <;> dsimp only at hc
  · rcases mem_joinCL hc with rfl | ⟨p, hp, hcp⟩
    · exact ⟨by decide, by decide, by decide⟩
    · rw [List.mem_map] at hp
      obtain ⟨x, _, rfl⟩ := hp
      exact ⟨(natToHexCL_chars hcp).2.1, (natToHexCL_chars hcp).2.2.2.2.1,
        (natToHexCL_chars hcp).2.2.2.2.2⟩
  · rcases List.mem_append.mp hc with h1 | h2
    · rcases mem_joinCL h1 with rfl | ⟨p, hp, hcp⟩
      · exact ⟨by decide, by decide, by decide⟩
      · have hp2 := List.take_subset s _ hp
        rw [List.mem_map] at hp2
        obtain ⟨x, _, rfl⟩ := hp2
        exact ⟨(natToHexCL_chars hcp).2.1, (natToHexCL_chars hcp).2.2.2.2.1,
          (natToHexCL_chars hcp).2.2.2.2.2⟩
    · rcases List.mem_cons.mp h2 with rfl | h3
      · exact ⟨by decide, by decide, by decide⟩
      · rcases List.mem_cons.mp h3 with rfl | h4
        · exact ⟨by decide, by decide, by decide⟩
        · rcases mem_joinCL h4 with rfl | ⟨p, hp, hcp⟩
          · exact ⟨by decide, by decide, by decide⟩
          · have hp2 := List.drop_subset (s + l) _ hp
            rw [List.mem_map] at hp2
            obtain ⟨x, _, rfl⟩ := hp2
            exact ⟨(natToHexCL_chars hcp).2.1, (natToHexCL_chars hcp).2.2.2.2.1,
              (natToHexCL_chars hcp).2.2.2.2.2⟩

theorem hostname_ipv6_eq (g : List Nat) :
    lowerStr (String.mk ('[' :: canonV6 g ++ [']'])) =
      String.mk ('[' :: canonV6 g ++ [']']) := by
  unfold lowerStr
  apply String.ext
  show lowCL ('[' :: canonV6 g ++ [']']) = '[' :: canonV6 g ++ [']']
  apply lowCL_eq_self
  intro c hc
  rcases List.mem_cons.mp hc with rfl | hc2
  · decide
  · rcases List.mem_append.mp hc2 with h3 | h4
    · exact (canonV6_chars h3).1
    · simp only [List.mem_singleton] at h4
      rw [h4]
      decide

theorem clean_ipv6 (g : List Nat) :
    lowCL (stripBrackets (String.mk ('[' :: canonV6 g ++ [']'])).data) = canonV6 g := by
  show lowCL (stripBrackets ('[' :: canonV6 g ++ [']'])) = canonV6 g
  have hsb : stripBrackets ('[' :: canonV6 g ++ [']']) = canonV6 g := by
    unfold stripBrackets
    dsimp only
    rw [if_pos (show ('[' :: canonV6 g ++ [']']).head? = some '[' from rfl)]
    rw [show ('[' :: canonV6 g ++ [']']).tail = canonV6 g ++ [']'] from rfl]
    rw [List.getLast?_concat]
    rw [if_pos rfl, List.dropLast_concat]
  rw [hsb]
  exact lowCL_eq_self (fun c hc => (canonV6_chars hc).1)

theorem isPrivateIPv4_bracket (g : List Nat) :
    isPrivateIPv4 (String.mk ('[' :: canonV6 g ++ [']'])) = false := by
  apply isPrivateIPv4_false_of_none
  show parse4Groups? ('[' :: canonV6 g ++ [']']) = none
  exact parse4Groups?_none_of_bad (List.mem_cons_self '[' _) (by decide) (by decide)

theorem drop_map8_ne_nil {g0 g1 g2 g3 g4 g5 g6 g7 : Nat} {l : Nat} :
    ∀ p ∈ (List.map natToHexCL [g0, g1, g2, g3, g4, g5, g6, g7]).drop l, p ≠ [] := by
  intro p hp
  have hp2 := List.drop_subset l _ hp
  rw [List.mem_map] at hp2
  obtain ⟨x, _, rfl⟩ := hp2
  exact natToHexCL_ne_nil x

theorem canon_eq_dc_zero {g0 g1 g2 g3 g4 g5 g6 g7 : Nat}
    (h : canonV6 [g0, g1, g2, g3, g4, g5, g6, g7] = "::".data) :
    [g0, g1, g2, g3, g4, g5, g6, g7] = [0, 0, 0, 0, 0, 0, 0, 0] := by
  rw [show "::".data = [':', ':'] from rfl] at h
  rcases canonV6_head g0 g1 g2 g3 g4 g5 g6 g7 with ⟨l, hbr, hcanon⟩ | ⟨rest, hcanon⟩
  · rw [hcanon] at h
    injection h with _ h2
    injection h2 with _ hT
    have hfacts := bestRun8_use hbr
    have hdrop : (List.map natToHexCL [g0, g1, g2, g3, g4, g5, g6, g7]).drop l = [] := by
      by_contra hne
      exact joinCL_ne_nil hne
        (fun p hp => by
          have hp2 := List.drop_subset l _ hp
          rw [List.mem_map] at hp2
          obtain ⟨x, _, rfl⟩ := hp2
          exact natToHexCL_ne_nil x) hT
    have hlen : (8:Nat) ≤ l := by
      have := List.drop_eq_nil_iff.mp hdrop
      simpa using this
    have hl8 : l = 8 := by omega
    subst hl8
    have hwin := hfacts.2.2
    have htake : ([g0 == 0, g1 == 0, g2 == 0, g3 == 0, g4 == 0, g5 == 0, g6 == 0,
        g7 == 0].drop 0).take 8 =
        [g0 == 0, g1 == 0, g2 == 0, g3 == 0, g4 == 0, g5 == 0, g6 == 0, g7 == 0] := rfl
    rw [htake] at hwin
    simp only [List.all_cons, List.all_nil, id_eq, Bool.and_eq_true, Bool.and_true,
      beq_iff_eq] at hwin
    obtain ⟨e0, e1, e2, e3, e4, e5, e6, e7⟩ := hwin
    rw [e0, e1, e2, e3, e4, e5, e6, e7]
  · rw [hcanon] at h
    rcases hne : natToHexCL g0 with _ | ⟨a, A⟩
    · exact absurd hne (natToHexCL_ne_nil g0)
    · rw [hne, List.cons_append] at h
      injection h with h1 _
      have : a ∈ natToHexCL g0 := by rw [hne]; exact List.mem_cons_self a A
      exact absurd h1 (natToHexCL_chars this).2.2.1

theorem canon_eq_dc_one {g0 g1 g2 g3 g4 g5 g6 g7 : Nat}
    (h : canonV6 [g0, g1, g2, g3, g4, g5, g6, g7] = "::1".data) :
    [g0, g1, g2, g3, g4, g5, g6, g7] = [0, 0, 0, 0, 0, 0, 0, 1] := by
  rw [show "::1".data = [':', ':', '1'] from rfl] at h
  rcases canonV6_head g0 g1 g2 g3 g4 g5 g6 g7 with ⟨l, hbr, hcanon⟩ | ⟨rest, hcanon⟩
  · rw [hcanon] at h
    injection h with _ h2
    injection h2 with _ hT
    have hfacts := bestRun8_use hbr
    set D := (List.map natToHexCL [g0, g1, g2, g3, g4, g5, g6, g7]).drop l with hD
    have hlen2 : ¬ 2 ≤ D.length := by
      intro h2le
      have hmemc : ':' ∈ joinCL ':' D := sep_mem_joinCL h2le
      rw [hT] at hmemc
      simp at hmemc
    have hne : D ≠ [] := by
      intro he
      rw [he] at hT
      exact List.noConfusion hT
    have hlD : D.length = 1 := by
      rcases D with _ | ⟨p, D2⟩
      · exact absurd rfl hne
      · rcases D2 with _ | ⟨q, D3⟩
        · rfl
        · exact absurd (show 2 ≤ (p :: q :: D3).length by
            simp only [List.length_cons]; omega) hlen2
    have hlen8 : D.length = 8 - l := by
      rw [hD]
      simp [List.length_drop]
    have hl7 : l = 7 := by omega
    subst hl7
    have hDval : D = [natToHexCL g7] := by
      rw [hD]
      rfl
    rw [hDval, joinCL_single] at hT
    have hg7 : g7 = 1 := by
      have hrt := hexParse?_natToHexCL g7
      rw [hT] at hrt
      rw [show hexParse? ['1'] = some 1 from by decide] at hrt
      exact (Option.some.inj hrt).symm
    have hwin := hfacts.2.2
    have htake : (([g0 == 0, g1 == 0, g2 == 0, g3 == 0, g4 == 0, g5 == 0, g6 == 0,
        g7 == 0].drop 0).take 7) = [g0 == 0, g1 == 0, g2 == 0, g3 == 0, g4 == 0,
        g5 == 0, g6 == 0] := rfl
    rw [htake] at hwin
    simp only [List.all_cons, List.all_nil, id_eq, Bool.and_eq_true, Bool.and_true,
      beq_iff_eq] at hwin
    obtain ⟨e0, e1, e2, e3, e4, e5, e6⟩ := hwin
    rw [e0, e1, e2, e3, e4, e5, e6, hg7]
  · rw [hcanon] at h
    rcases hne : natToHexCL g0 with _ | ⟨a, A⟩
    · exact absurd hne (natToHexCL_ne_nil g0)
    · rw [hne, List.cons_append] at h
      injection h with h1 _
      have hmem : a ∈ natToHexCL g0 := by rw [hne]; exact List.mem_cons_self a A
      exact absurd h1 (natToHexCL_chars hmem).2.2.1

theorem hexRender_eq_zero {x : Nat} (hx : natToHexCL x = ['0']) : x = 0 := by
  have hrt := hexParse?_natToHexCL x
  rw [hx] at hrt
  rw [show hexParse? ['0'] = some 0 from by decide] at hrt
  exact (Option.some.inj hrt).symm

theorem canon_eq_long_one {g0 g1 g2 g3 g4 g5 g6 g7 : Nat}
    (h : canonV6 [g0, g1, g2, g3, g4, g5, g6, g7] = "0:0:0:0:0:0:0:1".data) :
    [g0, g1, g2, g3, g4, g5, g6, g7] = [0, 0, 0, 0, 0, 0, 0, 1] := by
  unfold canonV6 at h
  rcases hbr : bestRun ([g0, g1, g2, g3, g4, g5, g6, g7].map (fun x => x == 0)) with
    _ | ⟨s, l⟩ <;> rw [hbr] at h <;> dsimp only at h
  · have hsplit := congrArg (splitCL ':') h
    rw [splitCL_joinCL ':' (List.map natToHexCL [g0, g1, g2, g3, g4, g5, g6, g7])
      (by simp)
      (fun p hp => by
        rw [List.mem_map] at hp
        obtain ⟨x, _, rfl⟩ := hp
        intro hc
        exact (natToHexCL_chars hc).2.2.1 rfl)] at hsplit
    rw [show splitCL ':' "0:0:0:0:0:0:0:1".data =
      [['0'], ['0'], ['0'], ['0'], ['0'], ['0'], ['0'], ['1']] from by decide] at hsplit
    simp only [List.map_cons, List.map_nil, List.cons.injEq, and_true] at hsplit
    obtain ⟨q0, q1, q2, q3, q4, q5, q6, q7⟩ := hsplit
    have o : g7 = 1 := by
      have hrt := hexParse?_natToHexCL g7
      rw [q7] at hrt
      rw [show hexParse? ['1'] = some 1 from by decide] at hrt
      exact (Option.some.inj hrt).symm
    exfalso
    rw [hexRender_eq_zero q0, hexRender_eq_zero q1, hexRender_eq_zero q2,
      hexRender_eq_zero q3, hexRender_eq_zero q4, hexRender_eq_zero q5,
      hexRender_eq_zero q6, o] at hbr
    rw [show [0, 0, 0, 0, 0, 0, 0, 1].map (fun x : Nat => x == 0) =
      [true, true, true, true, true, true, true, false] from by decide] at hbr
    exact bestRun8_seven false hbr
  · exfalso
    have hdc := congrArg hasDoubleColonB h
    rw [hasDCB_append] at hdc
    rw [show hasDoubleColonB "0:0:0:0:0:0:0:1".data = false from by decide] at hdc
    exact Bool.noConfusion hdc

theorem canon_eq_long_zero {g0 g1 g2 g3 g4 g5 g6 g7 : Nat}
    (h : canonV6 [g0, g1, g2, g3, g4, g5, g6, g7] = "0:0:0:0:0:0:0:0".data) :
    [g0, g1, g2, g3, g4, g5, g6, g7] = [0, 0, 0, 0, 0, 0, 0, 0] := by
  unfold canonV6 at h
  rcases hbr : bestRun ([g0, g1, g2, g3, g4, g5, g6, g7].map (fun x => x == 0)) with
    _ | ⟨s, l⟩ <;> rw [hbr] at h <;> dsimp only at h
  · have hsplit := congrArg (splitCL ':') h
    rw [splitCL_joinCL ':' (List.map natToHexCL [g0, g1, g2, g3, g4, g5, g6, g7])
      (by simp)
      (fun p hp => by
        rw [List.mem_map] at hp
        obtain ⟨x, _, rfl⟩ := hp
        intro hc
        exact (natToHexCL_chars hc).2.2.1 rfl)] at hsplit
    rw [show splitCL ':' "0:0:0:0:0:0:0:0".data =
      [['0'], ['0'], ['0'], ['0'], ['0'], ['0'], ['0'], ['0']] from by decide] at hsplit
    simp only [List.map_cons, List.map_nil, List.cons.injEq, and_true] at hsplit
    obtain ⟨q0, q1, q2, q3, q4, q5, q6, q7⟩ := hsplit
    exfalso
    rw [hexRender_eq_zero q0, hexRender_eq_zero q1, hexRender_eq_zero q2,
      hexRender_eq_zero q3, hexRender_eq_zero q4, hexRender_eq_zero q5,
      hexRender_eq_zero q6, hexRender_eq_zero q7] at hbr
    rw [show [0, 0, 0, 0, 0, 0, 0, 0].map (fun x : Nat => x == 0) =
      [true, true, true, true, true, true, true, true] from by decide] at hbr
    rw [bestRun8_all_zero] at hbr
    exact Option.noConfusion hbr
  · exfalso
    have hdc := congrArg hasDoubleColonB h
    rw [hasDCB_append] at hdc
    rw [show hasDoubleColonB "0:0:0:0:0:0:0:0".data = false from by decide] at hdc
    exact Bool.noConfusion hdc

theorem hexRender4_inv {x : Nat} {a b c d : Char} (hx : x < 65536)
    (h : natToHexCL x = [a, b, c, d]) :
    isHexCh a = true ∧ isHexCh b = true ∧ isHexCh c = true ∧ isHexCh d = true ∧
    x = ((hexVal a * 16 + hexVal b) * 16 + hexVal c) * 16 + hexVal d := by
  have hrt := hexParse?_natToHexCL x
  rw [h] at hrt
  have hinv := hexParse?_inv hrt
  have ha := hinv.2 a (by simp)
  have hb := hinv.2 b (by simp)
  have hc := hinv.2 c (by simp)
  have hd := hinv.2 d (by simp)
  refine ⟨ha, hb, hc, hd, ?_⟩
  have hcond : (decide (([a, b, c, d] : List Char) ≠ []) && ([a, b, c, d].all isHexCh))
      = true := by
    simp [ha, hb, hc, hd]
  unfold hexParse? at hrt
  rw [if_pos hcond] at hrt
  have hval := Option.some.inj hrt
  simp only [List.foldl_cons, List.foldl_nil] at hval
  omega

theorem not_mem_joinCL {sep c : Char} {ps : List (List Char)} (hne : c ≠ sep)
    (h : ∀ p ∈ ps, c ∉ p) : c ∉ joinCL sep ps := by
  intro hm
  rcases mem_joinCL hm with rfl | ⟨p, hp, hcp⟩
  · exact hne rfl
  · exact h p hp hcp

theorem parse4Groups?_none_no_dot {cs : List Char} (h : '.' ∉ cs) :
    parse4Groups? cs = none := by
  unfold parse4Groups?
  rw [splitCL_no_sep h]

theorem testULA_canon {g0 g1 g2 g3 g4 g5 g6 g7 : Nat} (hb : g0 < 65536)
    (h : testULA (canonV6 [g0, g1, g2, g3, g4, g5, g6, g7]) = true) :
    64512 ≤ g0 ∧ g0 ≤ 65023 := by
  rcases canonV6_head g0 g1 g2 g3 g4 g5 g6 g7 with ⟨l, hbr, hcanon⟩ | ⟨rest, hcanon⟩
  · rw [hcanon, testULA_colon] at h
    exact Bool.noConfusion h
  · rw [hcanon] at h
    rcases upto4_decomp (natToHexCL g0) (natToHexCL_ne_nil g0) (natToHexCL_len_le hb) with
      ⟨a, ha⟩ | ⟨a, b, hab⟩ | ⟨a, b, c, habc⟩ | ⟨a, b, c, d, habcd⟩
    · rw [ha, List.cons_append, List.nil_append] at h
      rcases rest with _|⟨r1,_|⟨r2,_|⟨r3,t⟩⟩⟩ <;> simp [testULA] at h
    · rw [hab] at h
      rw [show ([a, b] : List Char) ++ ':' :: rest = a :: b :: ':' :: rest from rfl] at h
      rcases rest with _|⟨r1,_|⟨r2,t⟩⟩ <;>
        simp [testULA, show isHexCh ':' = false from by decide] at h
    · rw [habc] at h
      rw [show ([a, b, c] : List Char) ++ ':' :: rest = a :: b :: c :: ':' :: rest
        from rfl] at h
      rcases rest with _ | ⟨r1, t⟩ <;> simp [testULA,
        show isHexCh ':' = false from by decide] at h
    · rw [habcd] at h
      rw [show ([a, b, c, d] : List Char) ++ ':' :: rest = a :: b :: c :: d :: ':' :: rest
        from rfl] at h
      rw [testULA] at h
      simp only [Bool.and_eq_true, Bool.or_eq_true, beq_iff_eq] at h
      obtain ⟨⟨⟨⟨hfa, hcd⟩, hhc⟩, hhd⟩, _⟩ := h
      have hinv := hexRender4_inv hb habcd
      have hvc := hexVal_lt hinv.2.2.1
      have hvd := hexVal_lt hinv.2.2.2.1
      have hx := hinv.2.2.2.2
      rw [hfa] at hx
      rcases hcd with rfl | rfl
      · rw [show hexVal 'f' = 15 from by decide, show hexVal 'c' = 12 from by decide] at hx
        omega
      · rw [show hexVal 'f' = 15 from by decide, show hexVal 'd' = 13 from by decide] at hx
        omega

theorem testLL_canon {g0 g1 g2 g3 g4 g5 g6 g7 : Nat} (hb : g0 < 65536)
    (h : testLinkLocal (canonV6 [g0, g1, g2, g3, g4, g5, g6, g7]) = true) :
    65152 ≤ g0 ∧ g0 ≤ 65215 := by
  rcases canonV6_head g0 g1 g2 g3 g4 g5 g6 g7 with ⟨l, hbr, hcanon⟩ | ⟨rest, hcanon⟩
  · rw [hcanon, testLL_colon] at h
    exact Bool.noConfusion h
  · rw [hcanon] at h
    rcases upto4_decomp (natToHexCL g0) (natToHexCL_ne_nil g0) (natToHexCL_len_le hb) with
      ⟨a, ha⟩ | ⟨a, b, hab⟩ | ⟨a, b, c, habc⟩ | ⟨a, b, c, d, habcd⟩
    · rw [ha, List.cons_append, List.nil_append] at h
      rcases rest with _|⟨r1,_|⟨r2,_|⟨r3,t⟩⟩⟩ <;> simp [testLinkLocal] at h
    · rw [hab] at h
      rw [show ([a, b] : List Char) ++ ':' :: rest = a :: b :: ':' :: rest from rfl] at h
      rcases rest with _|⟨r1,_|⟨r2,t⟩⟩ <;>
        simp [testLinkLocal, show isHexCh ':' = false from by decide] at h
    · rw [habc] at h
      rw [show ([a, b, c] : List Char) ++ ':' :: rest = a :: b :: c :: ':' :: rest
        from rfl] at h
      rcases rest with _ | ⟨r1, t⟩ <;> simp [testLinkLocal,
        show isHexCh ':' = false from by decide] at h
    · rw [habcd] at h
      rw [show ([a, b, c, d] : List Char) ++ ':' :: rest = a :: b :: c :: d :: ':' :: rest
        from rfl] at h
      rw [testLinkLocal] at h
      simp only [Bool.and_eq_true, Bool.or_eq_true, beq_iff_eq] at h
      obtain ⟨⟨⟨⟨hfa, hfe⟩, hor⟩, hhd⟩, _⟩ := h
      have hinv := hexRender4_inv hb habcd
      have hvd := hexVal_lt hinv.2.2.2.1
      have hx := hinv.2.2.2.2
      rw [hfa, hfe] at hx
      rw [show hexVal 'f' = 15 from by decide, show hexVal 'e' = 14 from by decide] at hx
      rcases hor with ((rfl | rfl) | rfl) | rfl
      · rw [show hexVal '8' = 8 from by decide] at hx
        omega
      · rw [show hexVal '9' = 9 from by decide] at hx
        omega
      · rw [show hexVal 'a' = 10 from by decide] at hx
        omega
      · rw [show hexVal 'b' = 11 from by decide] at hx
        omega

theorem priv6_true_of_testULA {s : String}
    (h : testULA (lowCL (stripBrackets s.data)) = true) : isPrivateIPv6 s = true := by
  unfold isPrivateIPv6
  dsimp only
  by_cases h1 : (decide (lowCL (stripBrackets s.data) = "::1".data) ||
      decide (lowCL (stripBrackets s.data) = "0:0:0:0:0:0:0:1".data)) = true
  · rw [if_pos h1]
  · rw [if_neg h1]
    by_cases h2 : (decide (lowCL (stripBrackets s.data) = "::".data) ||
        decide (lowCL (stripBrackets s.data) = "0:0:0:0:0:0:0:0".data)) = true
    · rw [if_pos h2]
    · rw [if_neg h2, if_pos h]

theorem priv6_true_of_testLL {s : String}
    (h : testLinkLocal (lowCL (stripBrackets s.data)) = true) : isPrivateIPv6 s = true := by
  unfold isPrivateIPv6
  dsimp only
  by_cases h1 : (decide (lowCL (stripBrackets s.data) = "::1".data) ||
      decide (lowCL (stripBrackets s.data) = "0:0:0:0:0:0:0:1".data)) = true
  · rw [if_pos h1]
  · rw [if_neg h1]
    by_cases h2 : (decide (lowCL (stripBrackets s.data) = "::".data) ||
        decide (lowCL (stripBrackets s.data) = "0:0:0:0:0:0:0:0".data)) = true
    · rw [if_pos h2]
    · rw [if_neg h2]
      by_cases h3 : testULA (lowCL (stripBrackets s.data)) = true
      · rw [if_pos h3]
      · rw [if_neg h3, if_pos h]

theorem priv6_true_of_mapped {s : String}
    (hpref : isPrefCL "::ffff:".data (lowCL (stripBrackets s.data)) = true)
    (hbody : (if isPrivateIPv4 (String.mk ((lowCL (stripBrackets s.data)).drop 7)) then true
      else
        match hexPairParse? ((lowCL (stripBrackets s.data)).drop 7) with
        | some (high, low) =>
          isPrivateIPv4 (String.mk (natToDecCL (high / 256 % 256) ++ '.' ::
            natToDecCL (high % 256) ++ '.' :: natToDecCL (low / 256 % 256) ++ '.' ::
            natToDecCL (low % 256)))
        | none => false) = true) :
    isPrivateIPv6 s = true := by
  unfold isPrivateIPv6
  dsimp only
  by_cases h1 : (decide (lowCL (stripBrackets s.data) = "::1".data) ||
      decide (lowCL (stripBrackets s.data) = "0:0:0:0:0:0:0:1".data)) = true
  · rw [if_pos h1]
  · rw [if_neg h1]
    by_cases h2 : (decide (lowCL (stripBrackets s.data) = "::".data) ||
        decide (lowCL (stripBrackets s.data) = "0:0:0:0:0:0:0:0".data)) = true
    · rw [if_pos h2]
    · rw [if_neg h2]
      by_cases h3 : testULA (lowCL (stripBrackets s.data)) = true
      · rw [if_pos h3]
      · rw [if_neg h3]
        by_cases h4 : testLinkLocal (lowCL (stripBrackets s.data)) = true
        · rw [if_pos h4]
        · rw [if_neg h4, if_pos hpref]
          exact hbody

set_option maxHeartbeats 1000000 in
theorem mapped_branch_false {g0 g1 g2 g3 g4 g5 g6 g7 : Nat}
    (hb : ∀ x ∈ [g0, g1, g2, g3, g4, g5, g6, g7], x < 65536)
    (hns : ¬ specPrivateV6 [g0, g1, g2, g3, g4, g5, g6, g7])
    (hpref : isPrefCL "::ffff:".data (canonV6 [g0, g1, g2, g3, g4, g5, g6, g7]) = true) :
    (if isPrivateIPv4 (String.mk ((canonV6 [g0, g1, g2, g3, g4, g5, g6, g7]).drop 7)) then
      true
    else
      match hexPairParse? ((canonV6 [g0, g1, g2, g3, g4, g5, g6, g7]).drop 7) with
      | some (high, low) =>
        isPrivateIPv4 (String.mk (natToDecCL (high / 256 % 256) ++ '.' ::
          natToDecCL (high % 256) ++ '.' :: natToDecCL (low / 256 % 256) ++ '.' ::
          natToDecCL (low % 256)))
      | none => false) = false := by
  have hcf : ∀ x : Nat, ':' ∉ natToHexCL x :=
    fun x hm => (natToHexCL_chars hm).2.2.1 rfl
  have hdf : ∀ x : Nat, '.' ∉ natToHexCL x :=
    fun x hm => (natToHexCL_chars hm).2.2.2.1 rfl
  rcases canonV6_head g0 g1 g2 g3 g4 g5 g6 g7 with ⟨l, hbr, hcanon⟩ | ⟨rest, hcanon⟩
  · have hfacts := bestRun8_use hbr
    obtain ⟨t, hct⟩ := isPrefCL_eq_append hpref
    rw [hcanon, show "::ffff:".data ++ t =
      ':' :: ':' :: 'f' :: 'f' :: 'f' :: 'f' :: ':' :: t from rfl] at hct
    injection hct with _ h2
    injection h2 with _ hT
    have h2l := hfacts.1
    have hl8 : l ≤ 8 := by
      have := hfacts.2.1
      omega
    interval_cases l
    · -- l = 2
      rw [show (List.map natToHexCL [g0, g1, g2, g3, g4, g5, g6, g7]).drop 2 =
        [natToHexCL g2, natToHexCL g3, natToHexCL g4, natToHexCL g5, natToHexCL g6,
          natToHexCL g7] from rfl, joinCL_cons_cons,
        show 'f' :: 'f' :: 'f' :: 'f' :: ':' :: t =
          ['f', 'f', 'f', 'f'] ++ ':' :: t from rfl] at hT
      obtain ⟨hffff, hrest⟩ := append_sep_inj (hcf g2) (by decide) hT
      have hdrop7 : (canonV6 [g0, g1, g2, g3, g4, g5, g6, g7]).drop 7 =
          joinCL ':' [natToHexCL g3, natToHexCL g4, natToHexCL g5, natToHexCL g6,
            natToHexCL g7] := by
        rw [hcanon, show joinCL ':'
          ((List.map natToHexCL [g0, g1, g2, g3, g4, g5, g6, g7]).drop 2) =
          natToHexCL g2 ++ ':' :: joinCL ':' [natToHexCL g3, natToHexCL g4, natToHexCL g5,
            natToHexCL g6, natToHexCL g7] from joinCL_cons_cons ':' _ _ _, hffff]
        rfl
      rw [hdrop7]
      have hmemJ : ∀ p ∈ [natToHexCL g3, natToHexCL g4, natToHexCL g5, natToHexCL g6,
          natToHexCL g7], ':' ∉ p := by
        intro p hp
        simp only [List.mem_cons, List.not_mem_nil, or_false] at hp
        rcases hp with rfl | rfl | rfl | rfl | rfl <;> exact hcf _
      have hp4 : isPrivateIPv4 (String.mk (joinCL ':' [natToHexCL g3, natToHexCL g4,
          natToHexCL g5, natToHexCL g6, natToHexCL g7])) = false := by
        apply isPrivateIPv4_false_of_none
        apply parse4Groups?_none_of_bad (sep_mem_joinCL (by simp)) (by decide) (by decide)
      rw [if_neg (ne_true_of_eq_false hp4)]
      have hhp : hexPairParse? (joinCL ':' [natToHexCL g3, natToHexCL g4, natToHexCL g5,
          natToHexCL g6, natToHexCL g7]) = none := by
        unfold hexPairParse?
        rw [splitCL_joinCL ':' _ (by simp) hmemJ]
      rw [hhp]
    · -- l = 3
      rw [show (List.map natToHexCL [g0, g1, g2, g3, g4, g5, g6, g7]).drop 3 =
        [natToHexCL g3, natToHexCL g4, natToHexCL g5, natToHexCL g6,
          natToHexCL g7] from rfl, joinCL_cons_cons,
        show 'f' :: 'f' :: 'f' :: 'f' :: ':' :: t =
          ['f', 'f', 'f', 'f'] ++ ':' :: t from rfl] at hT
      obtain ⟨hffff, hrest⟩ := append_sep_inj (hcf g3) (by decide) hT
      have hdrop7 : (canonV6 [g0, g1, g2, g3, g4, g5, g6, g7]).drop 7 =
          joinCL ':' [natToHexCL g4, natToHexCL g5, natToHexCL g6, natToHexCL g7] := by
        rw [hcanon, show joinCL ':'
          ((List.map natToHexCL [g0, g1, g2, g3, g4, g5, g6, g7]).drop 3) =
          natToHexCL g3 ++ ':' :: joinCL ':' [natToHexCL g4, natToHexCL g5,
            natToHexCL g6, natToHexCL g7] from joinCL_cons_cons ':' _ _ _, hffff]
        rfl
      rw [hdrop7]
      have hmemJ : ∀ p ∈ [natToHexCL g4, natToHexCL g5, natToHexCL g6,
          natToHexCL g7], ':' ∉ p := by
        intro p hp
        simp only [List.mem_cons, List.not_mem_nil, or_false] at hp
        rcases hp with rfl | rfl | rfl | rfl <;> exact hcf _
      have hp4 : isPrivateIPv4 (String.mk (joinCL ':' [natToHexCL g4, natToHexCL g5,
          natToHexCL g6, natToHexCL g7])) = false := by
        apply isPrivateIPv4_false_of_none
        apply parse4Groups?_none_of_bad (sep_mem_joinCL (by simp)) (by decide) (by decide)
      rw [if_neg (ne_true_of_eq_false hp4)]
      have hhp : hexPairParse? (joinCL ':' [natToHexCL g4, natToHexCL g5, natToHexCL g6,
          natToHexCL g7]) = none := by
        unfold hexPairParse?
        rw [splitCL_joinCL ':' _ (by simp) hmemJ]
      rw [hhp]
    · -- l = 4
      rw [show (List.map natToHexCL [g0, g1, g2, g3, g4, g5, g6, g7]).drop 4 =
        [natToHexCL g4, natToHexCL g5, natToHexCL g6, natToHexCL g7] from rfl,
        joinCL_cons_cons,
        show 'f' :: 'f' :: 'f' :: 'f' :: ':' :: t =
          ['f', 'f', 'f', 'f'] ++ ':' :: t from rfl] at hT
      obtain ⟨hffff, hrest⟩ := append_sep_inj (hcf g4) (by decide) hT
      have hdrop7 : (canonV6 [g0, g1, g2, g3, g4, g5, g6, g7]).drop 7 =
          joinCL ':' [natToHexCL g5, natToHexCL g6, natToHexCL g7] := by
        rw [hcanon, show joinCL ':'
          ((List.map natToHexCL [g0, g1, g2, g3, g4, g5, g6, g7]).drop 4) =
          natToHexCL g4 ++ ':' :: joinCL ':' [natToHexCL g5, natToHexCL g6,
            natToHexCL g7] from joinCL_cons_cons ':' _ _ _, hffff]
        rfl
      rw [hdrop7]
      have hmemJ : ∀ p ∈ [natToHexCL g5, natToHexCL g6, natToHexCL g7], ':' ∉ p := by
        intro p hp
        simp only [List.mem_cons, List.not_mem_nil, or_false] at hp
        rcases hp with rfl | rfl | rfl <;> exact hcf _
      have hp4 : isPrivateIPv4 (String.mk (joinCL ':' [natToHexCL g5, natToHexCL g6,
          natToHexCL g7])) = false := by
        apply isPrivateIPv4_false_of_none
        apply parse4Groups?_none_of_bad (sep_mem_joinCL (by simp)) (by decide) (by decide)
      rw [if_neg (ne_true_of_eq_false hp4)]
      have hhp : hexPairParse? (joinCL ':' [natToHexCL g5, natToHexCL g6,
          natToHexCL g7]) = none := by
        unfold hexPairParse?
        rw [splitCL_joinCL ':' _ (by simp) hmemJ]
      rw [hhp]
    · -- l = 5
      rw [show (List.map natToHexCL [g0, g1, g2, g3, g4, g5, g6, g7]).drop 5 =
        [natToHexCL g5, natToHexCL g6, natToHexCL g7] from rfl, joinCL_cons_cons,
        show 'f' :: 'f' :: 'f' :: 'f' :: ':' :: t =
          ['f', 'f', 'f', 'f'] ++ ':' :: t from rfl] at hT
      obtain ⟨hffff, hrest⟩ := append_sep_inj (hcf g5) (by decide) hT
      have hg5 : g5 = 65535 := by
        have hinv := hexRender4_inv (hb g5 (by simp)) hffff
        have hval := hinv.2.2.2.2
        rw [show hexVal 'f' = 15 from by decide] at hval
        omega
      have hwin := hfacts.2.2
      have htake : (([g0 == 0, g1 == 0, g2 == 0, g3 == 0, g4 == 0, g5 == 0, g6 == 0,
          g7 == 0].drop 0).take 5) = [g0 == 0, g1 == 0, g2 == 0, g3 == 0, g4 == 0] := rfl
      rw [htake] at hwin
      simp only [List.all_cons, List.all_nil, id_eq, Bool.and_eq_true, Bool.and_true,
        beq_iff_eq] at hwin
      obtain ⟨e0, e1, e2, e3, e4⟩ := hwin
      have hdrop7 : (canonV6 [g0, g1, g2, g3, g4, g5, g6, g7]).drop 7 =
          joinCL ':' [natToHexCL g6, natToHexCL g7] := by
        rw [hcanon, show joinCL ':'
          ((List.map natToHexCL [g0, g1, g2, g3, g4, g5, g6, g7]).drop 5) =
          natToHexCL g5 ++ ':' :: joinCL ':' [natToHexCL g6, natToHexCL g7]
          from joinCL_cons_cons ':' _ _ _, hffff]
        rfl
      rw [hdrop7, joinCL_cons_cons, joinCL_single]
      have hp4 : isPrivateIPv4 (String.mk (natToHexCL g6 ++ ':' :: natToHexCL g7))
          = false := by
        apply isPrivateIPv4_false_of_none
        exact parse4Groups?_none_of_bad
          (List.mem_append_right _ (List.mem_cons_self ':' _)) (by decide) (by decide)
      rw [if_neg (ne_true_of_eq_false hp4)]
      have hcond : (decide (1 ≤ (natToHexCL g6).length) &&
          decide ((natToHexCL g6).length ≤ 4) && (natToHexCL g6).all isHexCh &&
          decide (1 ≤ (natToHexCL g7).length) && decide ((natToHexCL g7).length ≤ 4) &&
          (natToHexCL g7).all isHexCh) = true := by
        simp only [Bool.and_eq_true, decide_eq_true_eq, List.all_eq_true]
        have h6p := List.length_pos.mpr (natToHexCL_ne_nil g6)
        have h7p := List.length_pos.mpr (natToHexCL_ne_nil g7)
        refine ⟨⟨⟨⟨⟨by omega, natToHexCL_len_le (hb g6 (by simp))⟩,
          fun c hc => (natToHexCL_chars hc).1⟩, by omega⟩,
          natToHexCL_len_le (hb g7 (by simp))⟩, fun c hc => (natToHexCL_chars hc).1⟩
      have hhp : hexPairParse? (natToHexCL g6 ++ ':' :: natToHexCL g7)
          = some (g6, g7) := by
        unfold hexPairParse?
        rw [splitCL_append_sep _ (hcf g6), splitCL_no_sep (hcf g7)]
        dsimp only
        rw [if_pos hcond, hexParse?_natToHexCL, hexParse?_natToHexCL]
      rw [hhp]
      have hemb : ¬ specPrivateIPv4 (g6 * 65536 + g7) := by
        intro hsp
        apply hns
        right; right; right; right
        exact ⟨by rw [show ([g0, g1, g2, g3, g4, g5, g6, g7].take 6) =
          [g0, g1, g2, g3, g4, g5] from rfl, e0, e1, e2, e3, e4, hg5], hsp⟩
      show isPrivateIPv4 (String.mk (natToDecCL (g6 / 256 % 256) ++ '.' ::
        natToDecCL (g6 % 256) ++ '.' :: natToDecCL (g7 / 256 % 256) ++ '.' ::
        natToDecCL (g7 % 256))) = false
      rw [isPrivateIPv4_quad, Bool.eq_false_iff]
      intro htrue
      simp only [Bool.or_eq_true, Bool.and_eq_true, beq_iff_eq, decide_eq_true_eq] at htrue
      apply hemb
      unfold specPrivateIPv4
      have hb6 := hb g6 (by simp)
      have hb7 := hb g7 (by simp)
      omega
    · -- l = 6
      rw [show (List.map natToHexCL [g0, g1, g2, g3, g4, g5, g6, g7]).drop 6 =
        [natToHexCL g6, natToHexCL g7] from rfl, joinCL_cons_cons, joinCL_single,
        show 'f' :: 'f' :: 'f' :: 'f' :: ':' :: t =
          ['f', 'f', 'f', 'f'] ++ ':' :: t from rfl] at hT
      obtain ⟨hffff, hrest⟩ := append_sep_inj (hcf g6) (by decide) hT
      have hdrop7 : (canonV6 [g0, g1, g2, g3, g4, g5, g6, g7]).drop 7 =
          natToHexCL g7 := by
        rw [hcanon, show joinCL ':'
          ((List.map natToHexCL [g0, g1, g2, g3, g4, g5, g6, g7]).drop 6) =
          natToHexCL g6 ++ ':' :: natToHexCL g7 from by
            rw [show (List.map natToHexCL [g0, g1, g2, g3, g4, g5, g6, g7]).drop 6 =
              [natToHexCL g6, natToHexCL g7] from rfl, joinCL_cons_cons, joinCL_single],
          hffff]
        rfl
      rw [hdrop7]
      have hp4 : isPrivateIPv4 (String.mk (natToHexCL g7)) = false :=
        isPrivateIPv4_false_of_none (parse4Groups?_none_no_dot (hdf g7))
      rw [if_neg (ne_true_of_eq_false hp4)]
      have hhp : hexPairParse? (natToHexCL g7) = none := by
        unfold hexPairParse?
        rw [splitCL_no_sep (hcf g7)]
      rw [hhp]
    · -- l = 7
      rw [show (List.map natToHexCL [g0, g1, g2, g3, g4, g5, g6, g7]).drop 7 =
        [natToHexCL g7] from rfl, joinCL_single] at hT
      exfalso
      have hlen := congrArg List.length hT
      have hle := natToHexCL_len_le (hb g7 (by simp))
      simp only [List.length_cons] at hlen
      omega
    · -- l = 8
      rw [show (List.map natToHexCL [g0, g1, g2, g3, g4, g5, g6, g7]).drop 8 =
        ([] : List (List Char)) from rfl] at hT
      exact List.noConfusion hT
  · obtain ⟨t, hct⟩ := isPrefCL_eq_append hpref
    rw [hcanon] at hct
    rcases hne : natToHexCL g0 with _ | ⟨a, A⟩
    · exact absurd hne (natToHexCL_ne_nil g0)
    · rw [hne, List.cons_append, show "::ffff:".data ++ t =
        ':' :: ':' :: 'f' :: 'f' :: 'f' :: 'f' :: ':' :: t from rfl] at hct
      injection hct with h1 _
      have hmem : a ∈ natToHexCL g0 := by rw [hne]; exact List.mem_cons_self a A
      exact absurd h1 (natToHexCL_chars hmem).2.2.1

theorem priv6_false_public {g0 g1 g2 g3 g4 g5 g6 g7 : Nat}
    (hb : ∀ x ∈ [g0, g1, g2, g3, g4, g5, g6, g7], x < 65536)
    (hns : ¬ specPrivateV6 [g0, g1, g2, g3, g4, g5, g6, g7]) :
    isPrivateIPv6 (String.mk ('[' :: canonV6 [g0, g1, g2, g3, g4, g5, g6, g7] ++ [']']))
      = false := by
  unfold isPrivateIPv6
  dsimp only
  rw [clean_ipv6]
  have h1 : canonV6 [g0, g1, g2, g3, g4, g5, g6, g7] ≠ "::1".data :=
    fun he => hns (Or.inl (canon_eq_dc_one he))
  have h2 : canonV6 [g0, g1, g2, g3, g4, g5, g6, g7] ≠ "0:0:0:0:0:0:0:1".data :=
    fun he => hns (Or.inl (canon_eq_long_one he))
  have h3 : canonV6 [g0, g1, g2, g3, g4, g5, g6, g7] ≠ "::".data :=
    fun he => hns (Or.inr (Or.inl (canon_eq_dc_zero he)))
  have h4 : canonV6 [g0, g1, g2, g3, g4, g5, g6, g7] ≠ "0:0:0:0:0:0:0:0".data :=
    fun he => hns (Or.inr (Or.inl (canon_eq_long_zero he)))
  have h5 : testULA (canonV6 [g0, g1, g2, g3, g4, g5, g6, g7]) = false := by
    rw [Bool.eq_false_iff]
    intro ht
    exact hns (Or.inr (Or.inr (Or.inl (testULA_canon (hb g0 (by simp)) ht))))
  have h6 : testLinkLocal (canonV6 [g0, g1, g2, g3, g4, g5, g6, g7]) = false := by
    rw [Bool.eq_false_iff]
    intro ht
    exact hns (Or.inr (Or.inr (Or.inr (Or.inl (testLL_canon (hb g0 (by simp)) ht)))))
  rw [if_neg (show ¬ ((decide (canonV6 [g0, g1, g2, g3, g4, g5, g6, g7] = "::1".data) ||
    decide (canonV6 [g0, g1, g2, g3, g4, g5, g6, g7] = "0:0:0:0:0:0:0:1".data)) = true)
    from by simp [h1, h2])]
  rw [if_neg (show ¬ ((decide (canonV6 [g0, g1, g2, g3, g4, g5, g6, g7] = "::".data) ||
    decide (canonV6 [g0, g1, g2, g3, g4, g5, g6, g7] = "0:0:0:0:0:0:0:0".data)) = true)
    from by simp [h3, h4])]
  rw [if_neg (ne_true_of_eq_false h5), if_neg (ne_true_of_eq_false h6)]
  by_cases hpref : isPrefCL "::ffff:".data (canonV6 [g0, g1, g2, g3, g4, g5, g6, g7]) = true
  · rw [if_pos hpref]
    exact mapped_branch_false hb hns hpref
  · rw [if_neg hpref]

theorem ipv6_not_blocked {g0 g1 g2 g3 g4 g5 g6 g7 : Nat}
    (hns : ¬ specPrivateV6 [g0, g1, g2, g3, g4, g5, g6, g7]) :
    String.mk ('[' :: canonV6 [g0, g1, g2, g3, g4, g5, g6, g7] ++ [']']) ∉
      BLOCKED_HOSTNAMES := by
  intro hmem
  simp only [BLOCKED_HOSTNAMES, List.mem_cons, List.not_mem_nil, or_false] at hmem
  have hdata : ∀ t : String,
      String.mk ('[' :: canonV6 [g0, g1, g2, g3, g4, g5, g6, g7] ++ [']']) = t →
      '[' :: canonV6 [g0, g1, g2, g3, g4, g5, g6, g7] ++ [']'] = t.data := by
    intro t ht
    rw [← ht]
  rcases hmem with he | he | he | he | he | he | he | he | he
  · have hh := congrArg List.head? (hdata _ he)
    simp only [List.head?_cons] at hh
    exact absurd (Option.some.inj hh) (by decide)
  · have hh := congrArg List.head? (hdata _ he)
    simp only [List.head?_cons] at hh
    exact absurd (Option.some.inj hh) (by decide)
  · have hh := congrArg List.head? (hdata _ he)
    simp only [List.head?_cons] at hh
    exact absurd (Option.some.inj hh) (by decide)
  · have hh := congrArg List.head? (hdata _ he)
    simp only [List.head?_cons] at hh
    exact absurd (Option.some.inj hh) (by decide)
  · have hd := hdata _ he
    rw [show "[::]".data = '[' :: ([':', ':'] ++ [']']) from rfl] at hd
    injection hd with _ h2
    have hcanon := List.append_cancel_right h2
    exact hns (Or.inr (Or.inl (canon_eq_dc_zero hcanon)))
  · have hd := hdata _ he
    rw [show "[::1]".data = '[' :: ([':', ':', '1'] ++ [']']) from rfl] at hd
    injection hd with _ h2
    have hcanon := List.append_cancel_right h2
    exact hns (Or.inl (canon_eq_dc_one hcanon))
  · have hh := congrArg List.head? (hdata _ he)
    simp only [List.head?_cons] at hh
    exact absurd (Option.some.inj hh) (by decide)
  · have hh := congrArg List.head? (hdata _ he)
    simp only [List.head?_cons] at hh
    exact absurd (Option.some.inj hh) (by decide)
  · have hh := congrArg List.head? (hdata _ he)
    simp only [List.head?_cons] at hh
    exact absurd (Option.some.inj hh) (by decide)

theorem hexPair_renders {g6 g7 : Nat} (hb6 : g6 < 65536) (hb7 : g7 < 65536) :
    hexPairParse? (natToHexCL g6 ++ ':' :: natToHexCL g7) = some (g6, g7) := by
  have hcf : ∀ x : Nat, ':' ∉ natToHexCL x :=
    fun x hm => (natToHexCL_chars hm).2.2.1 rfl
  have hcond : (decide (1 ≤ (natToHexCL g6).length) &&
      decide ((natToHexCL g6).length ≤ 4) && (natToHexCL g6).all isHexCh &&
      decide (1 ≤ (natToHexCL g7).length) && decide ((natToHexCL g7).length ≤ 4) &&
      (natToHexCL g7).all isHexCh) = true := by
    simp only [Bool.and_eq_true, decide_eq_true_eq, List.all_eq_true]
    have h6p := List.length_pos.mpr (natToHexCL_ne_nil g6)
    have h7p := List.length_pos.mpr (natToHexCL_ne_nil g7)
    refine ⟨⟨⟨⟨⟨by omega, natToHexCL_len_le hb6⟩,
      fun c hc => (natToHexCL_chars hc).1⟩, by omega⟩,
      natToHexCL_len_le hb7⟩, fun c hc => (natToHexCL_chars hc).1⟩
  unfold hexPairParse?
  rw [splitCL_append_sep _ (hcf g6), splitCL_no_sep (hcf g7)]
  dsimp only
  rw [if_pos hcond, hexParse?_natToHexCL, hexParse?_natToHexCL]

theorem testULA_canon_of_range {g0 g1 g2 g3 g4 g5 g6 g7 : Nat}
    (h1 : 64512 ≤ g0) (h2 : g0 ≤ 65023) :
    testULA (canonV6 [g0, g1, g2, g3, g4, g5, g6, g7]) = true := by
  rcases canonV6_head g0 g1 g2 g3 g4 g5 g6 g7 with ⟨l, hbr, hcanon⟩ | ⟨rest, hcanon⟩
  · exfalso
    have hfacts := bestRun8_use hbr
    have h2l := hfacts.1
    have hwin := hfacts.2.2
    obtain ⟨l2, rfl⟩ : ∃ l2, l = l2 + 1 := ⟨l - 1, by omega⟩
    rw [show ([g0 == 0, g1 == 0, g2 == 0, g3 == 0, g4 == 0, g5 == 0, g6 == 0,
      g7 == 0].drop 0) = [g0 == 0, g1 == 0, g2 == 0, g3 == 0, g4 == 0, g5 == 0,
      g6 == 0, g7 == 0] from rfl, List.take_succ_cons] at hwin
    simp only [List.all_cons, id_eq, Bool.and_eq_true, beq_iff_eq] at hwin
    obtain ⟨hg0, _⟩ := hwin
    omega
  · rw [hcanon]
    have h4 : natToHexCL g0 = [hexCh (g0 / 4096), hexCh (g0 / 256 % 16),
        hexCh (g0 / 16 % 16), hexCh (g0 % 16)] := natToHexCL4 (by omega) (by omega)
    rw [h4, show ([hexCh (g0 / 4096), hexCh (g0 / 256 % 16), hexCh (g0 / 16 % 16),
      hexCh (g0 % 16)] : List Char) ++ ':' :: rest = hexCh (g0 / 4096) ::
      hexCh (g0 / 256 % 16) :: hexCh (g0 / 16 % 16) :: hexCh (g0 % 16) :: ':' :: rest
      from rfl, testULA]
    have e1 : g0 / 4096 = 15 := by omega
    have e2 : g0 / 256 % 16 = 12 ∨ g0 / 256 % 16 = 13 := by omega
    have hc2 := (hexCh_props (show g0 / 16 % 16 < 16 by omega)).1
    have hc3 := (hexCh_props (show g0 % 16 < 16 by omega)).1
    rw [e1, show hexCh 15 = 'f' from rfl]
    rcases e2 with e2 | e2 <;> rw [e2] <;> simp [hc2, hc3] <;> decide

theorem testLL_canon_of_range {g0 g1 g2 g3 g4 g5 g6 g7 : Nat}
    (h1 : 65152 ≤ g0) (h2 : g0 ≤ 65215) :
    testLinkLocal (canonV6 [g0, g1, g2, g3, g4, g5, g6, g7]) = true := by
  rcases canonV6_head g0 g1 g2 g3 g4 g5 g6 g7 with ⟨l, hbr, hcanon⟩ | ⟨rest, hcanon⟩
  · exfalso
    have hfacts := bestRun8_use hbr
    have h2l := hfacts.1
    have hwin := hfacts.2.2
    obtain ⟨l2, rfl⟩ : ∃ l2, l = l2 + 1 := ⟨l - 1, by omega⟩
    rw [show ([g0 == 0, g1 == 0, g2 == 0, g3 == 0, g4 == 0, g5 == 0, g6 == 0,
      g7 == 0].drop 0) = [g0 == 0, g1 == 0, g2 == 0, g3 == 0, g4 == 0, g5 == 0,
      g6 == 0, g7 == 0] from rfl, List.take_succ_cons] at hwin
    simp only [List.all_cons, id_eq, Bool.and_eq_true, beq_iff_eq] at hwin
    obtain ⟨hg0, _⟩ := hwin
    omega
  · rw [hcanon]
    have h4 : natToHexCL g0 = [hexCh (g0 / 4096), hexCh (g0 / 256 % 16),
        hexCh (g0 / 16 % 16), hexCh (g0 % 16)] := natToHexCL4 (by omega) (by omega)
    rw [h4, show ([hexCh (g0 / 4096), hexCh (g0 / 256 % 16), hexCh (g0 / 16 % 16),
      hexCh (g0 % 16)] : List Char) ++ ':' :: rest = hexCh (g0 / 4096) ::
      hexCh (g0 / 256 % 16) :: hexCh (g0 / 16 % 16) :: hexCh (g0 % 16) :: ':' :: rest
      from rfl, testLinkLocal]
    have e1 : g0 / 4096 = 15 := by omega
    have e2 : g0 / 256 % 16 = 14 := by omega
    have e3 : g0 / 16 % 16 = 8 ∨ g0 / 16 % 16 = 9 ∨ g0 / 16 % 16 = 10 ∨
        g0 / 16 % 16 = 11 := by omega
    have hc3 := (hexCh_props (show g0 % 16 < 16 by omega)).1
    rw [e1, e2, show hexCh 15 = 'f' from rfl, show hexCh 14 = 'e' from rfl]
    rcases e3 with e3 | e3 | e3 | e3 <;> rw [e3] <;> simp [hc3] <;> decide

/-- C3: for every URL string, validateUrl rejects unparseable URLs and
non-https schemes; over https it rejects deny-listed hostnames, IPv4
literals in 0.0.0.0/8, 10.0.0.0/8, 127.0.0.0/8, 172.16.0.0/12,
192.168.0.0/16 and 169.254.0.0/16, and loopback, unspecified,
unique-local, link-local and IPv4-mapped-private IPv6 literals; it
accepts every other IPv4 or IPv6 literal and every ordinary
(non-deny-listed) domain. -/
theorem claim3_validate_url (url : String) :
    (jsURL? url = none → (validateUrl url).valid = false) ∧
    (∀ pu : JsUrlM, jsURL? url = some pu → pu.protocol ≠ "https:" →
      (validateUrl url).valid = false) ∧
    (∀ pu : JsUrlM, jsURL? url = some pu → pu.protocol = "https:" →
      lowerStr (String.mk (hostStringCL pu.host)) ∈ BLOCKED_HOSTNAMES →
      (validateUrl url).valid = false) ∧
    (∀ pu : JsUrlM, ∀ n : Nat, jsURL? url = some pu → pu.protocol = "https:" →
      pu.host = .ipv4 n → specPrivateIPv4 n → (validateUrl url).valid = false) ∧
    (∀ pu : JsUrlM, ∀ n : Nat, jsURL? url = some pu → pu.protocol = "https:" →
      pu.host = .ipv4 n → ¬ specPrivateIPv4 n → (validateUrl url).valid = true) ∧
    (∀ pu : JsUrlM, ∀ g : List Nat, jsURL? url = some pu → pu.protocol = "https:" →
      pu.host = .ipv6 g → specPrivateV6 g → (validateUrl url).valid = false) ∧
    (∀ pu : JsUrlM, ∀ g : List Nat, jsURL? url = some pu → pu.protocol = "https:" →
      pu.host = .ipv6 g → ¬ specPrivateV6 g → (validateUrl url).valid = true) ∧
    (∀ pu : JsUrlM, ∀ s : List Char, jsURL? url = some pu → pu.protocol = "https:" →
      pu.host = .domain s →
      lowerStr (String.mk (hostStringCL pu.host)) ∉ BLOCKED_HOSTNAMES →
      (validateUrl url).valid = true) := by
  refine ⟨?_, ?_, ?_, ?_, ?_, ?_, ?_, ?_⟩
  · intro hjs
    unfold validateUrl
    rw [hjs]
  · intro pu hjs hne
    unfold validateUrl
    rw [hjs]
    dsimp only
    rw [if_pos hne]
  · intro pu hjs hp hmem
    rw [validateUrl_eval hjs hp]
    apply chain_valid_false
    left
    exact List.elem_iff.mpr hmem
  · intro pu n hjs hp hhost hspec
    obtain ⟨cs, hcs⟩ := jsURL?_https_host hjs hp
    rw [hhost] at hcs
    have hn := hostParse?_ipv4_lt hcs
    rw [validateUrl_eval hjs hp, hhost,
      show hostStringCL (HostM.ipv4 n) = renderIPv4 n from rfl, lowerStr_renderIPv4]
    apply chain_valid_false
    right; left
    exact (isPrivateIPv4_renderIPv4 hn).mpr hspec
  · intro pu n hjs hp hhost hspec
    obtain ⟨cs, hcs⟩ := jsURL?_https_host hjs hp
    rw [hhost] at hcs
    have hn := hostParse?_ipv4_lt hcs
    rw [validateUrl_eval hjs hp, hhost,
      show hostStringCL (HostM.ipv4 n) = renderIPv4 n from rfl, lowerStr_renderIPv4]
    apply chain_valid_true
    · exact contains_eq_false_of_not_mem (renderIPv4_not_blocked hn hspec)
    · rw [Bool.eq_false_iff]
      exact fun ht => hspec ((isPrivateIPv4_renderIPv4 hn).mp ht)
    · exact isPrivateIPv6_renderIPv4 n
  · intro pu g hjs hp hhost hspec
    obtain ⟨cs, hcs⟩ := jsURL?_https_host hjs hp
    rw [hhost] at hcs
    obtain ⟨hlen, hbound⟩ := hostParse?_ipv6_valid hcs
    obtain ⟨g0, g1, g2, g3, g4, g5, g6, g7, rfl⟩ := len8_decomp g hlen
    rw [validateUrl_eval hjs hp, hhost,
      show hostStringCL (HostM.ipv6 [g0, g1, g2, g3, g4, g5, g6, g7]) =
        '[' :: canonV6 [g0, g1, g2, g3, g4, g5, g6, g7] ++ [']'] from rfl,
      hostname_ipv6_eq]
    apply chain_valid_false
    unfold specPrivateV6 at hspec
    rcases hspec with hloop | hzero | hula | hll | hmap
    · left
      simp only [List.cons.injEq, and_true] at hloop
      obtain ⟨rfl, rfl, rfl, rfl, rfl, rfl, rfl, rfl⟩ := hloop
      decide
    · left
      simp only [List.cons.injEq, and_true] at hzero
      obtain ⟨rfl, rfl, rfl, rfl, rfl, rfl, rfl, rfl⟩ := hzero
      decide
    · right; right
      apply priv6_true_of_testULA
      rw [clean_ipv6]
      apply testULA_canon_of_range
      · exact hula.1
      · exact hula.2
    · right; right
      apply priv6_true_of_testLL
      rw [clean_ipv6]
      apply testLL_canon_of_range
      · exact hll.1
      · exact hll.2
    · obtain ⟨htake, hemb⟩ := hmap
      rw [show [g0, g1, g2, g3, g4, g5, g6, g7].take 6 =
        [g0, g1, g2, g3, g4, g5] from rfl] at htake
      simp only [List.cons.injEq, and_true] at htake
      obtain ⟨rfl, rfl, rfl, rfl, rfl, rfl⟩ := htake
      have hemb2 : specPrivateIPv4 (g6 * 65536 + g7) := hemb
      have hb6 : g6 < 65536 := hbound g6 (by simp)
      have hb7 : g7 < 65536 := hbound g7 (by simp)
      have hcanon : canonV6 [0, 0, 0, 0, 0, 65535, g6, g7] =
          ':' :: ':' :: 'f' :: 'f' :: 'f' :: 'f' :: ':' ::
            (natToHexCL g6 ++ ':' :: natToHexCL g7) := by
        unfold canonV6
        rw [show [0, 0, 0, 0, 0, 65535, g6, g7].map (fun x => x == 0) =
          [true, true, true, true, true, false, g6 == 0, g7 == 0] from rfl]
        rw [bestRun8_mapped (g6 == 0) (g7 == 0)]
        dsimp only
        rw [show (List.map natToHexCL [0, 0, 0, 0, 0, 65535, g6, g7]).drop 5 =
          [natToHexCL 65535, natToHexCL g6, natToHexCL g7] from rfl]
        rw [joinCL_cons_cons, joinCL_cons_cons, joinCL_single]
        rw [show natToHexCL 65535 = ['f', 'f', 'f', 'f'] from by decide]
        rfl
      right; right
      apply priv6_true_of_mapped
      · rw [clean_ipv6, hcanon]
        rfl
      · rw [clean_ipv6, hcanon]
        rw [show (':' :: ':' :: 'f' :: 'f' :: 'f' :: 'f' :: ':' ::
          (natToHexCL g6 ++ ':' :: natToHexCL g7)).drop 7 =
          natToHexCL g6 ++ ':' :: natToHexCL g7 from rfl]
        by_cases hp4 :
            isPrivateIPv4 (String.mk (natToHexCL g6 ++ ':' :: natToHexCL g7)) = true
        · rw [if_pos hp4]
        · rw [if_neg hp4]
          rw [hexPair_renders hb6 hb7]
          dsimp only
          rw [isPrivateIPv4_quad]
          simp only [Bool.or_eq_true, Bool.and_eq_true, beq_iff_eq, decide_eq_true_eq]
          unfold specPrivateIPv4 at hemb2
          omega
  · intro pu g hjs hp hhost hspec
    obtain ⟨cs, hcs⟩ := jsURL?_https_host hjs hp
    rw [hhost] at hcs
    obtain ⟨hlen, hbound⟩ := hostParse?_ipv6_valid hcs
    obtain ⟨g0, g1, g2, g3, g4, g5, g6, g7, rfl⟩ := len8_decomp g hlen
    rw [validateUrl_eval hjs hp, hhost,
      show hostStringCL (HostM.ipv6 [g0, g1, g2, g3, g4, g5, g6, g7]) =
        '[' :: canonV6 [g0, g1, g2, g3, g4, g5, g6, g7] ++ [']'] from rfl,
      hostname_ipv6_eq]
    apply chain_valid_true
    · exact contains_eq_false_of_not_mem (ipv6_not_blocked hspec)
    · exact isPrivateIPv4_bracket [g0, g1, g2, g3, g4, g5, g6, g7]
    · exact priv6_false_public hbound hspec
  · intro pu s hjs hp hhost hmem
    obtain ⟨cs, hcs⟩ := jsURL?_https_host hjs hp
    rw [hhost] at hcs
    obtain ⟨hseq, hcne, hforb, hend⟩ := hostParse?_domain_inv hcs
    have hself : lowCL s = s := by rw [hseq]; exact lowCL_idem cs
    have hls : lowerStr (String.mk s) = String.mk s := by
      unfold lowerStr
      apply String.ext
      show lowCL s = s
      exact hself
    have hnotin : ∀ c2 : Char, c2.toNat < 97 → isForbiddenHostCh c2 = true →
        c2 ∉ s := by
      intro c2 hlow hf hmemc
      rw [hseq] at hmemc
      have hcmem := mem_lowCL_low (Or.inl hlow) hmemc
      have hres := hforb c2 hcmem
      rw [hf] at hres
      exact Bool.noConfusion hres
    rw [validateUrl_eval hjs hp, hhost,
      show hostStringCL (HostM.domain s) = s from rfl, hls]
    have hmem2 : String.mk s ∉ BLOCKED_HOSTNAMES := by
      rw [hhost, show hostStringCL (HostM.domain s) = s from rfl, hls] at hmem
      exact hmem
    apply chain_valid_true
    · exact contains_eq_false_of_not_mem hmem2
    · exact isPrivateIPv4_false_of_none (parse4Groups?_none_of_no_end hend)
    · apply priv6_false_no_colon
      show ':' ∉ lowCL (stripBrackets s)
      rw [stripBrackets_eq_self
        (fun c hc he => hnotin '[' (by decide) (by decide) (he ▸ hc))
        (fun c hc he => hnotin ']' (by decide) (by decide) (he ▸ hc)), hself]
      exact hnotin ':' (by decide) (by decide)

theorem claim3_witness :
    (validateUrl "").valid = false ∧
    (validateUrl "http://example.com").valid = false ∧
    (validateUrl "https://localhost").valid = false ∧
    (validateUrl "https://10.0.0.5").valid = false ∧
    (validateUrl "https://8.8.8.8").valid = true ∧
    (validateUrl "https://[::1]").valid = false ∧
    (validateUrl "https://[2001:db8::1]").valid = true ∧
    (validateUrl "https://example.com").valid = true :=
  ⟨(claim3_validate_url "").1 (by decide),
   (claim3_validate_url "http://example.com").2.1
     ⟨"http:", .domain []⟩ (by decide) (by decide),
   (claim3_validate_url "https://localhost").2.2.1
     ⟨"https:", .domain "localhost".data⟩ (by decide) rfl (by decide),
   (claim3_validate_url "https://10.0.0.5").2.2.2.1
     ⟨"https:", .ipv4 167772165⟩ 167772165 (by decide) rfl rfl (by decide),
   (claim3_validate_url "https://8.8.8.8").2.2.2.2.1
     ⟨"https:", .ipv4 134744072⟩ 134744072 (by decide) rfl rfl (by decide),
   (claim3_validate_url "https://[::1]").2.2.2.2.2.1
     ⟨"https:", .ipv6 [0, 0, 0, 0, 0, 0, 0, 1]⟩ [0, 0, 0, 0, 0, 0, 0, 1]
     (by decide) rfl rfl (by decide),
   (claim3_validate_url "https://[2001:db8::1]").2.2.2.2.2.2.1
     ⟨"https:", .ipv6 [8193, 3512, 0, 0, 0, 0, 0, 1]⟩ [8193, 3512, 0, 0, 0, 0, 0, 1]
     (by decide) rfl rfl (by decide),
   (claim3_validate_url "https://example.com").2.2.2.2.2.2.2
     ⟨"https:", .domain "example.com".data⟩ "example.com".data
     (by decide) rfl rfl (by decide)⟩

end X402








